import Mathlib

/-!
# spdy2http proxy (`src/spdy2http/proxy.c`): a shallow embedding

Text (C strings, header lines, URIs) is modelled as `List Char`, one `Char`
per C `char`.  A value of type `char *` that the code treats as a C string is
the list of its characters before the terminating NUL.  A buffer that comes
with an explicit length (the header line handed to `curl_header_cb`) is the
list of all its bytes and may contain NUL.  The response body is a `List Nat`
of bytes.  `size_t` is a `Nat` reduced modulo `2^64`, `int` an `Int` reduced
to 32 bits two's complement, at the places where the C code converts.
-/

namespace Spdy2Http

/-! ## C library -/

/-- The NUL character that ends a C string. -/
def NUL : Char := Char.ofNat 0

/-- Function `isspace` in the C locale: space, `\t`, `\n`, `\v`, `\f`, `\r`. -/
def isspace (c : Char) : Bool :=
  c.toNat = 32 || (9 ≤ c.toNat && c.toNat ≤ 13)

/-- Function `isdigit`. -/
def isdigit (c : Char) : Bool :=
  48 ≤ c.toNat && c.toNat ≤ 57

/-- Function `tolower` in the C locale. -/
def tolower (c : Char) : Char :=
  if 65 ≤ c.toNat ∧ c.toNat ≤ 90 then Char.ofNat (c.toNat + 32) else c

/-- Function `toupper` in the C locale. -/
def toupper (c : Char) : Char :=
  if 97 ≤ c.toNat ∧ c.toNat ≤ 122 then Char.ofNat (c.toNat - 32) else c

/-- Conversion of an integer to `int` (32 bits, two's complement). -/
def to_int (n : Int) : Int :=
  (n + 2 ^ 31) % 2 ^ 32 - 2 ^ 31

/-- Conversion of an integer to `size_t` (64 bits, unsigned). -/
def to_size_t (n : Int) : Nat :=
  (n % 2 ^ 64).toNat

/-- Conversion of an integer to `long` (64 bits): `strtol` saturates. -/
def clamp_long (n : Int) : Int :=
  if n < -(2 ^ 63) then -(2 ^ 63) else if 2 ^ 63 - 1 < n then 2 ^ 63 - 1 else n

/-- The C string found at the start of a byte buffer: its bytes before the
first NUL. -/
def cstr (buf : List Char) : List Char :=
  buf.takeWhile (fun c => c != NUL)

/-- Function `strndup(p, n)`, `p` given as the bytes from `p` on: at most `n` bytes,
cut at the first NUL. -/
def strndup (p : List Char) (n : Nat) : List Char :=
  cstr (p.take n)

/-- The digit loop of `strtol` in base 10: accumulates the leading decimal
digits of the text and stops at the first other character. -/
def strtol_digits : List Char → Nat → Nat
  | [], acc => acc
  | c :: cs, acc =>
    if isdigit c then strtol_digits cs (acc * 10 + (c.toNat - 48)) else acc

/-- Function `atoi(s)`, that is `(int) strtol(s, NULL, 10)`: leading white space is
skipped, one optional sign is read, then the longest run of decimal digits
(value 0 when there is none).  `strtol` saturates at the range of `long`
and the result is converted to `int`. -/
def atoi (s : List Char) : Int :=
  match s.dropWhile isspace with
  | [] => 0
  | c :: cs =>
    if c = '-' then to_int (clamp_long (-(strtol_digits cs 0 : Int)))
    else if c = '+' then to_int (clamp_long (strtol_digits cs 0))
    else to_int (clamp_long (strtol_digits (c :: cs) 0))

/-- The scan of `strrchr(s, c)`: the index of the last occurrence of `c`
in the part of the string not yet read, `i` being the index of its first
character and `last` the last occurrence seen so far. -/
def strrchr_from (c : Char) : List Char → Nat → Option Nat → Option Nat
  | [], _, last => last
  | x :: xs, i, last => strrchr_from c xs (i + 1) (if x = c then some i else last)

/-- Function `strrchr(s, c)` for `c` other than NUL: the offset of the last `c` in
`s`, `none` for the NULL result. -/
def strrchr (s : List Char) (c : Char) : Option Nat :=
  strrchr_from c s 0 none

/-- What `printf("%.*s", prec, p)` prints, `p` given as the C string from
`p` on: at most `prec` characters, and the whole string when the precision
is negative (a negative precision is taken as if it were omitted). -/
def printf_prec_s (prec : Int) (p : List Char) : List Char :=
  if prec < 0 then p else p.take prec.toNat

/-- Test `strcasecmp(a, b) == 0`. -/
def strcasecmp_eq (a b : List Char) : Bool :=
  a.map tolower == b.map tolower

/-- The number that a string of decimal digits denotes (most significant
digit first). -/
def decimal_value (d : List Char) : Nat :=
  d.foldl (fun a c => a * 10 + (c.toNat - 48)) 0

/-! ## URI parser -/

/-- Type `regmatch_t`: the offsets of one sub-match, both `-1` when the
group took no part in the match. -/
structure regmatch_t where
  rm_so : Int
  rm_eo : Int
  deriving DecidableEq, Repr

/-- The bracket expression `[^:/?#]`. -/
def scheme_char (c : Char) : Bool := !(c = ':' || c = '/' || c = '?' || c = '#')

/-- The bracket expression `[^/?#]`. -/
def authority_char (c : Char) : Bool := !(c = '/' || c = '?' || c = '#')

/-- The bracket expression `[^?#]`. -/
def path_char (c : Char) : Bool := !(c = '?' || c = '#')

/-- The bracket expression `[^#]`. -/
def query_char (c : Char) : Bool := !(c = '#')

/-- Call `regexec(preg, full_uri, 10, pmatch, 0)` for the pattern compiled
by `init_parse_uri`,
`^(([^:/?#]+):)?(//([^/?#]*))?([^?#]*)(\?([^#]*))?(#(.*))?`: the array
`pmatch`.  Every string matches, up to its end (the last three groups take
any text), so the longest match is the whole string and the groups are
found from left to right, each optional group taken when it can be and
each starred bracket as long as it can be: group 1 when a non-empty run of
`[^:/?#]` is followed by `:`, group 3 when `//` comes next, group 5 always,
group 6 when `?` comes next, group 8 when `#` comes next. -/
def uri_regexec (s : List Char) (i : Nat) : regmatch_t :=
  let scheme := s.takeWhile scheme_char
  let has_scheme : Bool := scheme ≠ [] && (s.drop scheme.length).head? = some ':'
  let p1 := if has_scheme then scheme.length + 1 else 0
  let has_authority : Bool := (s.drop p1).take 2 = ['/', '/']
  let authority := (s.drop (p1 + 2)).takeWhile authority_char
  let p2 := if has_authority then p1 + 2 + authority.length else p1
  let path := (s.drop p2).takeWhile path_char
  let p3 := p2 + path.length
  let has_query : Bool := (s.drop p3).head? = some '?'
  let query := (s.drop (p3 + 1)).takeWhile query_char
  let p4 := if has_query then p3 + 1 + query.length else p3
  let has_fragment : Bool := (s.drop p4).head? = some '#'
  let unmatched : regmatch_t := { rm_so := -1, rm_eo := -1 }
  match i with
  | 0 => { rm_so := 0, rm_eo := if has_fragment then s.length else p4 }
  | 1 => if has_scheme then { rm_so := 0, rm_eo := p1 } else unmatched
  | 2 => if has_scheme then { rm_so := 0, rm_eo := scheme.length } else unmatched
  | 3 => if has_authority then { rm_so := p1, rm_eo := p2 } else unmatched
  | 4 => if has_authority then { rm_so := p1 + 2, rm_eo := p2 } else unmatched
  | 5 => { rm_so := p2, rm_eo := p3 }
  | 6 => if has_query then { rm_so := p3, rm_eo := p4 } else unmatched
  | 7 => if has_query then { rm_so := p3 + 1, rm_eo := p4 } else unmatched
  | 8 => if has_fragment then { rm_so := p4, rm_eo := s.length } else unmatched
  | 9 => if has_fragment then { rm_so := p4 + 1, rm_eo := s.length } else unmatched
  | _ => unmatched

/-- Type `struct URI`. -/
structure URI where
  full_uri : List Char
  scheme : List Char
  host_and_port : List Char
  host : List Char
  path : List Char
  path_and_more : List Char
  query : List Char
  fragment : List Char
  port : Nat
  deriving DecidableEq, Repr

/-- Call `asprintf(&dst, "%.*s", prec, &full_uri[so])`: the text printed.
With `so = -1` (an absent group) the precision is 0 at every call and
nothing is read. -/
def asprintf_sub (full_uri : List Char) (prec : Int) (so : Int) : List Char :=
  printf_prec_s prec (full_uri.drop so.toNat)

/-- The text that `parse_uri` stores in `host_and_port`: sub-match 4. -/
def uri_host_and_port (full_uri : List Char) : List Char :=
  asprintf_sub full_uri
    ((uri_regexec full_uri 4).rm_eo - (uri_regexec full_uri 4).rm_so)
    (uri_regexec full_uri 4).rm_so

/-- The ways `parse_uri` ends without a URI: it returns the code `ret`
(not 0), or its behaviour is undefined. -/
inductive ParseFailure where
  | returns (ret : Int)
  | undefined
  deriving DecidableEq, Repr

/-- The `struct URI` in the memory that `malloc` returned, while `parse_uri`
fills it.  `malloc` does not clear the memory: a pointer field holds an
indeterminate value (`none`) until it is assigned. -/
structure URI_alloc where
  full_uri : Option (List Char)
  scheme : Option (List Char)
  host_and_port : Option (List Char)
  host : Option (List Char)
  path : Option (List Char)
  path_and_more : Option (List Char)
  query : Option (List Char)
  fragment : Option (List Char)
  deriving DecidableEq, Repr

/-- Function `free_uri` on a structure that is not NULL: `free` is called on
each of the eight pointer fields, then on the structure.  `free` of an
indeterminate pointer is undefined behaviour: the result tells whether
every call is defined. -/
def free_uri (uri : URI_alloc) : Bool :=
  uri.full_uri.isSome && uri.scheme.isSome && uri.host_and_port.isSome &&
  uri.host.isSome && uri.path.isSome && uri.path_and_more.isSome &&
  uri.query.isSome && uri.fragment.isSome

/-- Function `parse_uri`: the URI stored in `*uri` when it returns 0, or the
way it ends without one.  `regexec` finds a match in every string;
`malloc_ok` tells whether the `malloc` of the structure succeeds.  On the
exit for an invalid port `free_uri` is called before `host` is assigned. -/
def parse_uri (malloc_ok : Bool) (full_uri : List Char) : Except ParseFailure URI :=
  let pmatch := uri_regexec full_uri
  if !malloc_ok then Except.error (ParseFailure.returns (-200))
  else
    let scheme := asprintf_sub full_uri ((pmatch 2).rm_eo - (pmatch 2).rm_so) (pmatch 2).rm_so
    let host_and_port := uri_host_and_port full_uri
    let path := asprintf_sub full_uri ((pmatch 5).rm_eo - (pmatch 5).rm_so) (pmatch 5).rm_so
    let path_and_more :=
      asprintf_sub full_uri ((pmatch 9).rm_eo - (pmatch 5).rm_so) (pmatch 5).rm_so
    let query := asprintf_sub full_uri ((pmatch 7).rm_eo - (pmatch 7).rm_so) (pmatch 7).rm_so
    let fragment := asprintf_sub full_uri ((pmatch 9).rm_eo - (pmatch 9).rm_so) (pmatch 9).rm_so
    match strrchr host_and_port ':' with
    | none =>
      Except.ok
        { full_uri := full_uri, scheme := scheme, host_and_port := host_and_port,
          host := host_and_port, path := path, path_and_more := path_and_more,
          query := query, fragment := fragment, port := 0 }
    | some colon =>
      let port : Int := atoi (host_and_port.drop (colon + 1))
      if port < 1 ∨ port ≥ 256 * 256 then
        -- free_uri(*uri); return -100;
        if free_uri
            { full_uri := some full_uri, scheme := some scheme,
              host_and_port := some host_and_port, host := none, path := some path,
              path_and_more := some path_and_more, query := some query,
              fragment := some fragment } then
          Except.error (ParseFailure.returns (-100))
        else Except.error ParseFailure.undefined
      else
        Except.ok
          { full_uri := full_uri, scheme := scheme, host_and_port := host_and_port,
            host := printf_prec_s (colon : Int) host_and_port, path := path,
            path_and_more := path_and_more, query := query, fragment := fragment,
            port := port.toNat }

/-! ## The transaction -/

/-- Type `struct SPDY_NameValue` of microspdy.h: the name/value multimap, a
sequence of names each with its sequence of values. -/
abbrev SPDY_NameValue := List (List Char × List (List Char))

/-- Modelled from the spec: `struct SPDY_Response` as built by
`SPDY_build_response_with_callback`, which is not part of the sources at
hand: "Build the SPDY response from `status`, `status_message`, `version`,
accumulated headers"; the response owns its copy of each. -/
structure SPDY_Response where
  status : Int
  status_msg : Option (List Char)
  version : Option (List Char)
  headers : SPDY_NameValue
  deriving DecidableEq, Repr

/-- Type `struct Proxy`.  A pointer field is `none` when NULL.  `request`
and `curl_handle` are handles of the two libraries and are kept as numbers;
`http_body` is the content of the allocated block (empty when NULL). -/
structure Proxy where
  url : Option (List Char)
  request : Nat
  response : Option SPDY_Response
  curl_handle : Option Nat
  curl_headers : List (List Char)
  headers : SPDY_NameValue
  version : Option (List Char)
  status_msg : Option (List Char)
  http_body : List Nat
  http_body_size : Nat
  status : Int
  done : Bool
  deriving DecidableEq, Repr

/-- The transaction as `standard_request_handler` sets it up: zeroed by
`memset`, bound to the request, with a newly created header container. -/
def Proxy.fresh (request : Nat) : Proxy :=
  { url := none, request := request, response := none, curl_handle := none,
    curl_headers := [], headers := [], version := none, status_msg := none,
    http_body := [], http_body_size := 0, status := 0, done := false }

/-! ## Response pump: body -/

/-- What a call of `response_callback` leaves behind: the transaction,
the returned value, the bytes written to `buffer`, and `*more`. -/
structure ResponseResult where
  proxy : Proxy
  ret : Int
  buffer : List Nat
  more : Bool
  deriving DecidableEq, Repr

/-- Function `response_callback`.  `malloc_ok` tells whether the `malloc`
of the partial-read branch succeeds.  `ret` is an `int`, and it is converted
back to `size_t` in `memcpy` and in `http_body_size -= ret`. -/
def response_callback (malloc_ok : Bool) (proxy : Proxy) (max : Nat) : ResponseResult :=
  -- *more = true;
  if proxy.http_body_size = 0 then
    -- nothing to write now
    { proxy := proxy, ret := 0, buffer := [],
      more := if proxy.done then false else true }
  else if proxy.http_body_size ≤ max then
    let ret : Int := to_int proxy.http_body_size
    let size := to_size_t ((proxy.http_body_size : Int) - to_size_t ret)
    { proxy := { proxy with http_body := [], http_body_size := size },
      ret := ret,
      buffer := proxy.http_body.take (to_size_t ret),
      more := if proxy.done && size == 0 then false else true }
  else
    let ret : Int := to_int max
    if malloc_ok then
      let newbody := (proxy.http_body.drop max).take (proxy.http_body_size - max)
      let size := to_size_t ((proxy.http_body_size : Int) - to_size_t ret)
      { proxy := { proxy with http_body := newbody, http_body_size := size },
        ret := ret,
        buffer := proxy.http_body.take (to_size_t ret),
        more := if proxy.done && size == 0 then false else true }
    else
      { proxy := proxy, ret := -1, buffer := [], more := true }

/-- Function `curl_write_cb`: the transaction and the returned value.
`alloc_ok` tells whether `malloc`/`realloc` returns a block.  The new block keeps the
first `http_body_size` bytes of the old one (none when it was NULL) and
`memcpy` puts `contents` right after them. -/
def curl_write_cb (alloc_ok : Bool) (proxy : Proxy) (contents : List Nat) : Proxy × Nat :=
  let realsize := contents.length
  if alloc_ok then
    ({ proxy with
        http_body := proxy.http_body.take proxy.http_body_size ++ contents,
        http_body_size := to_size_t ((proxy.http_body_size : Int) + realsize) },
      realsize)
  else
    -- http_body is NULL now
    ({ proxy with http_body := [] }, 0)

/-- One step of the response pump as the two libraries drive it: a
successful call of the body callback `curl_write_cb` with the bytes received
from the origin, or a successful call of the outbound data callback
`response_callback` with the capacity of the destination. -/
inductive PumpEvent where
  | body (contents : List Nat)
  | data (max : Nat)
  deriving DecidableEq, Repr

/-- The transaction and the bytes delivered to the data callbacks so far
(`out`), after an interleaving of successful calls of the two callbacks. -/
def pump : Proxy → List Nat → List PumpEvent → Proxy × List Nat
  | proxy, out, [] => (proxy, out)
  | proxy, out, PumpEvent.body contents :: es =>
    pump (curl_write_cb true proxy contents).1 out es
  | proxy, out, PumpEvent.data max :: es =>
    pump (response_callback true proxy max).proxy
      (out ++ (response_callback true proxy max).buffer) es

/-- The bytes received by the body callback, in arrival order. -/
def received : List PumpEvent → List Nat
  | [] => []
  | PumpEvent.body contents :: es => contents ++ received es
  | PumpEvent.data _ :: es => received es

/-! ## Response pump: headers -/

/-- How a callback ends when it does not return: `DIE` (`exit`) or
`abort()`. -/
inductive Fatal where
  | die
  | abort
  deriving DecidableEq, Repr

deriving instance DecidableEq for Except

/-- Modelled from the spec: `SPDY_name_value_add` of libmicrospdy, which is
not part of the sources at hand.  The multimap "rejects a duplicate", a
value already stored under the name; any other value is stored under the
name after the values already there ("Differing values ... multimap contains
both values under `x-dup`").  `none` is a refusal, which leaves the
container as it was. -/
def SPDY_name_value_add : SPDY_NameValue → List Char → List Char → Option SPDY_NameValue
  | [], name, value => some [(name, [value])]
  | (n, vs) :: rest, name, value =>
    if n = name then
      if value ∈ vs then none else some ((n, vs ++ [value]) :: rest)
    else
      match SPDY_name_value_add rest name value with
      | some rest1 => some ((n, vs) :: rest1)
      | none => none

/-- Modelled from the spec: `SPDY_name_value_lookup` of libmicrospdy, which
is not part of the sources at hand: the values stored under a name, `none`
(NULL) when the name has no entry. -/
def SPDY_name_value_lookup : SPDY_NameValue → List Char → Option (List (List Char))
  | [], _ => none
  | (n, vs) :: rest, name => if n = name then some vs else SPDY_name_value_lookup rest name

/-- Modelled from the spec: `SPDY_HTTP_HEADER_CONNECTION` of microspdy.h,
the hop-by-hop header name `connection`. -/
def SPDY_HTTP_HEADER_CONNECTION : List Char := "connection".toList

/-- Modelled from the spec: `SPDY_HTTP_HEADER_KEEP_ALIVE` of microspdy.h,
the hop-by-hop header name `keep-alive`. -/
def SPDY_HTTP_HEADER_KEEP_ALIVE : List Char := "keep-alive".toList

/-- What the callbacks get from outside the file: whether the allocator
returns a block, what `SPDY_name_value_add` answers (the new content of the
container when it returns `SPDY_YES`, `none` for any other answer, which
leaves the container as it was), what `SPDY_name_value_lookup` returns
(`none` for NULL), and whether `SPDY_build_response_with_callback`,
`SPDY_queue_response` and `curl_slist_append` succeed. -/
structure Env where
  malloc_ok : Bool
  name_value_add : SPDY_NameValue → List Char → List Char → Option SPDY_NameValue
  name_value_lookup : SPDY_NameValue → List Char → Option (List (List Char))
  build_response_ok : Bool
  queue_response_ok : Bool
  slist_append_ok : Bool

/-- The environment in which every call succeeds and the multimap is the
one modelled from the spec. -/
def Env.spec : Env :=
  { malloc_ok := true, name_value_add := SPDY_name_value_add,
    name_value_lookup := SPDY_name_value_lookup, build_response_ok := true, queue_response_ok := true, slist_append_ok := true }

/-- The loops `for(i=pos; i<realsize && !stop(line[i]); ++i);`: given the
line from index `i` on, the index at which the loop ends. -/
def scan (stop : Char → Bool) : List Char → Nat → Nat
  | [], i => i
  | c :: cs, i => if stop c then i else scan stop cs (i + 1)

/-- The loop over the header name,
`for(i=pos; i<realsize && ':'!=line[i] && '\r'!=line[i]; ++i) line[i] = tolower(line[i]);`:
given the line from index `i` on, that part of the line as the loop leaves
it and the index at which the loop ends. -/
def lower_name : List Char → Nat → List Char × Nat
  | [], i => ([], i)
  | c :: cs, i =>
    if c = ':' ∨ c = '\r' then (c :: cs, i)
    else (tolower c :: (lower_name cs (i + 1)).1, (lower_name cs (i + 1)).2)

/-- Function `curl_header_cb`: the transaction and the returned value, or the way
the process ends.  `realsize` is the length of `line`.  After the response
is built the freed `headers`, `status_msg` and `version` keep their (now
dangling) values; they are not read again. -/
def curl_header_cb (env : Env) (proxy : Proxy) (line : List Char) :
    Except Fatal (Proxy × Nat) :=
  let realsize := line.length
  -- trailer
  if proxy.response.isSome then Except.ok (proxy, 0)
  else if line.head? = some '\r' then
    -- all headers were already handled; prepare spdy frames
    if env.build_response_ok then
      let response : SPDY_Response :=
        { status := proxy.status, status_msg := proxy.status_msg,
          version := proxy.version, headers := proxy.headers }
      if env.queue_response_ok then
        Except.ok ({ proxy with response := some response }, realsize)
      else Except.error Fatal.die
    else Except.error Fatal.die
  else if proxy.version.isNone then
    -- first line from headers: version
    let i := scan (fun c => c = ' ') line 0
    if i = realsize then Except.error Fatal.die
    else if !env.malloc_ok then Except.error Fatal.die
    else
      let version := strndup line i
      let pos := i + 1
      -- status (number)
      let i := scan (fun c => c = ' ' || c = '\r') (line.drop pos) pos
      let status := strndup (line.drop pos) (i - pos)
      let proxy1 := { proxy with version := some version, status := atoi status }
      if i < realsize ∧ line.get? i ≠ some '\r' then
        -- status (message)
        let pos := i + 1
        let i := scan (fun c => c = '\r') (line.drop pos) pos
        Except.ok ({ proxy1 with status_msg := some (strndup (line.drop pos) (i - pos)) },
          realsize)
      else Except.ok (proxy1, realsize)
  else
    -- other lines: header name
    let line1 := (lower_name line 0).1
    let i := (lower_name line 0).2
    if !env.malloc_ok then Except.error Fatal.die
    else
      let name := strndup line1 i
      if name = SPDY_HTTP_HEADER_CONNECTION ∨ name = SPDY_HTTP_HEADER_KEEP_ALIVE then
        -- forbidden in spdy, ignore
        Except.ok (proxy, realsize)
      else if i = realsize ∨ line1.get? i = some '\r' then
        -- no value
        match env.name_value_add proxy.headers name [] with
        | some headers => Except.ok ({ proxy with headers := headers }, realsize)
        | none => Except.error Fatal.die
      else
        -- header value
        let pos := scan (fun c => !isspace c) (line1.drop (i + 1)) (i + 1)
        let j := scan (fun c => c = '\r') (line1.drop pos) pos
        let value := strndup (line1.drop pos) (j - pos)
        match env.name_value_add proxy.headers name value with
        | some headers => Except.ok ({ proxy with headers := headers }, realsize)
        | none =>
          match env.name_value_lookup proxy.headers name with
          | some values =>
            if values.any (fun v => strcasecmp_eq value v) then Except.ok (proxy, realsize)
            else Except.error Fatal.abort
          | none => Except.error Fatal.abort

/-- The header lines of an origin response fed to `curl_header_cb` one
after the other, whatever the callback returns; the process ends at the
first fatal error. -/
def feed_headers (env : Env) : Proxy → List (List Char) → Except Fatal Proxy
  | proxy, [] => Except.ok proxy
  | proxy, line :: lines =>
    match curl_header_cb env proxy line with
    | Except.ok r => feed_headers env r.1 lines
    | Except.error e => Except.error e

/-! ## Header translation, SPDY to HTTP -/

/-- The first loop of `iterate_cb`, which sums up `line_len`: `i` is the
index of the first value not yet counted.  `line_len` is an `int`: each
assignment stores the sum converted to 32 bits. -/
def line_len_loop : List (List Char) → Nat → Int → Int
  | [], _, line_len => line_len
  | v :: vs, i, line_len =>
    line_len_loop vs (i + 1)
      (to_int ((if i ≠ 0 then to_int (line_len + 2) else line_len) + v.length))

/-- The `line_len` that `iterate_cb` passes to `malloc`. -/
def iterate_cb_line_len (name : List Char) (value : List (List Char)) : Int :=
  line_len_loop value 0 (to_int (name.length + 3))

/-- The second loop of `iterate_cb`, which appends the values to `line`:
`i` is the index of the first value not yet appended. -/
def strcat_loop : List (List Char) → Nat → List Char → List Char
  | [], _, line => line
  | v :: vs, i, line =>
    strcat_loop vs (i + 1) ((if i ≠ 0 then line ++ ", ".toList else line) ++ v)

/-- The assignment `line[0] = toupper(line[0])`. -/
def toupper_first : List Char → List Char
  | [] => []
  | c :: cs => toupper c :: cs

/-- Function `iterate_cb`, with `num_values` the length of `value`: the transaction
and the returned value (`SPDY_YES` is 1), or the way the process ends. -/
def iterate_cb (env : Env) (proxy : Proxy) (name : List Char) (value : List (List Char)) :
    Except Fatal (Proxy × Int) :=
  if !env.malloc_ok then Except.error Fatal.die
  else
    let line := toupper_first (([] ++ name) ++ ": ".toList)
    let line := strcat_loop value 0 line
    if env.slist_append_ok then
      Except.ok ({ proxy with curl_headers := proxy.curl_headers ++ [line] }, 1)
    else Except.error Fatal.die

/-- No entry of the multimap is named `connection` or `keep-alive`. -/
def no_hop_by_hop (m : SPDY_NameValue) : Prop :=
  ∀ e ∈ m, e.1 ≠ "connection".toList ∧ e.1 ≠ "keep-alive".toList

/-- A transaction with done set and three bytes pending. -/
def proxy_done_pending : Proxy :=
  { Proxy.fresh 0 with http_body := [104, 105, 33], http_body_size := 3, done := true }

/-- A character of `[a-z0-9-]`. -/
def lower_token_char (c : Char) : Bool :=
  (97 ≤ c.toNat && c.toNat ≤ 122) || isdigit c || c = '-'

/-- The text matches `^[A-Z][a-z0-9-]*` up to its end: an upper-case ASCII
letter followed by lower-case letters, digits and hyphens only. -/
def capitalized_token : List Char → Bool
  | [] => false
  | c :: cs => (65 ≤ c.toNat && c.toNat ≤ 90) && cs.all lower_token_char

/-! ## Request handler -/

/-- Type `struct global_options`. -/
structure global_options where
  http_backend : Option (List Char)
  cert : Option (List Char)
  cert_key : Option (List Char)
  listen_port : Nat
  verbose : Bool
  curl_verbose : Bool
  transparent : Bool
  http10 : Bool
  deriving DecidableEq, Repr

/-- The header line `"<Name>: v0, v1, …, vN"` of the header translator: the
name with its first character upper-cased, `": "`, the values joined with
`", "`. -/
def http_header_line (name : List Char) (value : List (List Char)) : List Char :=
  (match name with
    | [] => []
    | c :: cs => toupper c :: cs) ++ ": ".toList ++ List.intercalate ", ".toList value

/-- Modelled from the spec: `SPDY_name_value_iterate` of libmicrospdy, which
is not part of the sources at hand: the iterator is called on each
(name, values[]) pair of the container, in order, as long as it returns
`SPDY_YES` (1). -/
def SPDY_name_value_iterate (env : Env) : SPDY_NameValue → Proxy → Except Fatal Proxy
  | [], proxy => Except.ok proxy
  | (name, value) :: rest, proxy =>
    match iterate_cb env proxy name value with
    | Except.ok r => if r.2 = 1 then SPDY_name_value_iterate env rest r.1 else Except.ok r.1
    | Except.error e => Except.error e

/-- What `standard_request_handler` gets from outside the file, beside the
environment of the callbacks: whether `SPDY_name_value_create` and
`asprintf` succeed, the handle `curl_easy_init` returns (`none` for NULL),
and whether `curl_easy_setopt`, `curl_multi_add_handle` and
`curl_multi_perform` succeed. -/
structure HandlerEnv where
  env : Env
  name_value_create_ok : Bool
  asprintf_ok : Bool
  curl_easy_init : Option Nat
  curl_easy_setopt_ok : Bool
  curl_multi_add_handle_ok : Bool
  curl_multi_perform_ok : Bool

/-- Every call the handler makes outside the file succeeds. -/
def HandlerEnv.succeeds (henv : HandlerEnv) : Prop :=
  henv.env.malloc_ok = true ∧ henv.env.slist_append_ok = true ∧
  henv.name_value_create_ok = true ∧ henv.asprintf_ok = true ∧
  henv.curl_easy_init.isSome = true ∧ henv.curl_easy_setopt_ok = true ∧
  henv.curl_multi_add_handle_ok = true ∧ henv.curl_multi_perform_ok = true

/-- The environment in which every call succeeds, with the multimap
modelled from the spec and 1 as the easy handle. -/
def HandlerEnv.spec : HandlerEnv :=
  { env := Env.spec, name_value_create_ok := true, asprintf_ok := true,
    curl_easy_init := some 1, curl_easy_setopt_ok := true,
    curl_multi_add_handle_ok := true, curl_multi_perform_ok := true }

/-- The options `standard_request_handler` sets on the easy handle. -/
structure CurlOptions where
  verbose : Bool
  url : List Char
  http_version_1_0 : Bool
  httpheader : List (List Char)
  ssl_verifypeer : Nat
  ssl_verifyhost : Nat
  deriving DecidableEq, Repr

/-- The URL that `standard_request_handler` stores in `proxy->url`, or the
exit.  In the non-transparent branch the code prints `uri->scheme` and
`uri->host` before it tests `ret`; when `parse_uri` has failed that reads
memory which is freed or was never set, and the process ends there or at
the `DIE` that follows: the model keeps the exit.  In the same way, when
the behaviour of `parse_uri` is undefined (its exit for an invalid port),
the process ends inside `parse_uri` or at the `DIE` that follows its
return. -/
def request_url (glob_opt : global_options) (henv : HandlerEnv)
    (path host scheme : List Char) : Except Fatal (List Char) :=
  if glob_opt.transparent then
    let url :=
      match glob_opt.http_backend with
      | some backend => scheme ++ "://".toList ++ backend ++ path  -- use always same host
      | none => scheme ++ "://".toList ++ host ++ path              -- use host header
    if !henv.asprintf_ok then Except.error Fatal.die
    else
      match parse_uri henv.env.malloc_ok url with
      | Except.ok _ => Except.ok url
      | Except.error _ => Except.error Fatal.die
  else
    match parse_uri henv.env.malloc_ok path with
    | Except.error _ => Except.error Fatal.die
    | Except.ok uri =>
      if uri.scheme.length = 0 ∨ uri.host.length = 0 then Except.error Fatal.die
      else
        match glob_opt.http_backend with
        | some backend =>
          -- use backend host
          if !henv.asprintf_ok then Except.error Fatal.die
          else Except.ok (uri.scheme ++ "://".toList ++ backend ++ uri.path_and_more)
        | none =>
          -- use request path
          if !henv.env.malloc_ok then Except.error Fatal.die
          else Except.ok path

/-- Function `standard_request_handler`: the transaction it sets up and the
options it gives to curl, or the way the process ends.  `method`, `version`
and `priority` are only printed and are left out. -/
def standard_request_handler (glob_opt : global_options) (henv : HandlerEnv) (request : Nat)
    (path host scheme : List Char) (headers : SPDY_NameValue) :
    Except Fatal (Proxy × CurlOptions) :=
  if !henv.env.malloc_ok then Except.error Fatal.die
  else if !henv.name_value_create_ok then Except.error Fatal.die
  else
    match request_url glob_opt henv path host scheme with
    | Except.error e => Except.error e
    | Except.ok url =>
      match SPDY_name_value_iterate henv.env headers
          { Proxy.fresh request with url := some url } with
      | Except.error e => Except.error e
      | Except.ok proxy =>
        match henv.curl_easy_init with
        | none => Except.error Fatal.abort
        | some handle =>
          if !henv.curl_easy_setopt_ok then Except.error Fatal.abort
          else if !henv.curl_multi_add_handle_ok then Except.error Fatal.abort
          else if !henv.curl_multi_perform_ok then Except.error Fatal.abort
          else
            Except.ok
              ({ proxy with curl_handle := some handle },
               { verbose := glob_opt.curl_verbose, url := url,
                 http_version_1_0 := glob_opt.http10, httpheader := proxy.curl_headers,
                 ssl_verifypeer := 0, ssl_verifyhost := 0 })

/-- The inbound multimap translated to HTTP header lines by `iterate_cb`,
and the lines parsed back by the header-line rule of `curl_header_cb` (on a
transaction whose status line has been read), with the multimap modelled
from the spec: the multimap that results. -/
def headers_round_trip (m : SPDY_NameValue) : Except Fatal SPDY_NameValue :=
  match SPDY_name_value_iterate Env.spec m (Proxy.fresh 0) with
  | Except.error e => Except.error e
  | Except.ok translated =>
    match feed_headers Env.spec { Proxy.fresh 0 with version := some "HTTP/1.1".toList }
        translated.curl_headers with
    | Except.error e => Except.error e
    | Except.ok parsed => Except.ok parsed.headers

/-- An inbound header on which translator and parser agree: a lower-case
name without `:`, CR and NUL that is not a hop-by-hop name, values without
CR and NUL, the first of them not beginning with white space. -/
def translatable (e : List Char × List (List Char)) : Prop :=
  (∀ c ∈ e.1, tolower c = c ∧ c ≠ ':' ∧ c ≠ '\r' ∧ c ≠ NUL) ∧
  e.1 ≠ "connection".toList ∧ e.1 ≠ "keep-alive".toList ∧
  (∀ v ∈ e.2, '\r' ∉ v ∧ NUL ∉ v) ∧
  (∀ c, (e.2.headD []).head? = some c → isspace c = false)

/-! ## Event loop -/

/-- Type `struct timeval`. -/
structure timeval where
  tv_sec : Int
  tv_usec : Int
  deriving DecidableEq, Repr

/-- The part of an iteration of `run` that sets the timeout of the second
`select`: `none` when no transaction is running (the loop `continue`s),
`abort()` when `curl_multi_timeout` fails (`multi_timeout_ok` false).
`curl_timeo` is the value `curl_multi_timeout` stores, in milliseconds. -/
def run_curl_timeout (still_running : Int) (multi_timeout_ok : Bool) (curl_timeo : Int) :
    Except Fatal (Option timeval) :=
  -- timeout.tv_sec = 0;
  if still_running > 0 then
    if !multi_timeout_ok then Except.error Fatal.abort
    else if curl_timeo ≥ 0 ∧ curl_timeo < 500 then
      Except.ok (some { tv_sec := 0, tv_usec := curl_timeo * 1000 })
    else
      Except.ok (some { tv_sec := 0, tv_usec := 500000 })
  else Except.ok none

/-- The wait a `struct timeval` stands for, in microseconds. -/
def timeval.usec (t : timeval) : Int :=
  t.tv_sec * 1000000 + t.tv_usec

/-- The constant `CURLMSG_DONE` of libcurl. -/
def CURLMSG_DONE : Nat := 1

/-- The constant `CURLE_OK` of libcurl. -/
def CURLE_OK : Nat := 0

/-- Type `CURLMsg` of libcurl: the kind of message, the easy handle it is
about, and `data.result`. -/
structure CURLMsg where
  msg : Nat
  easy_handle : Nat
  result : Nat
  deriving DecidableEq, Repr

/-- The loop of `run` over `curl_multi_info_read`: `msgs` are the messages
it reads, in order.  The transactions are given by the easy handle they
were registered with (the pointer stored with `CURLOPT_PRIVATE` is what
`curl_easy_getinfo` gives back); `getinfo_ok` tells for which handles
`curl_easy_getinfo` returns `CURLE_OK`. -/
def run_drain (getinfo_ok : Nat → Bool) :
    (Nat → Proxy) → List CURLMsg → Except Fatal (Nat → Proxy)
  | proxies, [] => Except.ok proxies
  | proxies, m :: msgs =>
    if m.msg = CURLMSG_DONE then
      if CURLE_OK = m.result then
        if getinfo_ok m.easy_handle then
          run_drain getinfo_ok
            (Function.update proxies m.easy_handle
              { proxies m.easy_handle with done := true }) msgs
        else Except.error Fatal.abort
      else
        -- TODO handle error: "bad curl result"
        run_drain getinfo_ok proxies msgs
    else
      -- "shouldn't happen"
      run_drain getinfo_ok proxies msgs

/-! ## Header translation: the line buffer -/

/-- Function `strcat(dest, src)` of the C library on a buffer of `size` bytes
that holds the string `dest`: the characters of `src` and the terminating
NUL are written at the indexes `strlen(dest)` to `strlen(dest) + strlen(src)`.
The result is `none` when the last of these indexes lies outside the buffer,
which is undefined behaviour in C. -/
def strcat (size : Nat) (dest src : List Char) : Option (List Char) :=
  if dest.length + src.length < size then some (dest ++ src) else none

/-- The second loop of `iterate_cb` on a buffer of `size` bytes: `i` is the
index of the first value not yet appended; `none` when a `strcat` writes
outside the buffer. -/
def strcat_loop_in (size : Nat) : List (List Char) → Nat → List Char → Option (List Char)
  | [], _, line => some line
  | v :: vs, i, line =>
    match (if i ≠ 0 then strcat size line ", ".toList else some line) with
    | none => none
    | some line =>
      match strcat size line v with
      | none => none
      | some line => strcat_loop_in size vs (i + 1) line

/-- The statements of `iterate_cb` from `line[0] = 0` to the end of the
second loop, on the buffer of `line_len` bytes that `malloc` returned: the
string held by `line` at the end, or `none` when one of the statements
writes outside the buffer. -/
def iterate_cb_line (name : List Char) (value : List (List Char)) : Option (List Char) :=
  let size := to_size_t (iterate_cb_line_len name value)
  -- line[0] = 0;
  if size = 0 then none
  else
    match strcat size [] name with
    | none => none
    | some line =>
      match strcat size line ": ".toList with
      | none => none
      | some line =>
        -- line[0] = toupper(line[0]);
        strcat_loop_in size value 0 (toupper_first line)

/-! ## Theorems -/

/-! ### Integer conversions -/

theorem to_int_of_lt (n : Nat) (h : n < 2 ^ 31) : to_int (n : Int) = n := by
  unfold to_int
  omega

theorem to_size_t_natCast (n : Nat) (h : n < 2 ^ 64) : to_size_t (n : Int) = n := by
  unfold to_size_t
  omega

/-! ### Outbound data callback -/

/-- C1: after `response_callback` returns, `more` is false exactly when
`done` is set and `http_body_size` is zero at that moment, whatever the
state, the capacity and the outcome of the allocation; with an empty buffer
on entry the call returns 0, writes no byte, and `more` is false exactly
when `done` is set. -/
theorem response_callback_more_iff (malloc_ok : Bool) (proxy : Proxy) (max : Nat) :
    ((response_callback malloc_ok proxy max).more = false ↔
      (proxy.done = true ∧ (response_callback malloc_ok proxy max).proxy.http_body_size = 0)) ∧
    (proxy.http_body_size = 0 →
      (response_callback malloc_ok proxy max).ret = 0 ∧
      (response_callback malloc_ok proxy max).buffer = [] ∧
      (response_callback malloc_ok proxy max).proxy = proxy ∧
      ((response_callback malloc_ok proxy max).more = false ↔ proxy.done = true)) := by
  unfold response_callback
  constructor
  · by_cases h0 : proxy.http_body_size = 0
    · cases hd : proxy.done <;> simp [h0, hd]
    · by_cases hm : proxy.http_body_size ≤ max
      · cases hd : proxy.done <;> simp [h0, hm, hd]
      · cases malloc_ok <;> cases hd : proxy.done <;> simp [h0, hm, hd]
  · intro h0
    cases hd : proxy.done <;> simp [h0, hd]

/-- C1 at two concrete transactions: done with an empty buffer, and done
with three bytes pending of which two fit. -/
theorem response_callback_more_iff_witness :
    (response_callback true { Proxy.fresh 0 with done := true } 8).more = false ∧
    (response_callback true { Proxy.fresh 0 with done := true } 8).ret = 0 ∧
    (response_callback true proxy_done_pending 2).more = true ∧
    (response_callback true proxy_done_pending 2).proxy.http_body_size = 1 := by
  have h := response_callback_more_iff true { Proxy.fresh 0 with done := true } 8
  have h2 := h.2 rfl
  refine ⟨h2.2.2.2.mpr rfl, h2.1, ?_, by decide⟩
  have h3 := (response_callback_more_iff true proxy_done_pending 2).1
  cases hm : (response_callback true proxy_done_pending 2).more with
  | true => rfl
  | false =>
    have h4 := (h3.mp hm).2
    revert h4
    decide

/-- C2, as stated, fails: with done set and three bytes pending, a call with
capacity 10 hands out the three bytes and sets `more` to false, although the
buffer was not empty when the callback was invoked. -/
theorem response_callback_more_entry_counterexample :
    ¬ ((response_callback true proxy_done_pending 10).more = false ↔
        (proxy_done_pending.done = true ∧ proxy_done_pending.http_body_size = 0)) := by
  decide

/-- C2, amended: `more` is false exactly when `done` is set and
`http_body_size` is zero when the callback returns (after the copy); an
empty buffer on entry with `done` set is one such case, and `more` is never
false while `done` is unset. -/
theorem response_callback_more_at_return (malloc_ok : Bool) (proxy : Proxy) (max : Nat) :
    ((response_callback malloc_ok proxy max).more = false ↔
      (proxy.done = true ∧ (response_callback malloc_ok proxy max).proxy.http_body_size = 0)) ∧
    (proxy.done = true ∧ proxy.http_body_size = 0 →
      (response_callback malloc_ok proxy max).more = false) ∧
    (proxy.done = false → (response_callback malloc_ok proxy max).more = true) := by
  unfold response_callback
  refine ⟨?_, ?_, ?_⟩
  · by_cases h0 : proxy.http_body_size = 0
    · cases hd : proxy.done <;> simp [h0, hd]
    · by_cases hm : proxy.http_body_size ≤ max
      · cases hd : proxy.done <;> simp [h0, hm, hd]
      · cases malloc_ok <;> cases hd : proxy.done <;> simp [h0, hm, hd]
  · rintro ⟨hd, h0⟩
    simp [h0, hd]
  · intro hd
    by_cases h0 : proxy.http_body_size = 0
    · simp [h0, hd]
    · by_cases hm : proxy.http_body_size ≤ max
      · simp [h0, hm, hd]
      · cases malloc_ok <;> simp [h0, hm, hd]

/-- C2, amended, at a concrete transaction: done set and three bytes
pending; capacity 10 drains the buffer and ends the stream, capacity 2 does
not. -/
theorem response_callback_more_at_return_witness :
    (response_callback true proxy_done_pending 10).more = false ∧
    (response_callback true proxy_done_pending 10).proxy.http_body_size = 0 ∧
    (response_callback true proxy_done_pending 2).more = true ∧
    (response_callback true (Proxy.fresh 0) 10).more = true := by
  have h := response_callback_more_at_return true proxy_done_pending 10
  have h0 : (response_callback true proxy_done_pending 10).proxy.http_body_size = 0 := by
    decide
  refine ⟨h.1.mpr ⟨rfl, h0⟩, h0, by decide, ?_⟩
  exact (response_callback_more_at_return true (Proxy.fresh 0) 10).2.2 rfl

/-- The effect of a successful `response_callback` on a buffer whose size
fits an `int`: shared by the statements on the copy and on the pump. -/
theorem response_callback_eq (proxy : Proxy) (max : Nat)
    (hsz : proxy.http_body_size = proxy.http_body.length)
    (hint : proxy.http_body.length < 2 ^ 31 ∨ max < 2 ^ 31)
    (h64 : proxy.http_body.length < 2 ^ 64) :
    response_callback true proxy max =
      { proxy := { proxy with
                    http_body := proxy.http_body.drop (min max proxy.http_body.length),
                    http_body_size := proxy.http_body.length - min max proxy.http_body.length },
        ret := (min max proxy.http_body.length : Nat),
        buffer := proxy.http_body.take (min max proxy.http_body.length),
        more := if proxy.done && proxy.http_body.length ≤ max then false else true } := by
  unfold response_callback
  by_cases h0 : proxy.http_body_size = 0
  · have hl : proxy.http_body.length = 0 := by omega
    have hnil : proxy.http_body = [] := List.length_eq_zero.mp hl
    rw [if_pos h0]
    cases proxy
    simp_all
  · rw [if_neg h0]
    by_cases hm : proxy.http_body_size ≤ max
    · have hmin : min max proxy.http_body.length = proxy.http_body.length := by omega
      have hlt : proxy.http_body_size < 2 ^ 31 := by omega
      rw [if_pos hm, hmin]
      simp only [to_int_of_lt _ hlt, to_size_t_natCast _ (by omega : proxy.http_body_size < 2 ^ 64)]
      have hz : to_size_t ((proxy.http_body_size : Int) - (proxy.http_body_size : Int)) = 0 := by
        simp [to_size_t]
      rw [hz, hsz]
      simp [hsz ▸ hm]
    · have hmin : min max proxy.http_body.length = max := by omega
      have hlt : max < 2 ^ 31 := by omega
      have hsub : to_size_t ((proxy.http_body_size : Int) - (max : Int))
          = proxy.http_body.length - max := by
        unfold to_size_t
        omega
      rw [if_neg hm, hmin]
      simp only [to_int_of_lt _ hlt, to_size_t_natCast _ (by omega : max < 2 ^ 64), if_true, hsub]
      have hdrop : List.take (proxy.http_body_size - max) (List.drop max proxy.http_body)
          = List.drop max proxy.http_body := by
        apply List.take_of_length_le
        simp [hsz]
      have hnz : ¬ proxy.http_body.length - max = 0 := by omega
      have hnle : ¬ proxy.http_body.length ≤ max := by omega
      rw [hdrop]
      simp [hnz, hnle]

/-- C3: on a non-empty body buffer `b` whose length fits an `int`, with the
allocation succeeding, `response_callback` returns `n = min(max, |b|)`,
writes exactly the first `n` bytes of `b` to the destination, and leaves the
remaining `|b| - n` bytes of `b`, in order, as the body buffer, with
`http_body_size = |b| - n`; no other field changes. -/
theorem response_callback_copies (proxy : Proxy) (max : Nat) (b : List Nat)
    (hb : proxy.http_body = b) (hne : b ≠ [])
    (hsz : proxy.http_body_size = b.length) (hint : b.length < 2 ^ 31) :
    (response_callback true proxy max).ret = (min max b.length : Nat) ∧
    (response_callback true proxy max).buffer = b.take (min max b.length) ∧
    (response_callback true proxy max).proxy =
      { proxy with http_body := b.drop (min max b.length),
                   http_body_size := b.length - min max b.length } ∧
    (response_callback true proxy max).buffer ++ (response_callback true proxy max).proxy.http_body
      = b := by
  subst hb
  rw [response_callback_eq proxy max hsz (Or.inl hint) (by omega)]
  simp

/-- C3 at a concrete transaction: five bytes pending, capacity 2. -/
theorem response_callback_copies_witness :
    (response_callback true
        { Proxy.fresh 0 with http_body := [1, 2, 3, 4, 5], http_body_size := 5 } 2).ret
      = (min 2 [1, 2, 3, 4, 5].length : Nat) ∧
    (response_callback true
        { Proxy.fresh 0 with http_body := [1, 2, 3, 4, 5], http_body_size := 5 } 2).buffer
      = [1, 2] ∧
    (response_callback true
        { Proxy.fresh 0 with http_body := [1, 2, 3, 4, 5], http_body_size := 5 } 2).proxy.http_body
      = [3, 4, 5] := by
  have h := response_callback_copies
    { Proxy.fresh 0 with http_body := [1, 2, 3, 4, 5], http_body_size := 5 } 2 [1, 2, 3, 4, 5]
    rfl (by decide) rfl (by norm_num)
  refine ⟨h.1, ?_, ?_⟩
  · rw [h.2.1]; rfl
  · rw [h.2.2.1]; rfl

/-- The effect of a successful `curl_write_cb` on a well-formed buffer. -/
theorem curl_write_cb_eq (proxy : Proxy) (contents : List Nat)
    (hsz : proxy.http_body_size = proxy.http_body.length)
    (h64 : proxy.http_body.length + contents.length < 2 ^ 64) :
    curl_write_cb true proxy contents =
      ({ proxy with http_body := proxy.http_body ++ contents,
                    http_body_size := proxy.http_body.length + contents.length },
        contents.length) := by
  unfold curl_write_cb
  have h1 : to_size_t ((proxy.http_body.length : Int) + (contents.length : Int))
      = proxy.http_body.length + contents.length := by
    unfold to_size_t
    omega
  simp [h1, hsz]

/-- The pump conserves the byte sequence: what has been delivered, followed
by what is buffered, followed by what is still to be received, stays the
same along every interleaving. -/
theorem pump_conserves (es : List PumpEvent) :
    ∀ (proxy : Proxy) (out : List Nat),
      proxy.http_body_size = proxy.http_body.length →
      (∀ max, PumpEvent.data max ∈ es → max < 2 ^ 31) →
      proxy.http_body.length + (received es).length < 2 ^ 64 →
      (pump proxy out es).2 ++ (pump proxy out es).1.http_body
          = out ++ proxy.http_body ++ received es ∧
        (pump proxy out es).1.http_body_size = (pump proxy out es).1.http_body.length := by
  induction es with
  | nil =>
    intro proxy out hsz _ _
    simp [pump, received, hsz]
  | cons e es ih =>
    intro proxy out hsz hmax h64
    cases e with
    | body contents =>
      simp only [received, List.length_append] at h64
      have hw := curl_write_cb_eq proxy contents hsz (by omega)
      have := ih (curl_write_cb true proxy contents).1 out
        (by rw [hw]; simp)
        (fun m hm => hmax m (List.mem_cons_of_mem _ hm))
        (by rw [hw]; simp; omega)
      simp only [pump, received]
      rw [hw] at this ⊢
      simpa using this
    | data max =>
      simp only [received] at h64
      have hlt : max < 2 ^ 31 := hmax max (List.mem_cons_self _ _)
      have hr := response_callback_eq proxy max hsz (Or.inr hlt) (by omega)
      have := ih (response_callback true proxy max).proxy
        (out ++ (response_callback true proxy max).buffer)
        (by rw [hr]; simp)
        (fun m hm => hmax m (List.mem_cons_of_mem _ hm))
        (by rw [hr]; simp; omega)
      simp only [pump, received]
      rw [hr] at this ⊢
      simpa using this

/-- C4: starting from an empty body buffer, for every interleaving of
successful `curl_write_cb` and `response_callback` calls (capacities that
fit an `int`, total size that fits a `size_t`), the bytes delivered to the
data callbacks followed by the bytes still buffered are the bytes received
by the body callback, in arrival order; once the buffer is drained the
delivered bytes are the received bytes, and so are their counts. -/
theorem pump_delivers_received (proxy : Proxy) (es : List PumpEvent)
    (hempty : proxy.http_body = [] ∧ proxy.http_body_size = 0)
    (hmax : ∀ max, PumpEvent.data max ∈ es → max < 2 ^ 31)
    (h64 : (received es).length < 2 ^ 64) :
    (pump proxy [] es).2 ++ (pump proxy [] es).1.http_body = received es ∧
    ((pump proxy [] es).1.http_body_size = 0 →
      (pump proxy [] es).2 = received es ∧
      (pump proxy [] es).2.length = (received es).length) := by
  have h := pump_conserves es proxy [] (by simp [hempty.1, hempty.2]) hmax
    (by simp [hempty.1]; exact h64)
  simp only [hempty.1, List.nil_append] at h
  refine ⟨h.1, fun h0 => ?_⟩
  have hl : (pump proxy [] es).1.http_body.length = 0 := by rw [← h.2]; exact h0
  have hnil : (pump proxy [] es).1.http_body = [] := List.length_eq_zero.mp hl
  have h1 := h.1
  rw [hnil, List.append_nil] at h1
  exact ⟨h1, by rw [h1]⟩

/-- C4 at a concrete interleaving: two chunks received, pulled two bytes at
a time. -/
theorem pump_delivers_received_witness :
    (pump (Proxy.fresh 0) []
        [PumpEvent.body [1, 2, 3], PumpEvent.data 2, PumpEvent.body [4, 5],
         PumpEvent.data 2, PumpEvent.data 2]).2 = [1, 2, 3, 4, 5] ∧
    (pump (Proxy.fresh 0) []
        [PumpEvent.body [1, 2, 3], PumpEvent.data 2, PumpEvent.body [4, 5],
         PumpEvent.data 2, PumpEvent.data 2]).1.http_body_size = 0 := by
  have h := pump_delivers_received (Proxy.fresh 0)
    [PumpEvent.body [1, 2, 3], PumpEvent.data 2, PumpEvent.body [4, 5],
     PumpEvent.data 2, PumpEvent.data 2]
    ⟨rfl, rfl⟩
    (by intro m hm; simp at hm; omega)
    (by simp [received])
  have h0 : (pump (Proxy.fresh 0) []
        [PumpEvent.body [1, 2, 3], PumpEvent.data 2, PumpEvent.body [4, 5],
         PumpEvent.data 2, PumpEvent.data 2]).1.http_body_size = 0 := by decide
  exact ⟨(h.2 h0).1, h0⟩

/-! ### Header translation, SPDY to HTTP -/

/-- The value loop of `iterate_cb` once the first value is in: every further
value is appended after a separator. -/
theorem strcat_loop_succ (vs : List (List Char)) :
    ∀ (i : Nat) (line : List Char),
      strcat_loop vs (i + 1) line = line ++ (vs.map (fun v => ", ".toList ++ v)).flatten := by
  induction vs with
  | nil => intro i line; simp [strcat_loop]
  | cons v vs ih =>
    intro i line
    simp [strcat_loop, ih]

/-- Joining with a separator, one value at a time. -/
theorem intercalate_cons_eq (sep v : List Char) (vs : List (List Char)) :
    List.intercalate sep (v :: vs) = v ++ (vs.map (fun w => sep ++ w)).flatten := by
  induction vs generalizing v with
  | nil => simp [List.intercalate]
  | cons w ws ih =>
    have h := ih w
    simp only [List.intercalate, List.intersperse, List.flatten_cons, List.map_cons] at h ⊢
    rw [h]
    simp

/-- The value loop of `iterate_cb` appends the values joined with `", "`. -/
theorem strcat_loop_zero (vs : List (List Char)) (line : List Char) :
    strcat_loop vs 0 line = line ++ List.intercalate ", ".toList vs := by
  cases vs with
  | nil => simp [strcat_loop, List.intercalate]
  | cons v vs =>
    rw [intercalate_cons_eq]
    simp [strcat_loop, strcat_loop_succ]

/-- C6: for every header name and every list of values, `iterate_cb` (with
its allocations succeeding) appends to the outbound header list exactly one
line: the name with its first character upper-cased and the others
unchanged, then `": "`, then the values joined with `", "` in their order;
it returns `SPDY_YES` and changes no other field. -/
theorem iterate_cb_appends_line (env : Env) (proxy : Proxy) (name : List Char)
    (value : List (List Char))
    (hmalloc : env.malloc_ok = true) (happend : env.slist_append_ok = true) :
    iterate_cb env proxy name value =
      Except.ok
        ({ proxy with
            curl_headers := proxy.curl_headers ++
              [(match name with
                | [] => []
                | c :: cs => toupper c :: cs) ++ ": ".toList
                ++ List.intercalate ", ".toList value] }, 1) := by
  unfold iterate_cb
  simp only [hmalloc, happend, strcat_loop_zero]
  cases name with
  | nil =>
    have h : toupper ':' = ':' := by decide
    simp [toupper_first, h]
  | cons c cs => simp [toupper_first]

/-- C6 at a concrete header: `accept` with the values `a` and `b`. -/
theorem iterate_cb_appends_line_witness :
    iterate_cb Env.spec (Proxy.fresh 0) "accept".toList ["a".toList, "b".toList] =
      Except.ok ({ Proxy.fresh 0 with curl_headers := ["Accept: a, b".toList] }, 1) := by
  have h := iterate_cb_appends_line Env.spec (Proxy.fresh 0) "accept".toList
    ["a".toList, "b".toList] rfl rfl
  rw [h]
  decide

/-! ### C library facts -/

theorem scan_all (stop : Char → Bool) (pre : List Char) :
    ∀ i : Nat, (∀ c ∈ pre, stop c = false) → scan stop pre i = i + pre.length := by
  induction pre with
  | nil => intro i _; simp [scan]
  | cons c cs ih =>
    intro i h
    have hc : stop c = false := h c (List.mem_cons_self _ _)
    have := ih (i + 1) (fun d hd => h d (List.mem_cons_of_mem _ hd))
    simp [scan, hc, this]
    omega

theorem scan_append_stop (stop : Char → Bool) (pre : List Char) (x : Char) (post : List Char) :
    ∀ i : Nat, (∀ c ∈ pre, stop c = false) → stop x = true →
      scan stop (pre ++ x :: post) i = i + pre.length := by
  induction pre with
  | nil => intro i _ hx; simp [scan, hx]
  | cons c cs ih =>
    intro i h hx
    have hc : stop c = false := h c (List.mem_cons_self _ _)
    have := ih (i + 1) (fun d hd => h d (List.mem_cons_of_mem _ hd)) hx
    simp [scan, hc, this]
    omega

theorem scan_ge (stop : Char → Bool) (l : List Char) : ∀ i : Nat, i ≤ scan stop l i := by
  induction l with
  | nil => intro i; simp [scan]
  | cons c cs ih =>
    intro i
    unfold scan
    split
    · exact Nat.le_refl i
    · exact Nat.le_trans (Nat.le_succ i) (ih (i + 1))

theorem cstr_of_no_nul (l : List Char) (h : NUL ∉ l) : cstr l = l := by
  unfold cstr
  rw [List.takeWhile_eq_self_iff]
  intro c hc
  simp only [bne_iff_ne, ne_eq]
  intro hcn
  exact h (hcn ▸ hc)

theorem strndup_append (pre rest : List Char) (h : NUL ∉ pre) :
    strndup (pre ++ rest) pre.length = pre := by
  unfold strndup
  simp [cstr_of_no_nul pre h]

theorem strtol_digits_append (d : List Char) (rest : List Char) :
    ∀ acc : Nat, (∀ c ∈ d, isdigit c = true) → (∀ c, rest.head? = some c → isdigit c = false) →
      strtol_digits (d ++ rest) acc = d.foldl (fun a c => a * 10 + (c.toNat - 48)) acc := by
  induction d with
  | nil =>
    intro acc _ hrest
    cases rest with
    | nil => simp [strtol_digits]
    | cons r rs =>
      have := hrest r rfl
      simp [strtol_digits, this]
  | cons c cs ih =>
    intro acc h hrest
    have hc : isdigit c = true := h c (List.mem_cons_self _ _)
    have := ih (acc * 10 + (c.toNat - 48)) (fun d hd => h d (List.mem_cons_of_mem _ hd)) hrest
    simp [strtol_digits, hc, this]

theorem isdigit_not_isspace (c : Char) (h : isdigit c = true) : isspace c = false := by
  unfold isdigit at h
  unfold isspace
  simp only [Bool.and_eq_true, decide_eq_true_eq] at h
  simp only [Bool.or_eq_false_iff, decide_eq_false_iff_not, Bool.and_eq_false_iff]
  omega

theorem isdigit_toNat (c : Char) (h : isdigit c = true) : 48 ≤ c.toNat ∧ c.toNat ≤ 57 := by
  unfold isdigit at h
  simpa using h

/-- Value of `atoi` on a text that begins with a run of decimal digits
whose value fits an `int`, followed by a character that is not a digit (or
by nothing): the value of the run. -/
theorem atoi_digits (d rest : List Char) (hne : d ≠ [])
    (hd : ∀ c ∈ d, isdigit c = true) (hrest : ∀ c, rest.head? = some c → isdigit c = false)
    (hint : decimal_value d < 2 ^ 31) :
    atoi (d ++ rest) = decimal_value d := by
  cases d with
  | nil => exact absurd rfl hne
  | cons c cs =>
    have hc : isdigit c = true := hd c (List.mem_cons_self _ _)
    have hsp : isspace c = false := isdigit_not_isspace c hc
    have hn := isdigit_toNat c hc
    have hminus : c ≠ '-' := by
      intro h; rw [h] at hn; revert hn; decide
    have hplus : c ≠ '+' := by
      intro h; rw [h] at hn; revert hn; decide
    have hval := strtol_digits_append (c :: cs) rest 0 hd hrest
    unfold atoi
    simp only [List.cons_append, List.dropWhile_cons, hsp, Bool.false_eq_true, if_false,
      hminus, hplus]
    rw [← List.cons_append, hval]
    unfold decimal_value at hint ⊢
    unfold clamp_long
    have h1 : ¬ ((List.foldl (fun a c => a * 10 + (c.toNat - 48)) 0 (c :: cs) : Nat) : Int)
        < -(2 ^ 63) := by omega
    have h2 : ¬ (2 ^ 63 - 1 : Int)
        < ((List.foldl (fun a c => a * 10 + (c.toNat - 48)) 0 (c :: cs) : Nat) : Int) := by omega
    rw [if_neg h1, if_neg h2]
    exact to_int_of_lt _ hint

theorem no_nul_of_digits (d : List Char) (hd : ∀ c ∈ d, isdigit c = true) : NUL ∉ d := by
  intro h
  have := hd NUL h
  revert this
  decide

/-! ### Header callback: status line -/

/-- The status-line branch of `curl_header_cb` up to the end of the status
number: `x` is the character that ends the number. -/
theorem curl_header_cb_status_aux (env : Env) (proxy : Proxy)
    (version status : List Char) (x : Char) (post : List Char)
    (hmalloc : env.malloc_ok = true)
    (hresp : proxy.response = none) (hver : proxy.version = none)
    (hv_sp : ' ' ∉ version) (hv_cr : version.head? ≠ some '\r') (hv_nul : NUL ∉ version)
    (hs_ne : status ≠ []) (hs_digit : ∀ c ∈ status, isdigit c = true)
    (hs_int : decimal_value status < 2 ^ 31)
    (hx : x = ' ' ∨ x = '\r') :
    curl_header_cb env proxy (version ++ ' ' :: (status ++ x :: post))
      = if x = '\r' then
          Except.ok
            ({ proxy with version := some version, status := decimal_value status },
             (version ++ ' ' :: (status ++ x :: post)).length)
        else
          Except.ok
            ({ proxy with
                version := some version, status := decimal_value status,
                status_msg := some (strndup post
                  (scan (fun c => c = '\r') post (version.length + 1 + status.length + 1)
                    - (version.length + 1 + status.length + 1))) },
             (version ++ ' ' :: (status ++ x :: post)).length) := by
  have hhead : (version ++ ' ' :: (status ++ x :: post)).head? ≠ some '\r' := by
    cases version with
    | nil => simp
    | cons v vs => simpa using hv_cr
  have hscan1 : scan (fun c => c = ' ') (version ++ ' ' :: (status ++ x :: post)) 0
      = version.length := by
    rw [scan_append_stop _ version ' ' _ 0 (by
      intro c hc
      simp only [decide_eq_false_iff_not]
      intro h
      exact hv_sp (h ▸ hc)) (by simp)]
    simp
  have hdrop1 : (version ++ ' ' :: (status ++ x :: post)).drop (version.length + 1)
      = status ++ x :: post := by
    rw [List.drop_append_eq_append_drop]
    simp
  have hstop : ∀ c ∈ status, (c = ' ' || c = '\r') = false := by
    intro c hc
    have hn := isdigit_toNat c (hs_digit c hc)
    simp only [Bool.or_eq_false_iff, decide_eq_false_iff_not]
    constructor
    · intro h; rw [h] at hn; revert hn; decide
    · intro h; rw [h] at hn; revert hn; decide
  have hscan2 : scan (fun c => c = ' ' || c = '\r') (status ++ x :: post) (version.length + 1)
      = version.length + 1 + status.length := by
    apply scan_append_stop _ status x post _ hstop
    rcases hx with h | h <;> simp [h]
  have hstatus : strndup (status ++ x :: post) status.length = status :=
    strndup_append status _ (no_nul_of_digits status hs_digit)
  have hatoi : atoi status = decimal_value status := by
    have := atoi_digits status [] hs_ne hs_digit (by simp) hs_int
    simpa using this
  have hget : (version ++ ' ' :: (status ++ x :: post)).get? (version.length + 1 + status.length)
      = some x := by
    rw [List.get?_eq_getElem?, List.getElem?_append_right (by omega)]
    have : version.length + 1 + status.length - version.length = status.length + 1 := by omega
    rw [this, List.getElem?_cons_succ, List.getElem?_append_right (by omega)]
    simp
  have hdrop2 : (version ++ ' ' :: (status ++ x :: post)).drop
      (version.length + 1 + status.length + 1) = post := by
    have : version.length + 1 + status.length + 1
        = (version ++ ' ' :: (status ++ [x])).length := by simp; omega
    rw [this]
    have h2 : version ++ ' ' :: (status ++ x :: post)
        = (version ++ ' ' :: (status ++ [x])) ++ post := by simp
    rw [h2, List.drop_left]
  have hlen : ¬ version.length = (version ++ ' ' :: (status ++ x :: post)).length := by
    simp
  have hlt : version.length + 1 + status.length
      < (version ++ ' ' :: (status ++ x :: post)).length := by
    simp; omega
  unfold curl_header_cb
  simp only [hresp, hver, Option.isSome_none, Option.isNone_none, Bool.false_eq_true, if_false,
    if_true, hhead, hscan1, hlen, hmalloc, Bool.not_true, hdrop1, hscan2, hget, hlt, true_and,
    strndup_append version _ hv_nul]
  have hsub : version.length + 1 + status.length - (version.length + 1) = status.length := by
    omega
  rw [hsub, hstatus, hatoi, hdrop2]
  rcases hx with h | h
  · have hne : (' ' : Char) ≠ '\r' := by decide
    subst h
    simp [hne]
  · subst h
    simp

/-- C7: on the first header line of a transaction (no response built, no
version and no status message stored), a status line
`VERSION SP STATUS [SP MESSAGE] CRLF` that is not the header terminator,
where `VERSION` holds no space, `STATUS` is a decimal number that fits an
`int`, `MESSAGE` holds no CR and the text holds no NUL, `curl_header_cb`
stores `version = VERSION`, `status` = the value of `STATUS` and
`status_msg = MESSAGE`, and returns the length of the line; when `MESSAGE`
is absent no status message is stored. -/
theorem curl_header_cb_status_line (env : Env) (proxy : Proxy)
    (version status : List Char) (message : Option (List Char))
    (hmalloc : env.malloc_ok = true)
    (hresp : proxy.response = none) (hver : proxy.version = none)
    (hmsg : proxy.status_msg = none)
    (hv_sp : ' ' ∉ version) (hv_cr : version.head? ≠ some '\r') (hv_nul : NUL ∉ version)
    (hs_ne : status ≠ []) (hs_digit : ∀ c ∈ status, isdigit c = true)
    (hs_int : decimal_value status < 2 ^ 31)
    (hm : ∀ m, message = some m → '\r' ∉ m ∧ NUL ∉ m) :
    curl_header_cb env proxy
        (version ++ ' ' :: status ++
          (match message with
           | none => []
           | some m => ' ' :: m) ++ ['\r', '\n'])
      = Except.ok
          ({ proxy with version := some version, status := decimal_value status,
                        status_msg := message },
           (version ++ ' ' :: status ++
              (match message with
               | none => []
               | some m => ' ' :: m) ++ ['\r', '\n']).length) := by
  cases message with
  | none =>
    have h := curl_header_cb_status_aux env proxy version status '\r' ['\n'] hmalloc hresp hver
      hv_sp hv_cr hv_nul hs_ne hs_digit hs_int (Or.inr rfl)
    simp only [if_true] at h
    have hline : version ++ ' ' :: status ++ ([] : List Char) ++ ['\r', '\n']
        = version ++ ' ' :: (status ++ '\r' :: ['\n']) := by simp
    simp only [hline]
    rw [h, ← hmsg]
  | some m =>
    have hm1 := hm m rfl
    have h := curl_header_cb_status_aux env proxy version status ' ' (m ++ ['\r', '\n']) hmalloc
      hresp hver hv_sp hv_cr hv_nul hs_ne hs_digit hs_int (Or.inl rfl)
    have hne : (' ' : Char) ≠ '\r' := by decide
    simp only [hne, if_false] at h
    have hscan : scan (fun c => c = '\r') (m ++ ['\r', '\n'])
        (version.length + 1 + status.length + 1)
        = version.length + 1 + status.length + 1 + m.length := by
      apply scan_append_stop _ m '\r' ['\n']
      · intro c hc
        simp only [decide_eq_false_iff_not]
        intro hcr
        exact hm1.1 (hcr ▸ hc)
      · simp
    have hsub : version.length + 1 + status.length + 1 + m.length
        - (version.length + 1 + status.length + 1) = m.length := by omega
    rw [hscan, hsub, strndup_append m _ hm1.2] at h
    have hline : version ++ ' ' :: status ++ (' ' :: m) ++ ['\r', '\n']
        = version ++ ' ' :: (status ++ ' ' :: (m ++ ['\r', '\n'])) := by simp
    simp only [hline]
    rw [h]

/-- C7 at two concrete status lines: one without a message, one whose
message contains a space. -/
theorem curl_header_cb_status_line_witness :
    curl_header_cb Env.spec (Proxy.fresh 0) "HTTP/1.1 204\r\n".toList
      = Except.ok ({ Proxy.fresh 0 with version := some "HTTP/1.1".toList, status := 204,
                                        status_msg := none }, 14) ∧
    curl_header_cb Env.spec (Proxy.fresh 0) "HTTP/1.0 404 Not Found\r\n".toList
      = Except.ok ({ Proxy.fresh 0 with version := some "HTTP/1.0".toList, status := 404,
                                        status_msg := some "Not Found".toList }, 24) := by
  constructor
  · exact curl_header_cb_status_line Env.spec (Proxy.fresh 0) "HTTP/1.1".toList "204".toList none
      rfl rfl rfl rfl (by decide) (by decide) (by decide) (by decide) (by decide) (by decide)
      (by intro m h; cases h)
  · exact curl_header_cb_status_line Env.spec (Proxy.fresh 0) "HTTP/1.0".toList "404".toList
      (some "Not Found".toList)
      rfl rfl rfl rfl (by decide) (by decide) (by decide) (by decide) (by decide) (by decide)
      (by intro m h; cases h; decide)

/-! ### Header callback: header lines -/

theorem lower_name_append (name : List Char) (x : Char) (rest : List Char) :
    ∀ i : Nat, ':' ∉ name → '\r' ∉ name → (x = ':' ∨ x = '\r') →
      lower_name (name ++ x :: rest) i = (name.map tolower ++ x :: rest, i + name.length) := by
  induction name with
  | nil =>
    intro i _ _ hx
    simp [lower_name, hx]
  | cons c cs ih =>
    intro i h1 h2 hx
    have hc1 : c ≠ ':' := fun h => h1 (h ▸ List.mem_cons_self _ _)
    have hc2 : c ≠ '\r' := fun h => h2 (h ▸ List.mem_cons_self _ _)
    have := ih (i + 1) (fun h => h1 (List.mem_cons_of_mem _ h))
      (fun h => h2 (List.mem_cons_of_mem _ h)) hx
    show lower_name (c :: (cs ++ x :: rest)) i = _
    rw [lower_name, if_neg (by simp [hc1, hc2]), this]
    simp only [List.map_cons, List.length_cons, List.cons_append]
    refine Prod.ext rfl ?_
    show i + 1 + cs.length = i + (cs.length + 1)
    omega

theorem lower_name_all (name : List Char) :
    ∀ i : Nat, ':' ∉ name → '\r' ∉ name →
      lower_name name i = (name.map tolower, i + name.length) := by
  induction name with
  | nil => intro i _ _; simp [lower_name]
  | cons c cs ih =>
    intro i h1 h2
    have hc1 : c ≠ ':' := fun h => h1 (h ▸ List.mem_cons_self _ _)
    have hc2 : c ≠ '\r' := fun h => h2 (h ▸ List.mem_cons_self _ _)
    have := ih (i + 1) (fun h => h1 (List.mem_cons_of_mem _ h))
      (fun h => h2 (List.mem_cons_of_mem _ h))
    simp only [lower_name, hc1, hc2, or_self, if_false, this, List.map_cons, List.length_cons]
    refine Prod.ext rfl ?_
    show i + 1 + cs.length = i + (cs.length + 1)
    omega

theorem tolower_ne_nul (c : Char) (h : c ≠ NUL) : tolower c ≠ NUL := by
  unfold tolower
  split
  · rename_i hc
    obtain ⟨h1, h2⟩ := hc
    generalize c.toNat = n at h1 h2
    interval_cases n <;> decide
  · exact h

theorem no_nul_map_tolower (l : List Char) (h : NUL ∉ l) : NUL ∉ l.map tolower := by
  intro hm
  rw [List.mem_map] at hm
  obtain ⟨c, hc, hcn⟩ := hm
  exact tolower_ne_nul c (fun h0 => h (h0 ▸ hc)) hcn

/-- C8: on a header line `<name>:<ws><value>CRLF` that is neither a trailer
nor the status line (a response is not built yet, the version is stored),
where the name holds no `:` and no CR, `<ws>` is white space, the value
holds no CR and does not begin with white space, the text holds no NUL and
the lower-cased name is neither `connection` nor `keep-alive`,
`curl_header_cb` passes to `SPDY_name_value_add` the pair made of the
lower-cased name and the value (colons in it included); when the multimap
takes the pair, the transaction's headers are the resulting multimap and the
callback returns the length of the line. -/
theorem curl_header_cb_header_line (env : Env) (proxy : Proxy)
    (name ws value : List Char) (headers : SPDY_NameValue)
    (hmalloc : env.malloc_ok = true)
    (hresp : proxy.response = none) (hver : proxy.version.isSome = true)
    (hn_colon : ':' ∉ name) (hn_cr : '\r' ∉ name) (hn_nul : NUL ∉ name)
    (hws : ∀ c ∈ ws, isspace c = true)
    (hv_cr : '\r' ∉ value) (hv_nul : NUL ∉ value)
    (hv_head : ∀ c, value.head? = some c → isspace c = false)
    (hskip : name.map tolower ≠ SPDY_HTTP_HEADER_CONNECTION ∧
      name.map tolower ≠ SPDY_HTTP_HEADER_KEEP_ALIVE)
    (hadd : env.name_value_add proxy.headers (name.map tolower) value = some headers) :
    curl_header_cb env proxy (name ++ ':' :: (ws ++ value ++ ['\r', '\n']))
      = Except.ok ({ proxy with headers := headers },
          (name ++ ':' :: (ws ++ value ++ ['\r', '\n'])).length) := by
  have hhead : (name ++ ':' :: (ws ++ value ++ ['\r', '\n'])).head? ≠ some '\r' := by
    cases name with
    | nil => simp
    | cons c cs =>
      have : c ≠ '\r' := fun h => hn_cr (h ▸ List.mem_cons_self _ _)
      simpa using this
  have hlow := lower_name_append name ':' (ws ++ value ++ ['\r', '\n']) 0 hn_colon hn_cr
    (Or.inl rfl)
  have hname : strndup (name.map tolower ++ ':' :: (ws ++ value ++ ['\r', '\n'])) name.length
      = name.map tolower := by
    have := strndup_append (name.map tolower) (':' :: (ws ++ value ++ ['\r', '\n']))
      (no_nul_map_tolower name hn_nul)
    simpa using this
  have hget : (name.map tolower ++ ':' :: (ws ++ value ++ ['\r', '\n'])).get? name.length
      = some ':' := by
    rw [List.get?_eq_getElem?, List.getElem?_append_right (by simp)]
    simp
  have hlen : ¬ name.length = (name ++ ':' :: (ws ++ value ++ ['\r', '\n'])).length := by
    simp
  have hdrop1 : (name.map tolower ++ ':' :: (ws ++ value ++ ['\r', '\n'])).drop (name.length + 1)
      = ws ++ value ++ ['\r', '\n'] := by
    have h2 : name.map tolower ++ ':' :: (ws ++ value ++ ['\r', '\n'])
        = (name.map tolower ++ [':']) ++ (ws ++ value ++ ['\r', '\n']) := by simp
    have h3 : name.length + 1 = (name.map tolower ++ [':']).length := by simp
    rw [h2, h3, List.drop_left]
  have hcolon_cr : (':' : Char) ≠ '\r' := by decide
  have hval : strndup
      ((ws ++ value ++ ['\r', '\n']).drop
        (scan (fun c => !isspace c) (ws ++ value ++ ['\r', '\n']) (name.length + 1)
          - (name.length + 1)))
      (scan (fun c => c = '\r')
          ((ws ++ value ++ ['\r', '\n']).drop
            (scan (fun c => !isspace c) (ws ++ value ++ ['\r', '\n']) (name.length + 1)
              - (name.length + 1)))
          (scan (fun c => !isspace c) (ws ++ value ++ ['\r', '\n']) (name.length + 1))
        - scan (fun c => !isspace c) (ws ++ value ++ ['\r', '\n']) (name.length + 1))
      = value := by
    cases value with
    | nil =>
      have hall : ∀ c ∈ ws ++ [] ++ ['\r', '\n'], (!isspace c) = false := by
        intro c hc
        simp only [List.append_nil, List.mem_append, List.mem_cons, List.mem_singleton,
          List.not_mem_nil, or_false] at hc
        rcases hc with h | h | h
        · simp [hws c h]
        · subst h; decide
        · subst h; decide
      rw [scan_all _ _ _ hall]
      simp [strndup, cstr, scan]
    | cons v vs =>
      have hv : (!isspace v) = true := by simp [hv_head v rfl]
      have hstop : scan (fun c => !isspace c) (ws ++ (v :: vs) ++ ['\r', '\n']) (name.length + 1)
          = name.length + 1 + ws.length := by
        have h2 : ws ++ (v :: vs) ++ ['\r', '\n'] = ws ++ v :: (vs ++ ['\r', '\n']) := by simp
        rw [h2]
        exact scan_append_stop _ ws v _ _ (by intro c hc; simp [hws c hc]) hv
      rw [hstop]
      have hsub : name.length + 1 + ws.length - (name.length + 1) = ws.length := by omega
      have hd : (ws ++ (v :: vs) ++ ['\r', '\n']).drop ws.length = (v :: vs) ++ ['\r', '\n'] := by
        rw [List.append_assoc, List.drop_left]
      rw [hsub, hd]
      have hscan : scan (fun c => c = '\r') ((v :: vs) ++ ['\r', '\n'])
          (name.length + 1 + ws.length) = name.length + 1 + ws.length + (v :: vs).length := by
        apply scan_append_stop _ (v :: vs) '\r' ['\n']
        · intro c hc
          simp only [decide_eq_false_iff_not]
          intro hcr
          exact hv_cr (hcr ▸ hc)
        · simp
      rw [hscan]
      have hsub2 : name.length + 1 + ws.length + (v :: vs).length
          - (name.length + 1 + ws.length) = (v :: vs).length := by omega
      rw [hsub2]
      exact strndup_append (v :: vs) _ hv_nul
  have hge := scan_ge (fun c => !isspace c) (ws ++ value ++ ['\r', '\n']) (name.length + 1)
  have hdrop3 : ∀ pos : Nat, name.length + 1 ≤ pos →
      (name.map tolower ++ ':' :: (ws ++ value ++ ['\r', '\n'])).drop pos
        = (ws ++ value ++ ['\r', '\n']).drop (pos - (name.length + 1)) := by
    intro pos hp
    have h1 : pos = (name.length + 1) + (pos - (name.length + 1)) := by omega
    conv_lhs => rw [h1]
    rw [← List.drop_drop, hdrop1]
  have hdrop2 := hdrop3 _ hge
  have hvs : proxy.version.isNone = false := by
    cases hv : proxy.version with
    | none => rw [hv] at hver; cases hver
    | some v => rfl
  unfold curl_header_cb
  simp only [hresp, Option.isSome_none, Bool.false_eq_true, if_false, hhead, hvs, hlow,
    Nat.zero_add, hmalloc, Bool.not_true, hname, hskip.1, hskip.2, or_self, hlen, hget,
    Option.some.injEq, hcolon_cr, hdrop1, hdrop2, hval, hadd]

/-- C8 at a concrete header line whose value contains colons. -/
theorem curl_header_cb_header_line_witness :
    curl_header_cb Env.spec { Proxy.fresh 0 with version := some "HTTP/1.1".toList }
        "Location:  http://h:80/y\r\n".toList
      = Except.ok
          ({ Proxy.fresh 0 with version := some "HTTP/1.1".toList,
                                headers := [("location".toList, ["http://h:80/y".toList])] },
           26) := by
  exact curl_header_cb_header_line Env.spec
    { Proxy.fresh 0 with version := some "HTTP/1.1".toList }
    "Location".toList "  ".toList "http://h:80/y".toList
    [("location".toList, ["http://h:80/y".toList])]
    rfl rfl rfl (by decide) (by decide) (by decide) (by decide) (by decide) (by decide)
    (by decide) (by decide) (by decide)

/-! ### Hop-by-hop headers -/

theorem SPDY_name_value_add_names (m : SPDY_NameValue) (name value : List Char) :
    ∀ m1, SPDY_name_value_add m name value = some m1 → ∀ e ∈ m1, e.1 = name ∨ e ∈ m := by
  induction m with
  | nil =>
    intro m1 h e he
    simp only [SPDY_name_value_add, Option.some.injEq] at h
    subst h
    simp only [List.mem_singleton] at he
    subst he
    exact Or.inl rfl
  | cons p rest ih =>
    obtain ⟨n, vs⟩ := p
    intro m1 h e he
    unfold SPDY_name_value_add at h
    split at h
    · rename_i hn
      split at h
      · cases h
      · simp only [Option.some.injEq] at h
        subst h
        rcases List.mem_cons.mp he with h1 | h1
        · subst h1; exact Or.inl hn
        · exact Or.inr (List.mem_cons_of_mem _ h1)
    · split at h
      · rename_i rest1 hrest
        simp only [Option.some.injEq] at h
        subst h
        rcases List.mem_cons.mp he with h1 | h1
        · subst h1; exact Or.inr (List.mem_cons_self _ _)
        · rcases ih rest1 hrest e h1 with h2 | h2
          · exact Or.inl h2
          · exact Or.inr (List.mem_cons_of_mem _ h2)
      · cases h

/-- An addition that only touches the entries of the name it is given
keeps the hop-by-hop names out when that name is not one of them. -/
theorem add_no_hop_by_hop (env : Env)
    (henv : ∀ m name value m1, env.name_value_add m name value = some m1 →
      ∀ e ∈ m1, e.1 = name ∨ e ∈ m)
    (m m1 : SPDY_NameValue) (name value : List Char)
    (hadd : env.name_value_add m name value = some m1) (hm : no_hop_by_hop m)
    (hname : ¬ (name = SPDY_HTTP_HEADER_CONNECTION ∨ name = SPDY_HTTP_HEADER_KEEP_ALIVE)) :
    no_hop_by_hop m1 := by
  intro e he
  rcases henv m name value m1 hadd e he with h | h
  · rw [h]
    exact ⟨fun hc => hname (Or.inl hc), fun hk => hname (Or.inr hk)⟩
  · exact hm e h

/-- One call of `curl_header_cb` keeps the hop-by-hop headers out of the
accumulated headers and out of the headers of the response it builds. -/
theorem curl_header_cb_no_hop_by_hop (env : Env)
    (henv : ∀ m name value m1, env.name_value_add m name value = some m1 →
      ∀ e ∈ m1, e.1 = name ∨ e ∈ m) (proxy : Proxy) (line : List Char)
    (r : Proxy × Nat) (h : curl_header_cb env proxy line = Except.ok r)
    (hh : no_hop_by_hop proxy.headers)
    (hr : ∀ resp, proxy.response = some resp → no_hop_by_hop resp.headers) :
    no_hop_by_hop r.1.headers ∧
      ∀ resp, r.1.response = some resp → no_hop_by_hop resp.headers := by
  unfold curl_header_cb at h
  dsimp only at h
  repeat' split at h
  all_goals first
    | (cases h; done)
    | (cases h; exact ⟨hh, hr⟩)
    | (cases h
       refine ⟨hh, fun resp hresp => ?_⟩
       simp only [Option.some.injEq] at hresp
       subst hresp
       exact hh)
    | (rename_i hskip _ _ _ hadd
       cases h
       exact ⟨add_no_hop_by_hop env henv _ _ _ _ hadd hh hskip, hr⟩)

theorem feed_headers_no_hop_by_hop (env : Env)
    (henv : ∀ m name value m1, env.name_value_add m name value = some m1 →
      ∀ e ∈ m1, e.1 = name ∨ e ∈ m) (lines : List (List Char)) :
    ∀ (proxy result : Proxy), feed_headers env proxy lines = Except.ok result →
      no_hop_by_hop proxy.headers →
      (∀ resp, proxy.response = some resp → no_hop_by_hop resp.headers) →
      no_hop_by_hop result.headers ∧
        ∀ resp, result.response = some resp → no_hop_by_hop resp.headers := by
  induction lines with
  | nil =>
    intro proxy result h hh hr
    simp only [feed_headers, Except.ok.injEq] at h
    subst h
    exact ⟨hh, hr⟩
  | cons line lines ih =>
    intro proxy result h hh hr
    unfold feed_headers at h
    split at h
    · rename_i r hstep
      have hk := curl_header_cb_no_hop_by_hop env henv proxy line r hstep hh hr
      exact ih r.1 result h hk.1 hk.2
    · cases h

/-- C5: whatever header lines the origin sends, in whatever letter case,
feeding them to `curl_header_cb` on a fresh transaction never leaves an
entry named `connection` or `keep-alive` in the accumulated response
headers `proxy->headers`, nor in the headers handed to
`SPDY_build_response_with_callback` when the response is built.  The
multimap's `SPDY_name_value_add` is any function that, when it accepts a
pair, changes or creates entries of the given name only. -/
theorem response_headers_never_hop_by_hop (env : Env)
    (henv : ∀ m name value m1, env.name_value_add m name value = some m1 →
      ∀ e ∈ m1, e.1 = name ∨ e ∈ m) (request : Nat)
    (lines : List (List Char)) (proxy : Proxy)
    (h : feed_headers env (Proxy.fresh request) lines = Except.ok proxy) :
    (∀ e ∈ proxy.headers, e.1 ≠ "connection".toList ∧ e.1 ≠ "keep-alive".toList) ∧
    (∀ resp, proxy.response = some resp →
      ∀ e ∈ resp.headers, e.1 ≠ "connection".toList ∧ e.1 ≠ "keep-alive".toList) := by
  have hfresh : no_hop_by_hop (Proxy.fresh request).headers := by
    intro e he
    simp [Proxy.fresh] at he
  have hnone : ∀ resp, (Proxy.fresh request).response = some resp →
      no_hop_by_hop resp.headers := by
    intro resp hresp
    simp [Proxy.fresh] at hresp
  exact feed_headers_no_hop_by_hop env henv lines (Proxy.fresh request) proxy h hfresh hnone

/-- C5 at the response of end-to-end scenario 4, with the hop-by-hop names
in mixed case: the response is built with the `location` header alone. -/
theorem response_headers_never_hop_by_hop_witness :
    feed_headers Env.spec (Proxy.fresh 0)
        ["HTTP/1.1 301 Moved\r\n".toList, "Location: /y\r\n".toList,
         "CONNECTION: close\r\n".toList, "Keep-Alive: timeout=5\r\n".toList, "\r\n".toList]
      = Except.ok
          { Proxy.fresh 0 with
            response := some { status := 301, status_msg := some "Moved".toList,
                               version := some "HTTP/1.1".toList,
                               headers := [("location".toList, ["/y".toList])] },
            headers := [("location".toList, ["/y".toList])], status := 301,
            status_msg := some "Moved".toList, version := some "HTTP/1.1".toList } ∧
    (∀ e ∈ [("location".toList, ["/y".toList])],
      e.1 ≠ "connection".toList ∧ e.1 ≠ "keep-alive".toList) := by
  have hrun : feed_headers Env.spec (Proxy.fresh 0)
        ["HTTP/1.1 301 Moved\r\n".toList, "Location: /y\r\n".toList,
         "CONNECTION: close\r\n".toList, "Keep-Alive: timeout=5\r\n".toList, "\r\n".toList]
      = Except.ok
          { Proxy.fresh 0 with
            response := some { status := 301, status_msg := some "Moved".toList,
                               version := some "HTTP/1.1".toList,
                               headers := [("location".toList, ["/y".toList])] },
            headers := [("location".toList, ["/y".toList])], status := 301,
            status_msg := some "Moved".toList, version := some "HTTP/1.1".toList } := by
    decide
  exact ⟨hrun, (response_headers_never_hop_by_hop Env.spec
    (fun m name value m1 h => SPDY_name_value_add_names m name value m1 h) 0 _ _ hrun).1⟩

/-! ### URI parser: host and port -/

theorem strrchr_from_not_mem (c : Char) (l : List Char) :
    ∀ (i : Nat) (last : Option Nat), c ∉ l → strrchr_from c l i last = last := by
  induction l with
  | nil => intro i last _; rfl
  | cons x xs ih =>
    intro i last h
    have hx : x ≠ c := fun hxc => h (hxc ▸ List.mem_cons_self _ _)
    simp only [strrchr_from, hx, if_false]
    exact ih (i + 1) last (fun hm => h (List.mem_cons_of_mem _ hm))

theorem strrchr_from_append (c : Char) (pre post : List Char) (hpost : c ∉ post) :
    ∀ (i : Nat) (last : Option Nat),
      strrchr_from c (pre ++ c :: post) i last = some (i + pre.length) := by
  induction pre with
  | nil =>
    intro i last
    simp only [List.nil_append, strrchr_from, if_true, List.length_nil, Nat.add_zero]
    exact strrchr_from_not_mem c post (i + 1) (some i) hpost
  | cons x xs ih =>
    intro i last
    show strrchr_from c (x :: (xs ++ c :: post)) i last = _
    rw [strrchr_from, ih (i + 1), List.length_cons]
    congr 1
    omega

theorem strrchr_last (c : Char) (pre post : List Char) (hpost : c ∉ post) :
    strrchr (pre ++ c :: post) c = some pre.length := by
  unfold strrchr
  rw [strrchr_from_append c pre post hpost 0 none]
  simp

theorem strrchr_none (c : Char) (l : List Char) (h : c ∉ l) : strrchr l c = none :=
  strrchr_from_not_mem c l 0 none h

/-- C9, as stated, fails: the text after the last `:` of the authority
`h:80abc` is not a decimal integer, and that of `h:4294967376` is a decimal
integer outside 1..65535, yet for both `parse_uri` returns 0 and stores
port 80 and host `h`: `atoi` reads the leading digits, stops at the first
other character, and its result is an `int`. -/
theorem parse_uri_port_counterexample :
    uri_host_and_port "http://h:80abc/x".toList = "h:80abc".toList ∧
    parse_uri true "http://h:80abc/x".toList ≠ Except.error (ParseFailure.returns (-100)) ∧
    parse_uri true "http://h:80abc/x".toList = Except.ok
      { full_uri := "http://h:80abc/x".toList, scheme := "http".toList,
        host_and_port := "h:80abc".toList, host := "h".toList,
        path := "/x".toList, path_and_more := "/x".toList, query := [],
        fragment := [], port := 80 } ∧
    uri_host_and_port "http://h:4294967376/x".toList = "h:4294967376".toList ∧
    parse_uri true "http://h:4294967376/x".toList = Except.ok
      { full_uri := "http://h:4294967376/x".toList, scheme := "http".toList,
        host_and_port := "h:4294967376".toList, host := "h".toList,
        path := "/x".toList, path_and_more := "/x".toList, query := [],
        fragment := [], port := 80 } := by
  decide

/-- The number `atoi` reads in a text made of decimal digits only (the
empty text included) whose value fits an `int`. -/
theorem atoi_all_digits (d : List Char) (hd : ∀ c ∈ d, isdigit c = true)
    (hint : decimal_value d < 2 ^ 31) : atoi d = decimal_value d := by
  cases d with
  | nil => decide
  | cons c cs =>
    have := atoi_digits (c :: cs) [] (by simp) hd (by simp) hint
    simpa using this

/-- The number `atoi` reads in a text that begins with no number: 0. -/
theorem atoi_no_number (t : List Char)
    (h : ∀ c, t.head? = some c →
      isdigit c = false ∧ isspace c = false ∧ c ≠ '+' ∧ c ≠ '-') : atoi t = 0 := by
  cases t with
  | nil => decide
  | cons c cs =>
    obtain ⟨h1, h2, h3, h4⟩ := h c rfl
    unfold atoi
    simp only [List.dropWhile_cons, h2, Bool.false_eq_true, if_false, h3, h4, strtol_digits, h1]
    decide

/-- The exit of `parse_uri` for an invalid port, taken when the `int` that
`atoi` returns for the text after the last `:` is not in 1..65535:
`free_uri` is called while `host` is not assigned yet, so `free` gets an
indeterminate pointer and the behaviour is undefined. -/
theorem parse_uri_invalid_port_exit (full_uri host text : List Char)
    (hauth : uri_host_and_port full_uri = host ++ ':' :: text) (hlast : ':' ∉ text)
    (hrange : atoi text < 1 ∨ 65536 ≤ atoi text) :
    parse_uri true full_uri = Except.error ParseFailure.undefined := by
  have hcolon := strrchr_last ':' host text hlast
  have hdrop : (host ++ ':' :: text).drop (host.length + 1) = text := by
    have h2 : host ++ ':' :: text = (host ++ [':']) ++ text := by simp
    have h3 : host.length + 1 = (host ++ [':']).length := by simp
    rw [h2, h3, List.drop_left]
  have hrange2 : atoi text < 1 ∨ atoi text ≥ 256 * 256 := by
    rcases hrange with h | h
    · exact Or.inl h
    · exact Or.inr (by omega)
  unfold parse_uri
  simp only [Bool.not_true, Bool.false_eq_true, if_false, hauth, hcolon, hdrop]
  rw [if_pos hrange2]
  rfl

/-- C9, amended: when the authority contains a `:` and the `int` that `atoi`
returns for the text after the last `:` (leading white space and one sign
skipped, then the leading decimal digits, 0 when there is no digit; the
number saturated to `long` and converted to `int`) is not in the range
1..65535, `parse_uri` takes its exit for an invalid port (`free_uri`, then
`return -100`) and stores no URI.  That is the case of a decimal number
below 2^31 outside 1..65535 (0, 65536), of the empty text, and of a text
that begins with a character that is neither a digit, white space nor a
sign.  What that exit does once `free_uri` is called is left open: the
function returns -100 or its behaviour is undefined. -/
theorem parse_uri_invalid_port (full_uri host text : List Char)
    (hauth : uri_host_and_port full_uri = host ++ ':' :: text) (hlast : ':' ∉ text)
    (hport : (atoi text < 1 ∨ 65536 ≤ atoi text) ∨
      ((∀ c ∈ text, isdigit c = true) ∧ decimal_value text < 2 ^ 31 ∧
        (decimal_value text < 1 ∨ 65536 ≤ decimal_value text)) ∨
      (∀ c, text.head? = some c →
        isdigit c = false ∧ isspace c = false ∧ c ≠ '+' ∧ c ≠ '-')) :
    (∀ uri, parse_uri true full_uri ≠ Except.ok uri) ∧
    (parse_uri true full_uri = Except.error (ParseFailure.returns (-100)) ∨
      parse_uri true full_uri = Except.error ParseFailure.undefined) := by
  have hrange : atoi text < 1 ∨ 65536 ≤ atoi text := by
    rcases hport with h | ⟨hd, hint, h⟩ | h
    · exact h
    · rw [atoi_all_digits text hd hint]
      omega
    · rw [atoi_no_number text h]
      exact Or.inl (by decide)
  have hexit := parse_uri_invalid_port_exit full_uri host text hauth hlast hrange
  refine ⟨fun uri h => ?_, Or.inr hexit⟩
  rw [hexit] at h
  cases h

/-- C9, amended, at the ports of the spec: for 0, 65536, an empty port, a
text that is not a number and a negative number, no URI is stored. -/
theorem parse_uri_invalid_port_witness :
    (∀ uri, parse_uri true "http://h:0/x".toList ≠ Except.ok uri) ∧
    (∀ uri, parse_uri true "http://h:65536/x".toList ≠ Except.ok uri) ∧
    (∀ uri, parse_uri true "http://h:/x".toList ≠ Except.ok uri) ∧
    (∀ uri, parse_uri true "http://h:abc/x".toList ≠ Except.ok uri) ∧
    (∀ uri, parse_uri true "http://h:-80/x".toList ≠ Except.ok uri) := by
  refine ⟨?_, ?_, ?_, ?_, ?_⟩
  · exact (parse_uri_invalid_port "http://h:0/x".toList "h".toList "0".toList
      (by decide) (by decide) (Or.inr (Or.inl (by decide)))).1
  · exact (parse_uri_invalid_port "http://h:65536/x".toList "h".toList "65536".toList
      (by decide) (by decide) (Or.inr (Or.inl (by decide)))).1
  · exact (parse_uri_invalid_port "http://h:/x".toList "h".toList [] (by decide) (by decide)
      (Or.inr (Or.inr (by decide)))).1
  · exact (parse_uri_invalid_port "http://h:abc/x".toList "h".toList "abc".toList
      (by decide) (by decide) (Or.inr (Or.inr (by decide)))).1
  · exact (parse_uri_invalid_port "http://h:-80/x".toList "h".toList "-80".toList
      (by decide) (by decide) (Or.inl (by decide))).1

/-- C10: `parse_uri` (its allocation succeeding) returns 0 whenever the
authority contains no `:`, with `host = host_and_port` and `port = 0`; and
whenever the authority is `h ++ ":" ++ d`, `d` a decimal representation of
a number `p` in 1..65535, it returns 0 with `port = p` and `host = h`, the
text of `host_and_port` before its last `:`. -/
theorem parse_uri_host_port (full_uri : List Char) :
    (':' ∉ uri_host_and_port full_uri →
      ∃ uri, parse_uri true full_uri = Except.ok uri ∧
        uri.host_and_port = uri_host_and_port full_uri ∧
        uri.host = uri_host_and_port full_uri ∧ uri.port = 0) ∧
    (∀ (h d : List Char) (p : Nat),
      uri_host_and_port full_uri = h ++ ':' :: d →
      d ≠ [] → (∀ c ∈ d, isdigit c = true) → decimal_value d = p →
      1 ≤ p → p ≤ 65535 →
      ∃ uri, parse_uri true full_uri = Except.ok uri ∧
        uri.host_and_port = h ++ ':' :: d ∧ uri.host = h ∧ uri.port = p) := by
  constructor
  · intro hno
    have hnone := strrchr_none ':' _ hno
    unfold parse_uri
    simp only [Bool.not_true, Bool.false_eq_true, if_false, hnone]
    exact ⟨_, rfl, rfl, rfl, rfl⟩
  · intro h d p hauth hne hdig hval hlo hhi
    have hlast : ':' ∉ d := by
      intro hm
      have := hdig ':' hm
      revert this
      decide
    have hcolon := strrchr_last ':' h d hlast
    have hdrop : (h ++ ':' :: d).drop (h.length + 1) = d := by
      have h2 : h ++ ':' :: d = (h ++ [':']) ++ d := by simp
      have h3 : h.length + 1 = (h ++ [':']).length := by simp
      rw [h2, h3, List.drop_left]
    have hatoi : atoi d = p := by
      have := atoi_digits d [] hne hdig (by simp) (by rw [hval]; omega)
      rw [List.append_nil] at this
      rw [this, hval]
    have hrange : ¬ ((p : Int) < 1 ∨ (p : Int) ≥ 256 * 256) := by omega
    have hhost : printf_prec_s (h.length : Int) (h ++ ':' :: d) = h := by
      unfold printf_prec_s
      have : ¬ (h.length : Int) < 0 := by omega
      simp [this]
    unfold parse_uri
    simp only [Bool.not_true, Bool.false_eq_true, if_false, hauth, hcolon, hdrop, hatoi, hrange,
      hhost]
    exact ⟨_, rfl, rfl, rfl, by simp⟩

/-- C10 at two concrete URIs: one without a port, one with port 8080. -/
theorem parse_uri_host_port_witness :
    (∃ uri, parse_uri true "http://origin.test/a".toList = Except.ok uri ∧
      uri.host_and_port = "origin.test".toList ∧ uri.host = "origin.test".toList ∧
      uri.port = 0) ∧
    (∃ uri, parse_uri true "https://origin.test:8080/a?b=1".toList = Except.ok uri ∧
      uri.host_and_port = "origin.test:8080".toList ∧ uri.host = "origin.test".toList ∧
      uri.port = 8080) := by
  constructor
  · have h := (parse_uri_host_port "http://origin.test/a".toList).1 (by decide)
    have ha : uri_host_and_port "http://origin.test/a".toList = "origin.test".toList := by
      decide
    rw [ha] at h
    exact h
  · exact (parse_uri_host_port "https://origin.test:8080/a?b=1".toList).2
      "origin.test".toList "8080".toList 8080 (by decide) (by decide) (by decide) (by decide)
      (by decide) (by decide)

/-! ### Trailers -/

/-- C18: once the SPDY response of a transaction is built (`response`
non-NULL), `curl_header_cb` returns 0 on every further header line and
leaves every field of the transaction as it was; so, whatever lines follow,
the response is not built again and nothing reaches the headers. -/
theorem curl_header_cb_trailer (env : Env) (proxy : Proxy) (resp : SPDY_Response)
    (hresp : proxy.response = some resp) :
    (∀ line, curl_header_cb env proxy line = Except.ok (proxy, 0)) ∧
    (∀ lines, feed_headers env proxy lines = Except.ok proxy) := by
  have h1 : ∀ line, curl_header_cb env proxy line = Except.ok (proxy, 0) := by
    intro line
    unfold curl_header_cb
    simp [hresp]
  refine ⟨h1, fun lines => ?_⟩
  induction lines with
  | nil => rfl
  | cons line lines ih =>
    unfold feed_headers
    rw [h1 line]
    exact ih

/-- C18 at a concrete response: after the blank line, a trailer line is
answered with 0 and changes nothing. -/
theorem curl_header_cb_trailer_witness :
    ∃ proxy, feed_headers Env.spec (Proxy.fresh 0)
        ["HTTP/1.1 200 OK\r\n".toList, "X-A: 1\r\n".toList, "\r\n".toList] = Except.ok proxy ∧
      proxy.headers = [("x-a".toList, ["1".toList])] ∧
      curl_header_cb Env.spec proxy "X-Trailer: t\r\n".toList = Except.ok (proxy, 0) := by
  refine ⟨{ Proxy.fresh 0 with
      response := some { status := 200, status_msg := some "OK".toList,
                         version := some "HTTP/1.1".toList,
                         headers := [("x-a".toList, ["1".toList])] },
      headers := [("x-a".toList, ["1".toList])], status := 200,
      status_msg := some "OK".toList, version := some "HTTP/1.1".toList }, by decide, rfl, ?_⟩
  exact (curl_header_cb_trailer Env.spec _ _ rfl).1 _

/-! ### Event loop -/

/-- C20, as stated, fails: with a transaction running and the engine
reporting no timeout (-1), the wait of the second `select` is 500000
microseconds, which is not below 500 ms. -/
theorem run_curl_timeout_counterexample :
    run_curl_timeout 1 true (-1) = Except.ok (some { tv_sec := 0, tv_usec := 500000 }) ∧
    ¬ (({ tv_sec := 0, tv_usec := 500000 } : timeval).usec < 500 * 1000) := by
  decide

/-- C20, amended: whenever a transaction is running and
`curl_multi_timeout` succeeds, for every reported timeout `t` in
milliseconds, negative ones included, the wait passed to the second
`select` lies in the closed range from 0 to 500 ms: it is `t` ms when
`0 <= t < 500` and exactly 500 ms otherwise. -/
theorem run_curl_timeout_range (still_running : Int) (t : Int) (hrun : 0 < still_running) :
    ∃ tv, run_curl_timeout still_running true t = Except.ok (some tv) ∧
      0 ≤ tv.usec ∧ tv.usec ≤ 500 * 1000 ∧
      (0 ≤ t ∧ t < 500 → tv.usec = t * 1000) ∧
      (t < 0 ∨ 500 ≤ t → tv.usec = 500 * 1000) := by
  unfold run_curl_timeout
  by_cases ht : t ≥ 0 ∧ t < 500
  · refine ⟨{ tv_sec := 0, tv_usec := t * 1000 }, by simp [hrun, ht], ?_⟩
    simp only [timeval.usec]
    omega
  · refine ⟨{ tv_sec := 0, tv_usec := 500000 }, by simp [hrun, ht], ?_⟩
    simp only [timeval.usec]
    omega

/-- C20, amended, at three reported timeouts: 120 ms, none (-1), 30 s. -/
theorem run_curl_timeout_range_witness :
    run_curl_timeout 2 true 120 = Except.ok (some { tv_sec := 0, tv_usec := 120000 }) ∧
    run_curl_timeout 2 true (-1) = Except.ok (some { tv_sec := 0, tv_usec := 500000 }) ∧
    run_curl_timeout 2 true 30000 = Except.ok (some { tv_sec := 0, tv_usec := 500000 }) ∧
    (∃ tv, run_curl_timeout 2 true 499 = Except.ok (some tv) ∧ tv.usec = 499 * 1000) := by
  refine ⟨by decide, by decide, by decide, ?_⟩
  obtain ⟨tv, h1, _, _, h4, _⟩ := run_curl_timeout_range 2 499 (by decide)
  exact ⟨tv, h1, h4 (by decide)⟩

/-- What the drain does to each transaction: `done` is set for the handles
of the `CURLMSG_DONE` messages whose result is `CURLE_OK`, and nothing else
changes. -/
theorem run_drain_spec (getinfo_ok : Nat → Bool) (msgs : List CURLMsg) :
    ∀ (proxies result : Nat → Proxy),
      run_drain getinfo_ok proxies msgs = Except.ok result →
      ∀ h : Nat,
        ((∃ m ∈ msgs, m.msg = CURLMSG_DONE ∧ m.result = CURLE_OK ∧ m.easy_handle = h) →
          result h = { proxies h with done := true }) ∧
        ((¬ ∃ m ∈ msgs, m.msg = CURLMSG_DONE ∧ m.result = CURLE_OK ∧ m.easy_handle = h) →
          result h = proxies h) := by
  induction msgs with
  | nil =>
    intro proxies result hrun h
    simp only [run_drain, Except.ok.injEq] at hrun
    subst hrun
    simp
  | cons m msgs ih =>
    intro proxies result hrun h
    unfold run_drain at hrun
    by_cases hdone : m.msg = CURLMSG_DONE
    · by_cases hok : CURLE_OK = m.result
      · by_cases hget : getinfo_ok m.easy_handle = true
        · simp only [hdone, hok, hget, if_true] at hrun
          have hih := ih _ result hrun h
          by_cases hh : m.easy_handle = h
          · subst hh
            simp only [Function.update_same] at hih
            constructor
            · intro _
              by_cases hex : ∃ m1 ∈ msgs, m1.msg = CURLMSG_DONE ∧ m1.result = CURLE_OK ∧
                  m1.easy_handle = m.easy_handle
              · exact hih.1 hex
              · exact hih.2 hex
            · intro hno
              exact absurd ⟨m, List.mem_cons_self _ _, hdone, hok.symm, rfl⟩ hno
          · have hupd : Function.update proxies m.easy_handle
                { proxies m.easy_handle with done := true } h = proxies h :=
              Function.update_noteq (Ne.symm hh) _ _
            rw [hupd] at hih
            constructor
            · rintro ⟨m1, hm1, h1, h2, h3⟩
              rcases List.mem_cons.mp hm1 with heq | hmem
              · subst heq
                exact absurd h3 hh
              · exact hih.1 ⟨m1, hmem, h1, h2, h3⟩
            · intro hno
              exact hih.2 (fun ⟨m1, hm1, hrest⟩ => hno ⟨m1, List.mem_cons_of_mem _ hm1, hrest⟩)
        · simp only [hdone, hok, hget, if_true] at hrun
          cases hrun
      · simp only [hdone, hok, if_true, if_false] at hrun
        have hih := ih _ result hrun h
        constructor
        · rintro ⟨m1, hm1, h1, h2, h3⟩
          rcases List.mem_cons.mp hm1 with heq | hmem
          · subst heq
            exact absurd h2.symm hok
          · exact hih.1 ⟨m1, hmem, h1, h2, h3⟩
        · intro hno
          exact hih.2 (fun ⟨m1, hm1, hrest⟩ => hno ⟨m1, List.mem_cons_of_mem _ hm1, hrest⟩)
    · simp only [hdone, if_false] at hrun
      have hih := ih _ result hrun h
      constructor
      · rintro ⟨m1, hm1, h1, h2, h3⟩
        rcases List.mem_cons.mp hm1 with heq | hmem
        · subst heq
          exact absurd h1 hdone
        · exact hih.1 ⟨m1, hmem, h1, h2, h3⟩
      · intro hno
        exact hih.2 (fun ⟨m1, hm1, hrest⟩ => hno ⟨m1, List.mem_cons_of_mem _ hm1, hrest⟩)

/-- The drain runs to its end when `curl_easy_getinfo` succeeds. -/
theorem run_drain_returns (getinfo_ok : Nat → Bool) (hget : ∀ h, getinfo_ok h = true)
    (msgs : List CURLMsg) :
    ∀ proxies : Nat → Proxy, ∃ result, run_drain getinfo_ok proxies msgs = Except.ok result := by
  induction msgs with
  | nil => intro proxies; exact ⟨proxies, rfl⟩
  | cons m msgs ih =>
    intro proxies
    unfold run_drain
    by_cases hdone : m.msg = CURLMSG_DONE
    · by_cases hok : CURLE_OK = m.result
      · simp only [hdone, hok, hget, if_true]
        exact ih _
      · simp only [hdone, hok, if_true, if_false]
        exact ih _
    · simp only [hdone, if_false]
      exact ih _

/-- C17, as stated, fails: a `CURLMSG_DONE` message whose result is not
`CURLE_OK` (56, a receive error) is read for the transaction of handle 7,
and after the drain its `done` flag is still false. -/
theorem run_drain_counterexample :
    ∃ result, run_drain (fun _ => true) (fun _ => Proxy.fresh 0)
        [{ msg := CURLMSG_DONE, easy_handle := 7, result := 56 }] = Except.ok result ∧
      (result 7).done = false :=
  ⟨fun _ => Proxy.fresh 0, rfl, rfl⟩

/-- C17, amended: for every batch of messages drained in one iteration
(`curl_easy_getinfo` succeeding), the drain runs to its end; every
transaction for which a `CURLMSG_DONE` message with result `CURLE_OK` is
read has `done` set to true afterwards and is otherwise as before; every
other transaction, those whose completion carries another result code and
those with no message, is left as it was. -/
theorem run_drain_sets_done (getinfo_ok : Nat → Bool) (hget : ∀ h, getinfo_ok h = true)
    (proxies : Nat → Proxy) (msgs : List CURLMsg) :
    ∃ result, run_drain getinfo_ok proxies msgs = Except.ok result ∧
      ∀ h : Nat,
        ((∃ m ∈ msgs, m.msg = CURLMSG_DONE ∧ m.result = CURLE_OK ∧ m.easy_handle = h) →
          (result h).done = true ∧ result h = { proxies h with done := true }) ∧
        ((¬ ∃ m ∈ msgs, m.msg = CURLMSG_DONE ∧ m.result = CURLE_OK ∧ m.easy_handle = h) →
          result h = proxies h) := by
  obtain ⟨result, hrun⟩ := run_drain_returns getinfo_ok hget msgs proxies
  refine ⟨result, hrun, fun h => ?_⟩
  have hs := run_drain_spec getinfo_ok msgs proxies result hrun h
  refine ⟨fun hex => ?_, hs.2⟩
  have := hs.1 hex
  exact ⟨by rw [this], this⟩

/-- C17, amended, at a concrete batch: handle 3 completes with `CURLE_OK`,
handle 7 with an error, handle 9 has no message. -/
theorem run_drain_sets_done_witness :
    ∃ result, run_drain (fun _ => true) (fun _ => Proxy.fresh 0)
        [{ msg := CURLMSG_DONE, easy_handle := 3, result := CURLE_OK },
         { msg := CURLMSG_DONE, easy_handle := 7, result := 56 }] = Except.ok result ∧
      (result 3).done = true ∧ (result 7).done = false ∧ (result 9).done = false := by
  obtain ⟨result, hrun, hall⟩ := run_drain_sets_done (fun _ => true) (fun _ => rfl)
    (fun _ => Proxy.fresh 0)
    [{ msg := CURLMSG_DONE, easy_handle := 3, result := CURLE_OK },
     { msg := CURLMSG_DONE, easy_handle := 7, result := 56 }]
  refine ⟨result, hrun, ((hall 3).1 ⟨_, List.mem_cons_self _ _, rfl, rfl, rfl⟩).1, ?_, ?_⟩
  · rw [(hall 7).2 (by decide)]
    rfl
  · rw [(hall 9).2 (by decide)]
    rfl

/-! ### Capitalised header names -/

theorem toupper_of_lower (c : Char) (h : 97 ≤ c.toNat ∧ c.toNat ≤ 122) :
    65 ≤ (toupper c).toNat ∧ (toupper c).toNat ≤ 90 := by
  unfold toupper
  rw [if_pos h]
  obtain ⟨h1, h2⟩ := h
  generalize c.toNat = n at h1 h2
  interval_cases n <;> decide

theorem lower_token_char_ne_colon (c : Char) (h : lower_token_char c = true) : c ≠ ':' := by
  intro hc
  rw [hc] at h
  revert h
  decide

/-- C16, as stated, fails: the name `1st` is non-empty and made of
characters of `[a-z0-9-]`, and `iterate_cb` emits it unchanged, so the name
part of the line does not begin with an upper-case letter. -/
theorem iterate_cb_capitalized_counterexample :
    (∀ c ∈ "1st".toList, lower_token_char c = true) ∧
    iterate_cb Env.spec (Proxy.fresh 0) "1st".toList ["v".toList] =
      Except.ok ({ Proxy.fresh 0 with curl_headers := ["1st: v".toList] }, 1) ∧
    ("1st: v".toList).takeWhile (fun c => c != ':') = "1st".toList ∧
    capitalized_token "1st".toList = false := by
  decide

/-- C16, amended: for every inbound header name that begins with a
lower-case ASCII letter and goes on with characters of `[a-z0-9-]`, the
name part of the line that `iterate_cb` emits (the text before the first
`:`) is the name with its first letter in upper case, and it matches
`^[A-Z][a-z0-9-]*`. -/
theorem iterate_cb_capitalized (env : Env) (proxy : Proxy) (c : Char) (cs : List Char)
    (value : List (List Char))
    (hmalloc : env.malloc_ok = true) (happend : env.slist_append_ok = true)
    (hc : 97 ≤ c.toNat ∧ c.toNat ≤ 122) (hcs : ∀ d ∈ cs, lower_token_char d = true) :
    ∃ line, iterate_cb env proxy (c :: cs) value =
        Except.ok ({ proxy with curl_headers := proxy.curl_headers ++ [line] }, 1) ∧
      line.takeWhile (fun d => d != ':') = toupper c :: cs ∧
      capitalized_token (toupper c :: cs) = true := by
  have hup := toupper_of_lower c hc
  have hne : toupper c ≠ ':' := by
    intro h
    rw [h] at hup
    revert hup
    decide
  refine ⟨toupper c :: cs ++ ": ".toList ++ List.intercalate ", ".toList value, ?_, ?_, ?_⟩
  · unfold iterate_cb
    simp [hmalloc, happend, strcat_loop_zero, toupper_first]
  · have h1 : toupper c :: cs ++ ": ".toList ++ List.intercalate ", ".toList value
        = (toupper c :: cs) ++ ':' :: (' ' :: List.intercalate ", ".toList value) := by
      simp
    rw [h1, List.takeWhile_append_of_pos]
    · simp
    · intro d hd
      rcases List.mem_cons.mp hd with h | h
      · subst h; simpa using hne
      · simpa using lower_token_char_ne_colon d (hcs d h)
  · simp only [capitalized_token, Bool.and_eq_true, decide_eq_true_eq, List.all_eq_true]
    exact ⟨hup, hcs⟩

/-- C16, amended, at the header `x-forwarded-for`. -/
theorem iterate_cb_capitalized_witness :
    ∃ line, iterate_cb Env.spec (Proxy.fresh 0) "x-forwarded-for".toList ["10.0.0.1".toList] =
        Except.ok ({ Proxy.fresh 0 with curl_headers := [line] }, 1) ∧
      line.takeWhile (fun d => d != ':') = "X-forwarded-for".toList ∧
      capitalized_token "X-forwarded-for".toList = true := by
  obtain ⟨line, h1, h2, h3⟩ := iterate_cb_capitalized Env.spec (Proxy.fresh 0) 'x'
    "-forwarded-for".toList ["10.0.0.1".toList] rfl rfl (by decide) (by decide)
  exact ⟨line, h1, h2, h3⟩

/-! ### URI parser: components -/

theorem dropWhile_head_false (p : Char → Bool) (l : List Char) :
    ∀ c t, l.dropWhile p = c :: t → p c = false := by
  induction l with
  | nil => intro c t h; simp at h
  | cons x xs ih =>
    intro c t h
    by_cases hx : p x = true
    · rw [List.dropWhile_cons_of_pos hx] at h
      exact ih c t h
    · rw [List.dropWhile_cons_of_neg hx] at h
      simp only [List.cons.injEq] at h
      rw [← h.1]
      simpa using hx

theorem drop_length_takeWhile (p : Char → Bool) (l : List Char) :
    l.drop (l.takeWhile p).length = l.dropWhile p := by
  induction l with
  | nil => simp
  | cons x xs ih =>
    by_cases hx : p x = true
    · simp [List.takeWhile_cons_of_pos hx, List.dropWhile_cons_of_pos hx, ih]
    · simp [List.takeWhile_cons_of_neg hx, List.dropWhile_cons_of_neg hx]

/-- The fields that `parse_uri` fills from the sub-matches, the same on
both of its successful returns. -/
theorem parse_uri_fields (full_uri : List Char) (uri : URI)
    (h : parse_uri true full_uri = Except.ok uri) :
    uri.full_uri = full_uri ∧
    uri.scheme = asprintf_sub full_uri
      ((uri_regexec full_uri 2).rm_eo - (uri_regexec full_uri 2).rm_so)
      (uri_regexec full_uri 2).rm_so ∧
    uri.host_and_port = uri_host_and_port full_uri ∧
    uri.path = asprintf_sub full_uri
      ((uri_regexec full_uri 5).rm_eo - (uri_regexec full_uri 5).rm_so)
      (uri_regexec full_uri 5).rm_so ∧
    uri.path_and_more = asprintf_sub full_uri
      ((uri_regexec full_uri 9).rm_eo - (uri_regexec full_uri 5).rm_so)
      (uri_regexec full_uri 5).rm_so ∧
    uri.query = asprintf_sub full_uri
      ((uri_regexec full_uri 7).rm_eo - (uri_regexec full_uri 7).rm_so)
      (uri_regexec full_uri 7).rm_so ∧
    uri.fragment = asprintf_sub full_uri
      ((uri_regexec full_uri 9).rm_eo - (uri_regexec full_uri 9).rm_so)
      (uri_regexec full_uri 9).rm_so := by
  unfold parse_uri at h
  simp only [Bool.not_true, Bool.false_eq_true, if_false] at h
  split at h
  · simp only [Except.ok.injEq] at h
    subst h
    refine ⟨?_, ?_, ?_, ?_, ?_, ?_, ?_⟩ <;> with_reducible rfl
  · split at h
    · cases h
    · simp only [Except.ok.injEq] at h
      subst h
      refine ⟨?_, ?_, ?_, ?_, ?_, ?_, ?_⟩ <;> with_reducible rfl

/-- The part of the input from the start of the path on, as the last three
groups of the pattern cut it: `r` is the input from the path on. -/
theorem uri_tail_split (r : List Char) :
    r = r.takeWhile path_char
        ++ (if (r.drop (r.takeWhile path_char).length).head? = some '?' then
              '?' :: ((r.drop ((r.takeWhile path_char).length + 1)).takeWhile query_char)
            else [])
        ++ (if (r.drop
                (if (r.drop (r.takeWhile path_char).length).head? = some '?' then
                  (r.takeWhile path_char).length + 1
                    + ((r.drop ((r.takeWhile path_char).length + 1)).takeWhile query_char).length
                 else (r.takeWhile path_char).length)).head? = some '#' then
              '#' :: r.drop
                ((if (r.drop (r.takeWhile path_char).length).head? = some '?' then
                  (r.takeWhile path_char).length + 1
                    + ((r.drop ((r.takeWhile path_char).length + 1)).takeWhile query_char).length
                 else (r.takeWhile path_char).length) + 1)
            else []) := by
  have hsplit := List.takeWhile_append_dropWhile path_char r
  have hd0 := drop_length_takeWhile path_char r
  have hdk : ∀ k, r.drop ((r.takeWhile path_char).length + k)
      = (r.dropWhile path_char).drop k := by
    intro k
    rw [← List.drop_drop, hd0]
  have hhead := dropWhile_head_false path_char r
  generalize r.takeWhile path_char = P at *
  generalize r.dropWhile path_char = D at *
  cases D with
  | nil =>
    simp only [hd0, List.head?_nil, reduceCtorEq, if_false, List.append_nil]
    simpa using hsplit.symm
  | cons c t =>
    have hc := hhead c t rfl
    have hc2 : c = '?' ∨ c = '#' := by
      unfold path_char at hc
      by_cases h1 : c = '?'
      · exact Or.inl h1
      · right
        simpa [h1] using hc
    rcases hc2 with hq | hf
    · subst hq
      have hd1 : r.drop (P.length + 1) = t := by
        rw [hdk 1]
        rfl
      simp only [hd0, hd1, List.head?_cons, if_true]
      have hsplit2 := List.takeWhile_append_dropWhile query_char t
      have he0 : r.drop (P.length + 1 + (t.takeWhile query_char).length)
          = t.dropWhile query_char := by
        rw [Nat.add_assoc, hdk]
        show ('?' :: t).drop (1 + (List.takeWhile query_char t).length) = _
        rw [Nat.add_comm, List.drop_succ_cons, drop_length_takeWhile]
      have he1 : r.drop (P.length + 1 + (t.takeWhile query_char).length + 1)
          = (t.dropWhile query_char).drop 1 := by
        rw [← List.drop_drop, he0]
      have hhead2 := dropWhile_head_false query_char t
      rw [he0, he1]
      generalize t.takeWhile query_char = Q at *
      generalize t.dropWhile query_char = E at *
      cases E with
      | nil =>
        simp only [List.head?_nil, reduceCtorEq, if_false, List.append_nil]
        rw [← hsplit, ← hsplit2]
        simp
      | cons e f =>
        have he := hhead2 e f rfl
        have he2 : e = '#' := by
          unfold query_char at he
          simpa using he
        subst he2
        simp only [List.head?_cons, if_true, List.drop_succ_cons, List.drop_zero]
        rw [← hsplit, ← hsplit2]
        simp
    · subst hf
      have hne : ('#' : Char) ≠ '?' := by decide
      have hd1 : r.drop (P.length + 1) = t := by
        rw [hdk 1]
        rfl
      simp only [hd0, hd1, List.head?_cons, Option.some.injEq, hne, if_false, if_true,
        List.append_nil]
      exact hsplit.symm

/-- Sub-matches 5, 7 and 9 in terms of the input from the path on. -/
theorem uri_regexec_tail (s : List Char) :
    ∃ p2 : Nat,
      uri_regexec s 5 =
        { rm_so := ((p2 + 0 : Nat) : Int),
          rm_eo := ((p2 + ((s.drop p2).takeWhile path_char).length : Nat) : Int) } ∧
      uri_regexec s 7 =
        (if ((s.drop p2).drop ((s.drop p2).takeWhile path_char).length).head? = some '?' then
          { rm_so := ((p2 + (((s.drop p2).takeWhile path_char).length + 1) : Nat) : Int),
            rm_eo := ((p2 + (((s.drop p2).takeWhile path_char).length + 1
              + (((s.drop p2).drop (((s.drop p2).takeWhile path_char).length + 1)).takeWhile
                  query_char).length) : Nat) : Int) }
         else { rm_so := -1, rm_eo := -1 }) ∧
      uri_regexec s 9 =
        (if ((s.drop p2).drop
              (if ((s.drop p2).drop ((s.drop p2).takeWhile path_char).length).head? = some '?'
               then ((s.drop p2).takeWhile path_char).length + 1
                + (((s.drop p2).drop (((s.drop p2).takeWhile path_char).length + 1)).takeWhile
                    query_char).length
               else ((s.drop p2).takeWhile path_char).length)).head? = some '#' then
          { rm_so := ((p2 +
              ((if ((s.drop p2).drop ((s.drop p2).takeWhile path_char).length).head? = some '?'
               then ((s.drop p2).takeWhile path_char).length + 1
                + (((s.drop p2).drop (((s.drop p2).takeWhile path_char).length + 1)).takeWhile
                    query_char).length
               else ((s.drop p2).takeWhile path_char).length) + 1) : Nat) : Int),
            rm_eo := (s.length : Nat) }
         else { rm_so := -1, rm_eo := -1 }) := by
  unfold uri_regexec
  simp only []
  generalize (if (decide (List.takeWhile scheme_char s ≠ []) &&
          decide ((List.drop (List.takeWhile scheme_char s).length s).head? = some ':')) = true
        then (List.takeWhile scheme_char s).length + 1 else 0) = p1
  generalize (if decide (List.take 2 (List.drop p1 s) = ['/', '/']) = true
        then p1 + 2 + (List.takeWhile authority_char (List.drop (p1 + 2) s)).length
        else p1) = p2
  refine ⟨p2, rfl, ?_, ?_⟩
  · simp only [List.drop_drop, decide_eq_true_eq, Nat.add_assoc]
    split_ifs
    all_goals simp_all [Nat.add_assoc]
    all_goals omega
  · simp only [List.drop_drop, decide_eq_true_eq, Nat.add_assoc]
    split_ifs
    all_goals simp_all [Nat.add_assoc]
    all_goals omega

theorem asprintf_sub_off (s : List Char) (p2 a b : Nat) (hab : a ≤ b) :
    asprintf_sub s (((p2 + b : Nat) : Int) - ((p2 + a : Nat) : Int)) ((p2 + a : Nat) : Int)
      = ((s.drop p2).drop a).take (b - a) := by
  unfold asprintf_sub printf_prec_s
  have h1 : ¬ (((p2 + b : Nat) : Int) - ((p2 + a : Nat) : Int) < 0) := by omega
  have h2 : (((p2 + b : Nat) : Int) - ((p2 + a : Nat) : Int)).toNat = b - a := by omega
  rw [if_neg h1, h2, Int.toNat_ofNat, List.drop_drop]

theorem asprintf_sub_absent (s : List Char) : asprintf_sub s ((-1 : Int) - (-1)) (-1) = [] := by
  unfold asprintf_sub printf_prec_s
  simp

theorem asprintf_sub_neg (s : List Char) (p2 a : Nat) :
    asprintf_sub s ((-1 : Int) - ((p2 + a : Nat) : Int)) ((p2 + a : Nat) : Int)
      = (s.drop p2).drop a := by
  unfold asprintf_sub printf_prec_s
  have h1 : (-1 : Int) - ((p2 + a : Nat) : Int) < 0 := by omega
  rw [if_pos h1, Int.toNat_ofNat, List.drop_drop]

theorem asprintf_sub_to_end (s : List Char) (p2 a : Nat) :
    asprintf_sub s (((s.length : Nat) : Int) - ((p2 + a : Nat) : Int)) ((p2 + a : Nat) : Int)
      = (s.drop p2).drop a := by
  unfold asprintf_sub printf_prec_s
  rw [Int.toNat_ofNat, List.drop_drop]
  split
  · rfl
  · apply List.take_of_length_le
    rw [List.length_drop]
    omega

theorem take_length_takeWhile (p : Char → Bool) (l : List Char) :
    l.take (l.takeWhile p).length = l.takeWhile p := by
  induction l with
  | nil => simp
  | cons x xs ih =>
    by_cases hx : p x = true
    · simp [List.takeWhile_cons_of_pos hx, ih]
    · simp [List.takeWhile_cons_of_neg hx]

/-- C19: whenever `parse_uri` succeeds, `path_and_more` is the part of the
input from the start of the path to its end, and that is the path,
followed by `?` and the query when a query is present (sub-match 7 took
part in the match), followed by `#` and the fragment when a fragment is
present (sub-match 9 took part); so also when the query, the fragment or
both are absent. -/
theorem parse_uri_path_and_more (full_uri : List Char) (uri : URI)
    (h : parse_uri true full_uri = Except.ok uri) :
    uri.path_and_more = full_uri.drop (uri_regexec full_uri 5).rm_so.toNat ∧
    uri.path_and_more = uri.path
      ++ (if (uri_regexec full_uri 7).rm_so = -1 then [] else '?' :: uri.query)
      ++ (if (uri_regexec full_uri 9).rm_so = -1 then [] else '#' :: uri.fragment) := by
  obtain ⟨_, _, _, hpath, hpam, hquery, hfrag⟩ := parse_uri_fields full_uri uri h
  obtain ⟨p2, h5, h7, h9⟩ := uri_regexec_tail full_uri
  have hsplit := uri_tail_split (full_uri.drop p2)
  rw [hpath, hpam, hquery, hfrag]
  clear hpath hpam hquery hfrag h
  have hso5 : (uri_regexec full_uri 5).rm_so.toNat = p2 := by
    rw [h5]
    simp
  rw [hso5]
  have hpathv : asprintf_sub full_uri
      ((uri_regexec full_uri 5).rm_eo - (uri_regexec full_uri 5).rm_so)
      (uri_regexec full_uri 5).rm_so = (full_uri.drop p2).takeWhile path_char := by
    rw [h5]
    simp only []
    rw [asprintf_sub_off _ _ _ _ (Nat.zero_le _), List.drop_zero, Nat.sub_zero,
      take_length_takeWhile]
  rw [hpathv]
  set r := full_uri.drop p2 with hr
  set P := r.takeWhile path_char with hP
  by_cases hq : (r.drop P.length).head? = some '?'
  · rw [if_pos hq] at h7
    simp only [if_pos hq] at h9 hsplit
    set Q := (r.drop (P.length + 1)).takeWhile query_char with hQ
    have hqv : asprintf_sub full_uri
        ((uri_regexec full_uri 7).rm_eo - (uri_regexec full_uri 7).rm_so)
        (uri_regexec full_uri 7).rm_so = Q := by
      rw [h7]
      simp only []
      rw [asprintf_sub_off _ _ _ _ (Nat.le_add_right _ _), Nat.add_sub_cancel_left,
        ← hr, hQ, take_length_takeWhile]
    have h7so : (uri_regexec full_uri 7).rm_so ≠ -1 := by
      rw [h7]
      simp only []
      omega
    rw [hqv, if_neg h7so]
    by_cases hf : (r.drop (P.length + 1 + Q.length)).head? = some '#'
    · rw [if_pos hf] at h9 hsplit
      have h9so : (uri_regexec full_uri 9).rm_so ≠ -1 := by
        rw [h9]
        simp only []
        omega
      rw [if_neg h9so, h9, h5]
      simp only []
      rw [asprintf_sub_to_end full_uri p2 0, asprintf_sub_to_end, List.drop_zero, ← hr]
      exact ⟨rfl, hsplit⟩
    · rw [if_neg hf] at h9 hsplit
      have h9so : (uri_regexec full_uri 9).rm_so = -1 := by rw [h9]
      rw [if_pos h9so, h9, h5]
      simp only []
      rw [asprintf_sub_neg full_uri p2 0, List.drop_zero, ← hr]
      exact ⟨rfl, hsplit⟩
  · rw [if_neg hq] at h7
    simp only [if_neg hq] at h9 hsplit
    have h7so : (uri_regexec full_uri 7).rm_so = -1 := by rw [h7]
    rw [if_pos h7so]
    by_cases hf : (r.drop P.length).head? = some '#'
    · rw [if_pos hf] at h9 hsplit
      have h9so : (uri_regexec full_uri 9).rm_so ≠ -1 := by
        rw [h9]
        simp only []
        omega
      rw [if_neg h9so, h9, h5]
      simp only []
      rw [asprintf_sub_to_end full_uri p2 0, asprintf_sub_to_end, List.drop_zero, ← hr]
      exact ⟨rfl, hsplit⟩
    · rw [if_neg hf] at h9 hsplit
      have h9so : (uri_regexec full_uri 9).rm_so = -1 := by rw [h9]
      rw [if_pos h9so, h9, h5]
      simp only []
      rw [asprintf_sub_neg full_uri p2 0, List.drop_zero, ← hr]
      exact ⟨rfl, hsplit⟩

/-- C19 at four concrete inputs: query and fragment, query only, fragment
only, neither. -/
theorem parse_uri_path_and_more_witness :
    (∃ uri, parse_uri true "http://h/a?b=1#f".toList = Except.ok uri ∧
      uri.path_and_more = "/a?b=1#f".toList) ∧
    (∃ uri, parse_uri true "http://h/a?b=1".toList = Except.ok uri ∧
      uri.path_and_more = "/a?b=1".toList) ∧
    (∃ uri, parse_uri true "http://h/a#f".toList = Except.ok uri ∧
      uri.path_and_more = "/a#f".toList) ∧
    (∃ uri, parse_uri true "http://h/a".toList = Except.ok uri ∧
      uri.path_and_more = "/a".toList) := by
  have h1 : parse_uri true "http://h/a?b=1#f".toList = Except.ok
      { full_uri := "http://h/a?b=1#f".toList, scheme := "http".toList,
        host_and_port := "h".toList, host := "h".toList, path := "/a".toList,
        path_and_more := "/a?b=1#f".toList, query := "b=1".toList, fragment := "f".toList,
        port := 0 } := by decide
  have h2 : parse_uri true "http://h/a?b=1".toList = Except.ok
      { full_uri := "http://h/a?b=1".toList, scheme := "http".toList,
        host_and_port := "h".toList, host := "h".toList, path := "/a".toList,
        path_and_more := "/a?b=1".toList, query := "b=1".toList, fragment := [],
        port := 0 } := by decide
  have h3 : parse_uri true "http://h/a#f".toList = Except.ok
      { full_uri := "http://h/a#f".toList, scheme := "http".toList,
        host_and_port := "h".toList, host := "h".toList, path := "/a".toList,
        path_and_more := "/a#f".toList, query := [], fragment := "f".toList,
        port := 0 } := by decide
  have h4 : parse_uri true "http://h/a".toList = Except.ok
      { full_uri := "http://h/a".toList, scheme := "http".toList,
        host_and_port := "h".toList, host := "h".toList, path := "/a".toList,
        path_and_more := "/a".toList, query := [], fragment := [],
        port := 0 } := by decide
  refine ⟨⟨_, h1, ?_⟩, ⟨_, h2, ?_⟩, ⟨_, h3, ?_⟩, ⟨_, h4, ?_⟩⟩
  · rw [(parse_uri_path_and_more _ _ h1).1]
    decide
  · rw [(parse_uri_path_and_more _ _ h2).1]
    decide
  · rw [(parse_uri_path_and_more _ _ h3).1]
    decide
  · rw [(parse_uri_path_and_more _ _ h4).1]
    decide

/-! ### URI parser: round trip -/

theorem takeWhile_append_stop (p : Char → Bool) (pre : List Char) (x : Char) (post : List Char)
    (hpre : ∀ c ∈ pre, p c = true) (hx : p x = false) :
    (pre ++ x :: post).takeWhile p = pre := by
  induction pre with
  | nil => simp [List.takeWhile_cons, hx]
  | cons c cs ih =>
    have hc : p c = true := hpre c (List.mem_cons_self _ _)
    simp only [List.cons_append, List.takeWhile_cons, hc, if_true]
    rw [ih (fun d hd => hpre d (List.mem_cons_of_mem _ hd))]

theorem takeWhile_all (p : Char → Bool) (l : List Char) (hl : ∀ c ∈ l, p c = true) :
    l.takeWhile p = l := by
  rw [List.takeWhile_eq_self_iff]
  exact hl

theorem asprintf_sub_nat (s : List Char) (a b : Nat) (hab : a ≤ b) :
    asprintf_sub s ((b : Int) - (a : Int)) (a : Int) = (s.drop a).take (b - a) := by
  unfold asprintf_sub printf_prec_s
  have h1 : ¬ ((b : Int) - (a : Int) < 0) := by omega
  have h2 : ((b : Int) - (a : Int)).toNat = b - a := by omega
  rw [if_neg h1, h2, Int.toNat_ofNat]

/-- The sub-matches of an absolute URL with scheme, authority, path, query
and fragment. -/
theorem uri_regexec_absolute (scheme authority path query fragment : List Char)
    (hs_ne : scheme ≠ []) (hs : ∀ c ∈ scheme, scheme_char c = true)
    (ha : ∀ c ∈ authority, authority_char c = true)
    (hpath_ne : ∃ rest, path = '/' :: rest) (hpath : ∀ c ∈ path, path_char c = true)
    (hq : ∀ c ∈ query, query_char c = true) :
    uri_regexec
        (scheme ++ ':' :: '/' :: '/' :: (authority ++ (path ++ '?' :: (query ++ '#' :: fragment))))
        2 = { rm_so := ((0 : Nat) : Int), rm_eo := (scheme.length : Nat) } ∧
    uri_regexec
        (scheme ++ ':' :: '/' :: '/' :: (authority ++ (path ++ '?' :: (query ++ '#' :: fragment))))
        4 = { rm_so := ((scheme.length + 1 + 2 : Nat) : Int),
              rm_eo := ((scheme.length + 1 + 2 + authority.length : Nat) : Int) } ∧
    uri_regexec
        (scheme ++ ':' :: '/' :: '/' :: (authority ++ (path ++ '?' :: (query ++ '#' :: fragment))))
        5 = { rm_so := ((scheme.length + 1 + 2 + authority.length : Nat) : Int),
              rm_eo := ((scheme.length + 1 + 2 + authority.length + path.length : Nat) : Int) } ∧
    uri_regexec
        (scheme ++ ':' :: '/' :: '/' :: (authority ++ (path ++ '?' :: (query ++ '#' :: fragment))))
        7 = { rm_so := ((scheme.length + 1 + 2 + authority.length + path.length + 1 : Nat) : Int),
              rm_eo := ((scheme.length + 1 + 2 + authority.length + path.length + 1
                          + query.length : Nat) : Int) } ∧
    uri_regexec
        (scheme ++ ':' :: '/' :: '/' :: (authority ++ (path ++ '?' :: (query ++ '#' :: fragment))))
        9 = { rm_so := ((scheme.length + 1 + 2 + authority.length + path.length + 1
                          + query.length + 1 : Nat) : Int),
              rm_eo := (((scheme ++ ':' :: '/' :: '/' ::
                (authority ++ (path ++ '?' :: (query ++ '#' :: fragment)))).length : Nat) : Int) } := by
  set u := scheme ++ ':' :: '/' :: '/' :: (authority ++ (path ++ '?' :: (query ++ '#' :: fragment)))
    with hu
  obtain ⟨rest, hrest⟩ := hpath_ne
  have h1 : u.takeWhile scheme_char = scheme :=
    takeWhile_append_stop scheme_char scheme ':' _ hs (by decide)
  have hd0 : u.drop scheme.length
      = ':' :: '/' :: '/' :: (authority ++ (path ++ '?' :: (query ++ '#' :: fragment))) := by
    rw [hu, List.drop_left]
  have hdk : ∀ k, u.drop (scheme.length + k)
      = (':' :: '/' :: '/' :: (authority ++ (path ++ '?' :: (query ++ '#' :: fragment)))).drop k := by
    intro k
    rw [← List.drop_drop, hd0]
  have hd1 : u.drop (scheme.length + 1)
      = '/' :: '/' :: (authority ++ (path ++ '?' :: (query ++ '#' :: fragment))) := by
    rw [hdk]
    rfl
  have hd2 : u.drop (scheme.length + 1 + 2)
      = authority ++ (path ++ '?' :: (query ++ '#' :: fragment)) := by
    rw [Nat.add_assoc, hdk]
    rfl
  have h2 : (authority ++ (path ++ '?' :: (query ++ '#' :: fragment))).takeWhile authority_char
      = authority := by
    rw [hrest]
    exact takeWhile_append_stop authority_char authority '/' _ ha (by decide)
  have hd3 : u.drop (scheme.length + 1 + 2 + authority.length)
      = path ++ '?' :: (query ++ '#' :: fragment) := by
    rw [← List.drop_drop, hd2, List.drop_left]
  have h3 : (path ++ '?' :: (query ++ '#' :: fragment)).takeWhile path_char = path :=
    takeWhile_append_stop path_char path '?' _ hpath (by decide)
  have hd4 : u.drop (scheme.length + 1 + 2 + authority.length + path.length)
      = '?' :: (query ++ '#' :: fragment) := by
    rw [← List.drop_drop, hd3, List.drop_left]
  have hd5 : u.drop (scheme.length + 1 + 2 + authority.length + path.length + 1)
      = query ++ '#' :: fragment := by
    rw [← List.drop_drop, hd4]
    rfl
  have h4 : (query ++ '#' :: fragment).takeWhile query_char = query :=
    takeWhile_append_stop query_char query '#' _ hq (by decide)
  have hd6 : u.drop (scheme.length + 1 + 2 + authority.length + path.length + 1 + query.length)
      = '#' :: fragment := by
    rw [← List.drop_drop, hd5, List.drop_left]
  unfold uri_regexec
  simp only [h1, hd0, hs_ne, List.head?_cons, ne_eq, not_false_eq_true, decide_True,
    Bool.and_self, if_true, hd1, List.take_succ_cons, List.take_zero, hd2, h2, hd3, h3, hd4,
    hd5, h4, hd6]
  refine ⟨?_, ?_, trivial, ?_, ?_⟩ <;> simp only [Nat.cast_add, Nat.cast_one, Nat.cast_ofNat,
    Nat.cast_zero]

theorem drop_take_mid (pre mid post : List Char) (n m : Nat) (hn : n = pre.length)
    (hm : m = mid.length) : ((pre ++ (mid ++ post)).drop n).take m = mid := by
  subst hn hm
  rw [List.drop_left, List.take_left]

theorem drop_pre (pre post : List Char) (n : Nat) (hn : n = pre.length) :
    (pre ++ post).drop n = post := by
  subst hn
  rw [List.drop_left]

/-- C11: for every absolute URL
`scheme ++ "://" ++ host ++ ":" ++ port ++ path ++ "?" ++ query ++ "#" ++ fragment`
whose components are as the pattern admits them (a non-empty scheme and a
host without `:`, `/`, `?`, `#`; a decimal port with a value in 1..65535; a
path that begins with `/` and holds no `?` or `#`; a query without `#`),
`parse_uri` returns 0 and stores exactly those components (`host_and_port`
being `host:port`, `path_and_more` being path, `?`, query, `#`, fragment),
and `scheme ++ "://" ++ host_and_port ++ path_and_more` is the URL again. -/
theorem parse_uri_round_trip (scheme host port path query fragment : List Char) (p : Nat)
    (hs_ne : scheme ≠ []) (hs : ∀ c ∈ scheme, scheme_char c = true)
    (hh : ∀ c ∈ host, scheme_char c = true)
    (hport_ne : port ≠ []) (hport : ∀ c ∈ port, isdigit c = true)
    (hp : decimal_value port = p) (hp1 : 1 ≤ p) (hp2 : p ≤ 65535)
    (hpath_ne : ∃ rest, path = '/' :: rest) (hpath : ∀ c ∈ path, path_char c = true)
    (hq : ∀ c ∈ query, query_char c = true) :
    parse_uri true
        (scheme ++ "://".toList ++ host ++ ":".toList ++ port ++ path ++ "?".toList ++ query
          ++ "#".toList ++ fragment)
      = Except.ok
          { full_uri := scheme ++ "://".toList ++ host ++ ":".toList ++ port ++ path
              ++ "?".toList ++ query ++ "#".toList ++ fragment,
            scheme := scheme,
            host_and_port := host ++ ":".toList ++ port,
            host := host,
            path := path,
            path_and_more := path ++ "?".toList ++ query ++ "#".toList ++ fragment,
            query := query,
            fragment := fragment,
            port := p } ∧
    scheme ++ "://".toList ++ (host ++ ":".toList ++ port)
        ++ (path ++ "?".toList ++ query ++ "#".toList ++ fragment)
      = scheme ++ "://".toList ++ host ++ ":".toList ++ port ++ path ++ "?".toList ++ query
          ++ "#".toList ++ fragment := by
  refine ⟨?_, by simp⟩
  have hu : scheme ++ "://".toList ++ host ++ ":".toList ++ port ++ path ++ "?".toList ++ query
        ++ "#".toList ++ fragment
      = scheme ++ ':' :: '/' :: '/' ::
          ((host ++ ':' :: port) ++ (path ++ '?' :: (query ++ '#' :: fragment))) := by
    simp
  have hpam : path ++ "?".toList ++ query ++ "#".toList ++ fragment
      = path ++ '?' :: (query ++ '#' :: fragment) := by simp
  have hhp : host ++ ":".toList ++ port = host ++ ':' :: port := by simp
  rw [hu, hpam, hhp]
  have hport_colon : ':' ∉ port := by
    intro hm
    have := hport ':' hm
    revert this
    decide
  have ha : ∀ c ∈ host ++ ':' :: port, authority_char c = true := by
    intro c hc
    rcases List.mem_append.mp hc with h | h
    · have := hh c h
      unfold scheme_char at this
      unfold authority_char
      simp only [Bool.not_eq_true', Bool.or_eq_false_iff, decide_eq_false_iff_not] at this ⊢
      exact ⟨⟨this.1.1.2, this.1.2⟩, this.2⟩
    · rcases List.mem_cons.mp h with h | h
      · subst h
        decide
      · have := isdigit_toNat c (hport c h)
        unfold authority_char
        simp only [Bool.not_eq_true', Bool.or_eq_false_iff, decide_eq_false_iff_not]
        refine ⟨⟨?_, ?_⟩, ?_⟩ <;> (intro hc2; rw [hc2] at this; revert this; decide)
  obtain ⟨m2, m4, m5, m7, m9⟩ := uri_regexec_absolute scheme (host ++ ':' :: port) path query
    fragment hs_ne hs ha hpath_ne hpath hq
  set u := scheme ++ ':' :: '/' :: '/' ::
    ((host ++ ':' :: port) ++ (path ++ '?' :: (query ++ '#' :: fragment))) with hudef
  have f_scheme : asprintf_sub u ((uri_regexec u 2).rm_eo - (uri_regexec u 2).rm_so)
      (uri_regexec u 2).rm_so = scheme := by
    rw [m2]
    simp only []
    rw [asprintf_sub_nat _ _ _ (Nat.zero_le _), List.drop_zero, Nat.sub_zero, hudef,
      List.take_left]
  have f_auth : uri_host_and_port u = host ++ ':' :: port := by
    unfold uri_host_and_port
    rw [m4]
    simp only []
    rw [asprintf_sub_nat _ _ _ (Nat.le_add_right _ _), Nat.add_sub_cancel_left]
    have hu2 : u = (scheme ++ [':', '/', '/'])
        ++ ((host ++ ':' :: port) ++ (path ++ '?' :: (query ++ '#' :: fragment))) := by
      rw [hudef]; simp
    rw [hu2]
    exact drop_take_mid _ _ _ _ _ (by simp) rfl
  have f_path : asprintf_sub u ((uri_regexec u 5).rm_eo - (uri_regexec u 5).rm_so)
      (uri_regexec u 5).rm_so = path := by
    rw [m5]
    simp only []
    rw [asprintf_sub_nat _ _ _ (Nat.le_add_right _ _), Nat.add_sub_cancel_left]
    have hu2 : u = (scheme ++ [':', '/', '/'] ++ (host ++ ':' :: port))
        ++ (path ++ ('?' :: (query ++ '#' :: fragment))) := by
      rw [hudef]; simp
    rw [hu2]
    exact drop_take_mid _ _ _ _ _ (by simp; omega) rfl
  have f_pam : asprintf_sub u ((uri_regexec u 9).rm_eo - (uri_regexec u 5).rm_so)
      (uri_regexec u 5).rm_so = path ++ '?' :: (query ++ '#' :: fragment) := by
    rw [m9, m5]
    simp only []
    have := asprintf_sub_to_end u (scheme.length + 1 + 2 + (host ++ ':' :: port).length) 0
    rw [Nat.add_zero, List.drop_zero] at this
    rw [this]
    have hu2 : u = (scheme ++ [':', '/', '/'] ++ (host ++ ':' :: port))
        ++ (path ++ ('?' :: (query ++ '#' :: fragment))) := by
      rw [hudef]; simp
    rw [hu2]
    exact drop_pre _ _ _ (by simp; omega)
  have f_query : asprintf_sub u ((uri_regexec u 7).rm_eo - (uri_regexec u 7).rm_so)
      (uri_regexec u 7).rm_so = query := by
    rw [m7]
    simp only []
    rw [asprintf_sub_nat _ _ _ (Nat.le_add_right _ _), Nat.add_sub_cancel_left]
    have hu2 : u = (scheme ++ [':', '/', '/'] ++ (host ++ ':' :: port) ++ path ++ ['?'])
        ++ (query ++ ('#' :: fragment)) := by
      rw [hudef]; simp
    rw [hu2]
    exact drop_take_mid _ _ _ _ _ (by simp; omega) rfl
  have f_frag : asprintf_sub u ((uri_regexec u 9).rm_eo - (uri_regexec u 9).rm_so)
      (uri_regexec u 9).rm_so = fragment := by
    rw [m9]
    simp only []
    have := asprintf_sub_to_end u
      (scheme.length + 1 + 2 + (host ++ ':' :: port).length + path.length + 1 + query.length + 1) 0
    rw [Nat.add_zero, List.drop_zero] at this
    rw [this]
    have hu2 : u = (scheme ++ [':', '/', '/'] ++ (host ++ ':' :: port) ++ path ++ ['?']
        ++ query ++ ['#']) ++ fragment := by
      rw [hudef]; simp
    rw [hu2]
    exact drop_pre _ _ _ (by simp; omega)
  have hcolon := strrchr_last ':' host port hport_colon
  have hdrop : (host ++ ':' :: port).drop (host.length + 1) = port := by
    have h2 : host ++ ':' :: port = (host ++ [':']) ++ port := by simp
    rw [h2]
    exact drop_pre _ _ _ (by simp)
  have hatoi : atoi port = p := by
    have := atoi_digits port [] hport_ne hport (by simp) (by rw [hp]; omega)
    rw [List.append_nil] at this
    rw [this, hp]
  have hrange : ¬ ((p : Int) < 1 ∨ (p : Int) ≥ 256 * 256) := by omega
  have hhost : printf_prec_s (host.length : Int) (host ++ ':' :: port) = host := by
    unfold printf_prec_s
    have : ¬ (host.length : Int) < 0 := by omega
    simp [this]
  unfold parse_uri
  simp only [Bool.not_true, Bool.false_eq_true, if_false, f_scheme, f_auth, f_path, f_pam,
    f_query, f_frag, hcolon, hdrop, hatoi, hrange, hhost, Int.toNat_ofNat]

/-- C11 at the URL `https://origin.test:8080/a?b=1#f`. -/
theorem parse_uri_round_trip_witness :
    parse_uri true "https://origin.test:8080/a?b=1#f".toList = Except.ok
      { full_uri := "https://origin.test:8080/a?b=1#f".toList, scheme := "https".toList,
        host_and_port := "origin.test:8080".toList, host := "origin.test".toList,
        path := "/a".toList, path_and_more := "/a?b=1#f".toList, query := "b=1".toList,
        fragment := "f".toList, port := 8080 } ∧
    "https".toList ++ "://".toList ++ "origin.test:8080".toList ++ "/a?b=1#f".toList
      = "https://origin.test:8080/a?b=1#f".toList := by
  have h := parse_uri_round_trip "https".toList "origin.test".toList "8080".toList "/a".toList
    "b=1".toList "f".toList 8080 (by decide) (by decide) (by decide) (by decide) (by decide)
    (by decide) (by decide) (by decide) ⟨"a".toList, rfl⟩ (by decide) (by decide)
  exact ⟨h.1, by decide⟩

/-! ### Request handler -/

theorem iterate_cb_eq (env : Env) (proxy : Proxy) (name : List Char) (value : List (List Char))
    (hmalloc : env.malloc_ok = true) (happend : env.slist_append_ok = true) :
    iterate_cb env proxy name value =
      Except.ok
        ({ proxy with curl_headers := proxy.curl_headers ++ [http_header_line name value] },
         1) := by
  unfold iterate_cb http_header_line
  simp only [hmalloc, happend, strcat_loop_zero]
  cases name with
  | nil =>
    have h : toupper ':' = ':' := by decide
    simp [toupper_first, h]
  | cons c cs => simp [toupper_first]

/-- The iteration over the inbound headers appends one line per pair, in
order, and changes nothing else. -/
theorem SPDY_name_value_iterate_eq (env : Env) (hmalloc : env.malloc_ok = true)
    (happend : env.slist_append_ok = true) (headers : SPDY_NameValue) :
    ∀ proxy : Proxy, SPDY_name_value_iterate env headers proxy =
      Except.ok { proxy with
        curl_headers := proxy.curl_headers
          ++ headers.map (fun e => http_header_line e.1 e.2) } := by
  induction headers with
  | nil =>
    intro proxy
    simp [SPDY_name_value_iterate]
  | cons e rest ih =>
    intro proxy
    obtain ⟨name, value⟩ := e
    unfold SPDY_name_value_iterate
    rw [iterate_cb_eq env proxy name value hmalloc happend]
    simp only [if_true]
    rw [ih]
    simp

/-- The handler once the URL is resolved, every call outside the file
succeeding. -/
theorem standard_request_handler_of_url (glob_opt : global_options) (henv : HandlerEnv)
    (request : Nat) (path host scheme : List Char) (headers : SPDY_NameValue)
    (hok : henv.succeeds) :
    (∀ url, request_url glob_opt henv path host scheme = Except.ok url →
      ∃ r, standard_request_handler glob_opt henv request path host scheme headers
          = Except.ok r ∧ r.1.url = some url ∧ r.2.url = url ∧
          r.1.curl_headers = headers.map (fun e => http_header_line e.1 e.2)) ∧
    (∀ e, request_url glob_opt henv path host scheme = Except.error e →
      standard_request_handler glob_opt henv request path host scheme headers
        = Except.error e) := by
  obtain ⟨h1, h2, h3, h4, h5, h6, h7, h8⟩ := hok
  constructor
  · intro url hurl
    unfold standard_request_handler
    rw [hurl]
    simp only [h1, h3, Bool.not_true, Bool.false_eq_true, if_false,
      SPDY_name_value_iterate_eq henv.env h1 h2]
    cases hinit : henv.curl_easy_init with
    | none => rw [hinit] at h5; cases h5
    | some handle =>
      simp only [h6, h7, h8, Bool.not_true, Bool.false_eq_true, if_false]
      exact ⟨_, rfl, rfl, rfl, by simp [Proxy.fresh]⟩
  · intro e hurl
    unfold standard_request_handler
    rw [hurl]
    simp [h1, h3]

/-- C12: in transparent mode (every call outside the file succeeding), for
every inbound scheme, host and path, the outbound URL is
`scheme ++ "://" ++ A ++ path`, `A` being the configured backend when one
is set and the inbound host otherwise: when that URL parses the handler
stores it in the transaction and gives it to curl, and when it does not
parse the handler ends the process with `DIE`. -/
theorem standard_request_handler_transparent (glob_opt : global_options) (henv : HandlerEnv)
    (request : Nat) (path host scheme : List Char) (headers : SPDY_NameValue)
    (htrans : glob_opt.transparent = true) (hok : henv.succeeds) :
    (∀ uri,
      parse_uri true (scheme ++ "://".toList ++
          (match glob_opt.http_backend with
           | some backend => backend
           | none => host) ++ path) = Except.ok uri →
      ∃ r, standard_request_handler glob_opt henv request path host scheme headers
          = Except.ok r ∧
        r.1.url = some (scheme ++ "://".toList ++
          (match glob_opt.http_backend with
           | some backend => backend
           | none => host) ++ path) ∧
        r.2.url = scheme ++ "://".toList ++
          (match glob_opt.http_backend with
           | some backend => backend
           | none => host) ++ path) ∧
    (∀ code,
      parse_uri true (scheme ++ "://".toList ++
          (match glob_opt.http_backend with
           | some backend => backend
           | none => host) ++ path) = Except.error code →
      standard_request_handler glob_opt henv request path host scheme headers
        = Except.error Fatal.die) := by
  have hh := standard_request_handler_of_url glob_opt henv request path host scheme headers hok
  obtain ⟨h1, _, _, h4, _⟩ := hok
  constructor
  · intro uri hparse
    have hurl : request_url glob_opt henv path host scheme = Except.ok
        (scheme ++ "://".toList ++
          (match glob_opt.http_backend with
           | some backend => backend
           | none => host) ++ path) := by
      unfold request_url
      cases hb : glob_opt.http_backend with
      | none =>
        rw [hb] at hparse
        simp only [htrans, if_true, h4, Bool.not_true, Bool.false_eq_true, if_false, h1, hparse]
      | some backend =>
        rw [hb] at hparse
        simp only [htrans, if_true, h4, Bool.not_true, Bool.false_eq_true, if_false, h1, hparse]
    obtain ⟨r, hr, hu1, hu2, _⟩ := hh.1 _ hurl
    exact ⟨r, hr, hu1, hu2⟩
  · intro code hparse
    apply hh.2
    unfold request_url
    cases hb : glob_opt.http_backend with
    | none =>
      rw [hb] at hparse
      simp only [htrans, if_true, h4, Bool.not_true, Bool.false_eq_true, if_false, h1, hparse]
    | some backend =>
      rw [hb] at hparse
      simp only [htrans, if_true, h4, Bool.not_true, Bool.false_eq_true, if_false, h1, hparse]

/-- C12 at the scenario of the spec: scheme `https`, host `h.example`,
path `/x`, backend `10.0.0.1:8080` give `https://10.0.0.1:8080/x`; an
inbound host with port 0 makes the built URL unparsable and the handler
exits. -/
theorem standard_request_handler_transparent_witness :
    (∃ r, standard_request_handler
        { http_backend := some "10.0.0.1:8080".toList, cert := none, cert_key := none,
          listen_port := 8443, verbose := false, curl_verbose := false, transparent := true,
          http10 := false }
        HandlerEnv.spec 0 "/x".toList "h.example".toList "https".toList [] = Except.ok r ∧
      r.1.url = some "https://10.0.0.1:8080/x".toList) ∧
    standard_request_handler
        { http_backend := none, cert := none, cert_key := none,
          listen_port := 8443, verbose := false, curl_verbose := false, transparent := true,
          http10 := false }
        HandlerEnv.spec 0 "/x".toList "h.example:0".toList "https".toList []
      = Except.error Fatal.die := by
  constructor
  · obtain ⟨r, h1, h2, _⟩ := (standard_request_handler_transparent
      { http_backend := some "10.0.0.1:8080".toList, cert := none, cert_key := none,
        listen_port := 8443, verbose := false, curl_verbose := false, transparent := true,
        http10 := false }
      HandlerEnv.spec 0 "/x".toList "h.example".toList "https".toList [] rfl
      ⟨rfl, rfl, rfl, rfl, rfl, rfl, rfl, rfl⟩).1
      { full_uri := "https://10.0.0.1:8080/x".toList, scheme := "https".toList,
        host_and_port := "10.0.0.1:8080".toList, host := "10.0.0.1".toList,
        path := "/x".toList, path_and_more := "/x".toList, query := [], fragment := [],
        port := 8080 } (by decide)
    exact ⟨r, h1, h2⟩
  · exact (standard_request_handler_transparent
      { http_backend := none, cert := none, cert_key := none,
        listen_port := 8443, verbose := false, curl_verbose := false, transparent := true,
        http10 := false }
      HandlerEnv.spec 0 "/x".toList "h.example:0".toList "https".toList [] rfl
      ⟨rfl, rfl, rfl, rfl, rfl, rfl, rfl, rfl⟩).2
      ParseFailure.undefined (by decide)

/-- C13: in non-transparent mode (every call outside the file succeeding)
the handler ends the process exactly when the inbound path fails to parse
or parses with an empty scheme or an empty host; otherwise the outbound URL
is the inbound path as it came when no backend is configured, and
`scheme ++ "://" ++ backend ++ path_and_more` of the parsed path when one
is. -/
theorem standard_request_handler_forward (glob_opt : global_options) (henv : HandlerEnv)
    (request : Nat) (path host scheme : List Char) (headers : SPDY_NameValue)
    (htrans : glob_opt.transparent = false) (hok : henv.succeeds) :
    ((∃ e, standard_request_handler glob_opt henv request path host scheme headers
        = Except.error e) ↔
      ((∃ code, parse_uri true path = Except.error code) ∨
        (∃ uri, parse_uri true path = Except.ok uri ∧ (uri.scheme = [] ∨ uri.host = [])))) ∧
    (∀ uri, parse_uri true path = Except.ok uri → uri.scheme ≠ [] → uri.host ≠ [] →
      ∃ r, standard_request_handler glob_opt henv request path host scheme headers
          = Except.ok r ∧
        r.1.url = some
          (match glob_opt.http_backend with
           | none => path
           | some backend => uri.scheme ++ "://".toList ++ backend ++ uri.path_and_more)) := by
  have hh := standard_request_handler_of_url glob_opt henv request path host scheme headers hok
  obtain ⟨h1, _, _, h4, _⟩ := hok
  have hgood : ∀ uri, parse_uri true path = Except.ok uri → uri.scheme ≠ [] → uri.host ≠ [] →
      request_url glob_opt henv path host scheme = Except.ok
        (match glob_opt.http_backend with
         | none => path
         | some backend => uri.scheme ++ "://".toList ++ backend ++ uri.path_and_more) := by
    intro uri hparse hs hhost
    have hs2 : ¬ uri.scheme.length = 0 := fun h => hs (List.length_eq_zero.mp h)
    have hh2 : ¬ uri.host.length = 0 := fun h => hhost (List.length_eq_zero.mp h)
    unfold request_url
    cases hb : glob_opt.http_backend <;>
      simp [htrans, h1, h4, hparse, hs2, hh2]
  have hbad1 : ∀ code, parse_uri true path = Except.error code →
      request_url glob_opt henv path host scheme = Except.error Fatal.die := by
    intro code hparse
    unfold request_url
    simp [htrans, h1, hparse]
  have hbad2 : ∀ uri, parse_uri true path = Except.ok uri → (uri.scheme = [] ∨ uri.host = []) →
      request_url glob_opt henv path host scheme = Except.error Fatal.die := by
    intro uri hparse hempty
    have : uri.scheme.length = 0 ∨ uri.host.length = 0 := by
      rcases hempty with h | h
      · exact Or.inl (by rw [h]; rfl)
      · exact Or.inr (by rw [h]; rfl)
    unfold request_url
    simp only [htrans, Bool.false_eq_true, if_false, h1, hparse]
    rw [if_pos this]
  refine ⟨⟨?_, ?_⟩, ?_⟩
  · rintro ⟨e, he⟩
    cases hparse : parse_uri true path with
    | error code => exact Or.inl ⟨code, rfl⟩
    | ok uri =>
      right
      refine ⟨uri, rfl, ?_⟩
      by_contra hne
      have hs : uri.scheme ≠ [] := fun h => hne (Or.inl h)
      have hho : uri.host ≠ [] := fun h => hne (Or.inr h)
      obtain ⟨r, hr, _⟩ := hh.1 _ (hgood uri hparse hs hho)
      rw [hr] at he
      cases he
  · rintro (⟨code, hparse⟩ | ⟨uri, hparse, hempty⟩)
    · exact ⟨Fatal.die, hh.2 _ (hbad1 code hparse)⟩
    · exact ⟨Fatal.die, hh.2 _ (hbad2 uri hparse hempty)⟩
  · intro uri hparse hs hho
    obtain ⟨r, hr, hu, _⟩ := hh.1 _ (hgood uri hparse hs hho)
    exact ⟨r, hr, hu⟩

/-- C13 at the scenario of the spec: `https://origin.test/a?b=1` goes out
as it came when no backend is set, and with the authority replaced when
one is; a path without scheme and host ends the process. -/
theorem standard_request_handler_forward_witness :
    (∃ r, standard_request_handler
        { http_backend := none, cert := none, cert_key := none,
          listen_port := 8443, verbose := false, curl_verbose := false, transparent := false,
          http10 := false }
        HandlerEnv.spec 0 "https://origin.test/a?b=1".toList [] [] [] = Except.ok r ∧
      r.1.url = some "https://origin.test/a?b=1".toList) ∧
    (∃ r, standard_request_handler
        { http_backend := some "10.0.0.1:8080".toList, cert := none, cert_key := none,
          listen_port := 8443, verbose := false, curl_verbose := false, transparent := false,
          http10 := false }
        HandlerEnv.spec 0 "https://origin.test/a?b=1".toList [] [] [] = Except.ok r ∧
      r.1.url = some "https://10.0.0.1:8080/a?b=1".toList) ∧
    (∃ e, standard_request_handler
        { http_backend := none, cert := none, cert_key := none,
          listen_port := 8443, verbose := false, curl_verbose := false, transparent := false,
          http10 := false }
        HandlerEnv.spec 0 "/a?b=1".toList [] [] [] = Except.error e) := by
  have hp : parse_uri true "https://origin.test/a?b=1".toList = Except.ok
      { full_uri := "https://origin.test/a?b=1".toList, scheme := "https".toList,
        host_and_port := "origin.test".toList, host := "origin.test".toList,
        path := "/a".toList, path_and_more := "/a?b=1".toList, query := "b=1".toList,
        fragment := [], port := 0 } := by decide
  refine ⟨?_, ?_, ?_⟩
  · exact (standard_request_handler_forward
      { http_backend := none, cert := none, cert_key := none,
        listen_port := 8443, verbose := false, curl_verbose := false, transparent := false,
        http10 := false }
      HandlerEnv.spec 0 "https://origin.test/a?b=1".toList [] [] [] rfl
      ⟨rfl, rfl, rfl, rfl, rfl, rfl, rfl, rfl⟩).2 _ hp (by decide) (by decide)
  · exact (standard_request_handler_forward
      { http_backend := some "10.0.0.1:8080".toList, cert := none, cert_key := none,
        listen_port := 8443, verbose := false, curl_verbose := false, transparent := false,
        http10 := false }
      HandlerEnv.spec 0 "https://origin.test/a?b=1".toList [] [] [] rfl
      ⟨rfl, rfl, rfl, rfl, rfl, rfl, rfl, rfl⟩).2 _ hp (by decide) (by decide)
  · exact (standard_request_handler_forward
      { http_backend := none, cert := none, cert_key := none,
        listen_port := 8443, verbose := false, curl_verbose := false, transparent := false,
        http10 := false }
      HandlerEnv.spec 0 "/a?b=1".toList [] [] [] rfl
      ⟨rfl, rfl, rfl, rfl, rfl, rfl, rfl, rfl⟩).1.mpr
      (Or.inr ⟨{ full_uri := "/a?b=1".toList, scheme := [], host_and_port := [], host := [],
                 path := "/a".toList, path_and_more := "/a?b=1".toList,
                 query := "b=1".toList, fragment := [], port := 0 }, by decide, Or.inl rfl⟩)

/-! ### Header callback: duplicates -/

/-- The header-line branch of `curl_header_cb` on a line with a value: the
pair it hands to `SPDY_name_value_add`, and what it does with the answer.
The line may end at the value (`tail` empty) or go on with CR. -/
theorem curl_header_cb_value_line (env : Env) (proxy : Proxy)
    (name ws value tail : List Char)
    (hmalloc : env.malloc_ok = true)
    (hresp : proxy.response = none) (hver : proxy.version.isSome = true)
    (hn_colon : ':' ∉ name) (hn_cr : '\r' ∉ name) (hn_nul : NUL ∉ name)
    (hws : ∀ c ∈ ws, isspace c = true)
    (hv_cr : '\r' ∉ value) (hv_nul : NUL ∉ value)
    (hv_head : ∀ c, value.head? = some c → isspace c = false)
    (ht_space : ∀ c ∈ tail, isspace c = true)
    (ht_cr : tail = [] ∨ ∃ post, tail = '\r' :: post)
    (hskip : name.map tolower ≠ SPDY_HTTP_HEADER_CONNECTION ∧
      name.map tolower ≠ SPDY_HTTP_HEADER_KEEP_ALIVE) :
    curl_header_cb env proxy (name ++ ':' :: (ws ++ value ++ tail))
      = (match env.name_value_add proxy.headers (name.map tolower) value with
         | some headers =>
           Except.ok ({ proxy with headers := headers },
             (name ++ ':' :: (ws ++ value ++ tail)).length)
         | none =>
           match env.name_value_lookup proxy.headers (name.map tolower) with
           | some values =>
             if values.any (fun v => strcasecmp_eq value v) then
               Except.ok (proxy, (name ++ ':' :: (ws ++ value ++ tail)).length)
             else Except.error Fatal.abort
           | none => Except.error Fatal.abort) := by
  have hhead : (name ++ ':' :: (ws ++ value ++ tail)).head? ≠ some '\r' := by
    cases name with
    | nil => simp
    | cons c cs =>
      have : c ≠ '\r' := fun h => hn_cr (h ▸ List.mem_cons_self _ _)
      simpa using this
  have hlow := lower_name_append name ':' (ws ++ value ++ tail) 0 hn_colon hn_cr (Or.inl rfl)
  have hname : strndup (name.map tolower ++ ':' :: (ws ++ value ++ tail)) name.length
      = name.map tolower := by
    have := strndup_append (name.map tolower) (':' :: (ws ++ value ++ tail))
      (no_nul_map_tolower name hn_nul)
    simpa using this
  have hget : (name.map tolower ++ ':' :: (ws ++ value ++ tail)).get? name.length
      = some ':' := by
    rw [List.get?_eq_getElem?, List.getElem?_append_right (by simp)]
    simp
  have hlen : ¬ name.length = (name ++ ':' :: (ws ++ value ++ tail)).length := by
    simp
  have hdrop1 : (name.map tolower ++ ':' :: (ws ++ value ++ tail)).drop (name.length + 1)
      = ws ++ value ++ tail := by
    have h2 : name.map tolower ++ ':' :: (ws ++ value ++ tail)
        = (name.map tolower ++ [':']) ++ (ws ++ value ++ tail) := by simp
    have h3 : name.length + 1 = (name.map tolower ++ [':']).length := by simp
    rw [h2, h3, List.drop_left]
  have hcolon_cr : (':' : Char) ≠ '\r' := by decide
  have hval : strndup
      ((ws ++ value ++ tail).drop
        (scan (fun c => !isspace c) (ws ++ value ++ tail) (name.length + 1)
          - (name.length + 1)))
      (scan (fun c => c = '\r')
          ((ws ++ value ++ tail).drop
            (scan (fun c => !isspace c) (ws ++ value ++ tail) (name.length + 1)
              - (name.length + 1)))
          (scan (fun c => !isspace c) (ws ++ value ++ tail) (name.length + 1))
        - scan (fun c => !isspace c) (ws ++ value ++ tail) (name.length + 1))
      = value := by
    cases value with
    | nil =>
      have hall : ∀ c ∈ ws ++ [] ++ tail, (!isspace c) = false := by
        intro c hc
        simp only [List.append_nil, List.mem_append] at hc
        rcases hc with h | h
        · simp [hws c h]
        · simp [ht_space c h]
      rw [scan_all _ _ _ hall, Nat.add_sub_cancel_left, List.drop_length]
      simp [strndup, cstr, scan]
    | cons v vs =>
      have hv : (!isspace v) = true := by simp [hv_head v rfl]
      have hstop : scan (fun c => !isspace c) (ws ++ (v :: vs) ++ tail) (name.length + 1)
          = name.length + 1 + ws.length := by
        have h2 : ws ++ (v :: vs) ++ tail = ws ++ v :: (vs ++ tail) := by simp
        rw [h2]
        exact scan_append_stop _ ws v _ _ (by intro c hc; simp [hws c hc]) hv
      rw [hstop]
      have hsub : name.length + 1 + ws.length - (name.length + 1) = ws.length := by omega
      have hd : (ws ++ (v :: vs) ++ tail).drop ws.length = (v :: vs) ++ tail := by
        rw [List.append_assoc, List.drop_left]
      rw [hsub, hd]
      have hnostop : ∀ c ∈ v :: vs, decide (c = '\r') = false := by
        intro c hc
        simp only [decide_eq_false_iff_not]
        intro hcr
        exact hv_cr (hcr ▸ hc)
      have hscan : scan (fun c => c = '\r') ((v :: vs) ++ tail)
          (name.length + 1 + ws.length) = name.length + 1 + ws.length + (v :: vs).length := by
        rcases ht_cr with h | ⟨post, h⟩
        · rw [h, List.append_nil]
          exact scan_all _ _ _ hnostop
        · rw [h]
          exact scan_append_stop _ (v :: vs) '\r' post _ hnostop (by simp)
      rw [hscan]
      have hsub2 : name.length + 1 + ws.length + (v :: vs).length
          - (name.length + 1 + ws.length) = (v :: vs).length := by omega
      rw [hsub2]
      exact strndup_append (v :: vs) _ hv_nul
  have hge := scan_ge (fun c => !isspace c) (ws ++ value ++ tail) (name.length + 1)
  have hdrop3 : ∀ pos : Nat, name.length + 1 ≤ pos →
      (name.map tolower ++ ':' :: (ws ++ value ++ tail)).drop pos
        = (ws ++ value ++ tail).drop (pos - (name.length + 1)) := by
    intro pos hp
    have h1 : pos = (name.length + 1) + (pos - (name.length + 1)) := by omega
    conv_lhs => rw [h1]
    rw [← List.drop_drop, hdrop1]
  have hdrop2 := hdrop3 _ hge
  have hvs : proxy.version.isNone = false := by
    cases hv : proxy.version with
    | none => rw [hv] at hver; cases hver
    | some v => rfl
  unfold curl_header_cb
  simp only [hresp, Option.isSome_none, Bool.false_eq_true, if_false, hhead, hvs, hlow,
    Nat.zero_add, hmalloc, Bool.not_true, hname, hskip.1, hskip.2, or_self, hlen, hget,
    Option.some.injEq, hcolon_cr, hdrop1, hdrop2, hval]

/-- The branch of `curl_header_cb` for a line without `:` ("no value. is it
possible?") has no elision: after the status line and a first `X-Dup` line
the multimap holds `x-dup` with the empty value, and on a second `X-Dup`
line the multimap refuses the pair and the process ends with `DIE`. -/
theorem curl_header_cb_no_value_refused :
    ∃ proxy, feed_headers Env.spec (Proxy.fresh 0)
        ["HTTP/1.1 200 OK\r\n".toList, "X-Dup\r\n".toList] = Except.ok proxy ∧
      SPDY_name_value_add proxy.headers "x-dup".toList [] = none ∧
      SPDY_name_value_lookup proxy.headers "x-dup".toList = some [[]] ∧
      curl_header_cb Env.spec proxy "X-Dup\r\n".toList = Except.error Fatal.die :=
  ⟨{ Proxy.fresh 0 with
      version := some "HTTP/1.1".toList, status := 200,
      status_msg := some "OK".toList, headers := [("x-dup".toList, [[]])] },
    by decide, by decide, by decide, by decide⟩

/-- C14: on a header line `<name>:<ws><value>CRLF` (neither trailer nor
status line, name without `:` and CR, value without CR and leading white
space, no NUL, name not `connection` or `keep-alive`) whose pair of
lower-cased name and value the multimap refuses to add, `curl_header_cb`
elides the line (it returns the length of the line and leaves the
transaction, its multimap included, as it was) if some value stored under
that name equals the new value ignoring letter case, and calls `abort()`
otherwise.  So, with the multimap as the spec describes it, `X-Dup: v`
twice yields the single entry `x-dup: ["v"]` and no error, and `X-Dup: v1`
then `X-Dup: v2` leaves both values stored under `x-dup`. -/
theorem curl_header_cb_refused (env : Env) (proxy : Proxy) (name ws value : List Char)
    (hmalloc : env.malloc_ok = true)
    (hresp : proxy.response = none) (hver : proxy.version.isSome = true)
    (hn_colon : ':' ∉ name) (hn_cr : '\r' ∉ name) (hn_nul : NUL ∉ name)
    (hws : ∀ c ∈ ws, isspace c = true)
    (hv_cr : '\r' ∉ value) (hv_nul : NUL ∉ value)
    (hv_head : ∀ c, value.head? = some c → isspace c = false)
    (hskip : name.map tolower ≠ SPDY_HTTP_HEADER_CONNECTION ∧
      name.map tolower ≠ SPDY_HTTP_HEADER_KEEP_ALIVE)
    (hrefused : env.name_value_add proxy.headers (name.map tolower) value = none) :
    ((∃ values, env.name_value_lookup proxy.headers (name.map tolower) = some values ∧
        ∃ v ∈ values, value.map tolower = v.map tolower) →
      curl_header_cb env proxy (name ++ ':' :: (ws ++ value ++ ['\r', '\n']))
        = Except.ok (proxy, (name ++ ':' :: (ws ++ value ++ ['\r', '\n'])).length)) ∧
    ((¬ ∃ values, env.name_value_lookup proxy.headers (name.map tolower) = some values ∧
        ∃ v ∈ values, value.map tolower = v.map tolower) →
      curl_header_cb env proxy (name ++ ':' :: (ws ++ value ++ ['\r', '\n']))
        = Except.error Fatal.abort) ∧
    (∃ twice, feed_headers Env.spec (Proxy.fresh 0)
        ["HTTP/1.1 200 OK\r\n".toList, "X-Dup: v\r\n".toList, "X-Dup: v\r\n".toList]
        = Except.ok twice ∧ twice.headers = [("x-dup".toList, ["v".toList])]) ∧
    (∃ both, feed_headers Env.spec (Proxy.fresh 0)
        ["HTTP/1.1 200 OK\r\n".toList, "X-Dup: v1\r\n".toList, "X-Dup: v2\r\n".toList]
        = Except.ok both ∧
      both.headers = [("x-dup".toList, ["v1".toList, "v2".toList])]) := by
  have h := curl_header_cb_value_line env proxy name ws value ['\r', '\n'] hmalloc hresp hver
    hn_colon hn_cr hn_nul hws hv_cr hv_nul hv_head (by decide) (Or.inr ⟨['\n'], rfl⟩) hskip
  rw [hrefused] at h
  simp only [] at h
  rw [h]
  refine ⟨?_, ?_,
    ⟨{ Proxy.fresh 0 with
       version := some "HTTP/1.1".toList, status := 200, status_msg := some "OK".toList,
       headers := [("x-dup".toList, ["v".toList])] }, by decide, rfl⟩,
    ⟨{ Proxy.fresh 0 with
       version := some "HTTP/1.1".toList, status := 200, status_msg := some "OK".toList,
       headers := [("x-dup".toList, ["v1".toList, "v2".toList])] }, by decide, rfl⟩⟩
  · rintro ⟨values, hlook, v, hv, heq⟩
    rw [hlook]
    have hany : values.any (fun v => strcasecmp_eq value v) = true := by
      rw [List.any_eq_true]
      exact ⟨v, hv, by simp [strcasecmp_eq, heq]⟩
    simp only [hany, if_true]
  · intro hno
    cases hlook : env.name_value_lookup proxy.headers (name.map tolower) with
    | none => rfl
    | some values =>
      have hany : ¬ values.any (fun v => strcasecmp_eq value v) = true := by
        rw [List.any_eq_true]
        rintro ⟨v, hv, heq⟩
        exact hno ⟨values, hlook, v, hv, by simpa [strcasecmp_eq] using heq⟩
      simp only [hany, Bool.false_eq_true, if_false]

/-- C14 at the headers of the spec, with the multimap modelled from the
spec: the second `X-Dup: v` is elided, so that `X-Dup: v` twice leaves the
single entry `x-dup: ["v"]` and no error, and `v1` then `v2` leaves both
values; and with a multimap that refuses everything the line `X-A: 1`
aborts. -/
theorem curl_header_cb_refused_witness :
    curl_header_cb Env.spec
        { Proxy.fresh 0 with
          version := some "HTTP/1.1".toList, headers := [("x-dup".toList, ["v".toList])] }
        "X-Dup: v\r\n".toList
      = Except.ok
          ({ Proxy.fresh 0 with
             version := some "HTTP/1.1".toList,
             headers := [("x-dup".toList, ["v".toList])] }, 10) ∧
    (∃ proxy, feed_headers Env.spec (Proxy.fresh 0)
        ["HTTP/1.1 200 OK\r\n".toList, "X-Dup: v\r\n".toList, "X-Dup: v\r\n".toList]
        = Except.ok proxy ∧ proxy.headers = [("x-dup".toList, ["v".toList])]) ∧
    (∃ proxy, feed_headers Env.spec (Proxy.fresh 0)
        ["HTTP/1.1 200 OK\r\n".toList, "X-Dup: v1\r\n".toList, "X-Dup: v2\r\n".toList]
        = Except.ok proxy ∧
      proxy.headers = [("x-dup".toList, ["v1".toList, "v2".toList])]) ∧
    curl_header_cb
        { malloc_ok := true, name_value_add := fun _ _ _ => none,
          name_value_lookup := SPDY_name_value_lookup, build_response_ok := true,
          queue_response_ok := true, slist_append_ok := true }
        { Proxy.fresh 0 with version := some "HTTP/1.1".toList } "X-A: 1\r\n".toList
      = Except.error Fatal.abort := by
  have hspec := curl_header_cb_refused Env.spec
      { Proxy.fresh 0 with
        version := some "HTTP/1.1".toList, headers := [("x-dup".toList, ["v".toList])] }
      "X-Dup".toList " ".toList "v".toList rfl rfl rfl (by decide) (by decide) (by decide)
      (by decide) (by decide) (by decide) (by decide) (by decide) (by decide)
  refine ⟨?_, hspec.2.2.1, hspec.2.2.2, ?_⟩
  · exact hspec.1 ⟨["v".toList], by decide, "v".toList, by decide, by decide⟩
  · exact (curl_header_cb_refused
      { malloc_ok := true, name_value_add := fun _ _ _ => none,
        name_value_lookup := SPDY_name_value_lookup, build_response_ok := true,
        queue_response_ok := true, slist_append_ok := true }
      { Proxy.fresh 0 with version := some "HTTP/1.1".toList }
      "X-A".toList " ".toList "1".toList rfl rfl rfl (by decide) (by decide) (by decide)
      (by decide) (by decide) (by decide) (by decide) (by decide) rfl).2.1 (by decide)

/-! ### Header round trip -/

/-- C15, as stated, fails at the multimap of the spec: `accept` with the
values `a` and `b` is sent as the line `Accept: a, b`, which parses back to
the single value `a, b`; the binding of `accept` to the two values is not
in the result. -/
theorem headers_round_trip_counterexample :
    headers_round_trip
        [("accept".toList, ["a".toList, "b".toList]), ("x-y".toList, ["z".toList])]
      = Except.ok [("accept".toList, ["a, b".toList]), ("x-y".toList, ["z".toList])] ∧
    ("accept".toList, ["a".toList, "b".toList]) ∉
      [("accept".toList, ["a, b".toList]), ("x-y".toList, ["z".toList])] := by
  decide

theorem tolower_toupper (c : Char) (h : tolower c = c) : tolower (toupper c) = c := by
  by_cases hc : 97 ≤ c.toNat ∧ c.toNat ≤ 122
  · have hk := Char.ofNat_toNat c
    obtain ⟨h1, h2⟩ := hc
    clear h
    generalize c.toNat = k at hk h1 h2
    subst hk
    interval_cases k <;> decide
  · unfold toupper
    rw [if_neg hc]
    exact h

theorem toupper_cases (c : Char) :
    toupper c = c ∨ (65 ≤ (toupper c).toNat ∧ (toupper c).toNat ≤ 90) := by
  by_cases hc : 97 ≤ c.toNat ∧ c.toNat ≤ 122
  · exact Or.inr (toupper_of_lower c hc)
  · left
    unfold toupper
    rw [if_neg hc]

theorem toupper_ne (c x : Char) (hc : c ≠ x) (hx : ¬ (65 ≤ x.toNat ∧ x.toNat ≤ 90)) :
    toupper c ≠ x := by
  rcases toupper_cases c with h | h
  · rw [h]; exact hc
  · intro heq
    rw [heq] at h
    exact hx h

/-- The name part of an emitted line, for a lower-case name without `:`,
CR and NUL: it holds none of them either and lower-cases to the name. -/
theorem capitalized_name_props (name : List Char)
    (h : ∀ c ∈ name, tolower c = c ∧ c ≠ ':' ∧ c ≠ '\r' ∧ c ≠ NUL) :
    ':' ∉ (match name with
            | [] => []
            | c :: cs => toupper c :: cs) ∧
    '\r' ∉ (match name with
            | [] => []
            | c :: cs => toupper c :: cs) ∧
    NUL ∉ (match name with
            | [] => []
            | c :: cs => toupper c :: cs) ∧
    (match name with
      | [] => []
      | c :: cs => toupper c :: cs).map tolower = name := by
  cases name with
  | nil => simp
  | cons c cs =>
    have hc := h c (List.mem_cons_self _ _)
    have hcs : ∀ d ∈ cs, tolower d = d ∧ d ≠ ':' ∧ d ≠ '\r' ∧ d ≠ NUL :=
      fun d hd => h d (List.mem_cons_of_mem _ hd)
    refine ⟨?_, ?_, ?_, ?_⟩
    · intro hm
      rcases List.mem_cons.mp hm with h1 | h1
      · exact toupper_ne c ':' hc.2.1 (by decide) h1.symm
      · exact (hcs _ h1).2.1 rfl
    · intro hm
      rcases List.mem_cons.mp hm with h1 | h1
      · exact toupper_ne c '\r' hc.2.2.1 (by decide) h1.symm
      · exact (hcs _ h1).2.2.1 rfl
    · intro hm
      rcases List.mem_cons.mp hm with h1 | h1
      · exact toupper_ne c NUL hc.2.2.2 (by decide) h1.symm
      · exact (hcs _ h1).2.2.2 rfl
    · simp only [List.map_cons, tolower_toupper c hc.1, List.cons.injEq, true_and]
      conv_rhs => rw [← List.map_id cs]
      apply List.map_congr_left
      intro d hd
      exact (hcs d hd).1

theorem not_mem_intercalate (x : Char) (hx : x ∉ ", ".toList) (vs : List (List Char))
    (h : ∀ v ∈ vs, x ∉ v) : x ∉ List.intercalate ", ".toList vs := by
  cases vs with
  | nil => simp [List.intercalate]
  | cons v rest =>
    rw [intercalate_cons_eq]
    intro hm
    rcases List.mem_append.mp hm with h1 | h1
    · exact h v (List.mem_cons_self _ _) h1
    · rw [List.mem_flatten] at h1
      obtain ⟨l, hl, hxl⟩ := h1
      rw [List.mem_map] at hl
      obtain ⟨w, hw, rfl⟩ := hl
      rcases List.mem_append.mp hxl with h2 | h2
      · exact hx h2
      · exact h w (List.mem_cons_of_mem _ hw) h2

theorem head_intercalate (vs : List (List Char))
    (h : ∀ c, (vs.headD []).head? = some c → isspace c = false) :
    ∀ c, (List.intercalate ", ".toList vs).head? = some c → isspace c = false := by
  intro c hc
  cases vs with
  | nil => simp [List.intercalate] at hc
  | cons v rest =>
    rw [intercalate_cons_eq] at hc
    cases v with
    | cons d ds =>
      simp only [List.cons_append, List.head?_cons, Option.some.injEq] at hc
      exact h c (by rw [← hc]; rfl)
    | nil =>
      cases rest with
      | nil => simp at hc
      | cons w ws =>
        simp only [List.nil_append, List.map_cons, List.flatten_cons] at hc
        have h2 : (", ".toList ++ w ++ (List.map (fun w => ", ".toList ++ w) ws).flatten).head?
            = some ',' := rfl
        rw [h2] at hc
        simp only [Option.some.injEq] at hc
        rw [← hc]
        decide

theorem SPDY_name_value_add_fresh (m : SPDY_NameValue) (name value : List Char)
    (h : name ∉ m.map Prod.fst) :
    SPDY_name_value_add m name value = some (m ++ [(name, [value])]) := by
  induction m with
  | nil => rfl
  | cons e rest ih =>
    obtain ⟨n, vs⟩ := e
    have hn : ¬ n = name := by
      intro heq
      exact h (by simp [heq])
    have hrest : name ∉ rest.map Prod.fst := by
      intro hm
      exact h (by simp only [List.map_cons, List.mem_cons]; exact Or.inr hm)
    unfold SPDY_name_value_add
    rw [if_neg hn, ih hrest]
    rfl

/-- The line emitted for a translatable header parses back to the name
and the joined values, added to a multimap that does not hold the name
yet. -/
theorem curl_header_cb_translated (proxy : Proxy) (e : List Char × List (List Char))
    (he : translatable e) (hresp : proxy.response = none)
    (hver : proxy.version.isSome = true) (hfresh : e.1 ∉ proxy.headers.map Prod.fst) :
    curl_header_cb Env.spec proxy (http_header_line e.1 e.2)
      = Except.ok
          ({ proxy with
              headers := proxy.headers ++ [(e.1, [List.intercalate ", ".toList e.2])] },
           (http_header_line e.1 e.2).length) := by
  obtain ⟨hname, hconn, hkeep, hvals, hfirst⟩ := he
  obtain ⟨hn1, hn2, hn3, hn4⟩ := capitalized_name_props e.1 hname
  have hline : http_header_line e.1 e.2
      = (match e.1 with
          | [] => []
          | c :: cs => toupper c :: cs)
        ++ ':' :: ([' '] ++ List.intercalate ", ".toList e.2 ++ []) := by
    simp [http_header_line]
  have hcr : '\r' ∉ List.intercalate ", ".toList e.2 :=
    not_mem_intercalate '\r' (by decide) e.2 (fun v hv => (hvals v hv).1)
  have hnul : NUL ∉ List.intercalate ", ".toList e.2 :=
    not_mem_intercalate NUL (by decide) e.2 (fun v hv => (hvals v hv).2)
  have hhead := head_intercalate e.2 hfirst
  have h := curl_header_cb_value_line Env.spec proxy _ [' ']
    (List.intercalate ", ".toList e.2) [] rfl hresp hver hn1 hn2 hn3 (by decide) hcr hnul hhead
    (by simp) (Or.inl rfl) (by rw [hn4]; exact ⟨hconn, hkeep⟩)
  rw [hn4] at h
  have hadd : Env.spec.name_value_add proxy.headers e.1 (List.intercalate ", ".toList e.2)
      = some (proxy.headers ++ [(e.1, [List.intercalate ", ".toList e.2])]) :=
    SPDY_name_value_add_fresh _ _ _ hfresh
  rw [hadd] at h
  rw [hline]
  exact h

/-- The lines emitted for translatable headers with distinct names, fed to
a transaction that holds none of the names, add one entry per line. -/
theorem feed_headers_translated (m : SPDY_NameValue) :
    ∀ proxy : Proxy, proxy.response = none → proxy.version.isSome = true →
      (∀ e ∈ m, translatable e) → (m.map Prod.fst).Nodup →
      (∀ e ∈ m, e.1 ∉ proxy.headers.map Prod.fst) →
      feed_headers Env.spec proxy (m.map (fun e => http_header_line e.1 e.2))
        = Except.ok { proxy with
            headers := proxy.headers
              ++ m.map (fun e => (e.1, [List.intercalate ", ".toList e.2])) } := by
  induction m with
  | nil =>
    intro proxy _ _ _ _ _
    simp [feed_headers]
  | cons e rest ih =>
    intro proxy hresp hver hall hnodup hfresh
    have hstep := curl_header_cb_translated proxy e (hall e (List.mem_cons_self _ _)) hresp hver
      (hfresh e (List.mem_cons_self _ _))
    rw [List.map_cons, List.nodup_cons] at hnodup
    simp only [List.map_cons, feed_headers, hstep]
    have hnext := ih
      { proxy with
        headers := proxy.headers ++ [(e.1, [List.intercalate ", ".toList e.2])] }
      hresp hver (fun x hx => hall x (List.mem_cons_of_mem _ hx)) hnodup.2
      (by
        intro x hx
        simp only [List.map_append, List.map_cons, List.map_nil, List.mem_append,
          List.mem_singleton, not_or]
        refine ⟨hfresh x (List.mem_cons_of_mem _ hx), ?_⟩
        intro hxe
        exact hnodup.1 (hxe ▸ List.mem_map_of_mem Prod.fst hx))
    rw [hnext]
    simp

/-- C15, amended: for every SPDY header multimap with distinct, lower-case
names (without `:`, CR, NUL, not `connection` or `keep-alive`) and values
without CR and NUL, the first not beginning with white space, translating
each pair to a header line with `iterate_cb` and parsing the lines back
with the header-line rule of `curl_header_cb` yields the multimap that
binds each name to one value, its values joined with `", "`; it is the
original multimap when every name has exactly one value. -/
theorem headers_round_trip_joined (m : SPDY_NameValue)
    (hall : ∀ e ∈ m, translatable e) (hnodup : (m.map Prod.fst).Nodup) :
    headers_round_trip m
      = Except.ok (m.map (fun e => (e.1, [List.intercalate ", ".toList e.2]))) ∧
    ((∀ e ∈ m, ∃ v, e.2 = [v]) → headers_round_trip m = Except.ok m) := by
  have h1 : headers_round_trip m
      = Except.ok (m.map (fun e => (e.1, [List.intercalate ", ".toList e.2]))) := by
    unfold headers_round_trip
    rw [SPDY_name_value_iterate_eq Env.spec rfl rfl m (Proxy.fresh 0)]
    simp only []
    have hlines : (Proxy.fresh 0).curl_headers ++ m.map (fun e => http_header_line e.1 e.2)
        = m.map (fun e => http_header_line e.1 e.2) := by
      simp [Proxy.fresh]
    rw [hlines, feed_headers_translated m
      { Proxy.fresh 0 with version := some "HTTP/1.1".toList } rfl rfl hall hnodup
      (by simp [Proxy.fresh])]
    simp [Proxy.fresh]
  refine ⟨h1, fun hone => ?_⟩
  rw [h1]
  congr 1
  conv_rhs => rw [← List.map_id m]
  apply List.map_congr_left
  intro e he
  obtain ⟨v, hv⟩ := hone e he
  obtain ⟨n, vs⟩ := e
  simp only at hv
  subst hv
  simp [List.intercalate]

/-- C15, amended, at the multimap of the spec and at a single-valued
one. -/
theorem headers_round_trip_joined_witness :
    headers_round_trip
        [("accept".toList, ["a".toList, "b".toList]), ("x-y".toList, ["z".toList])]
      = Except.ok [("accept".toList, ["a, b".toList]), ("x-y".toList, ["z".toList])] ∧
    headers_round_trip [("accept".toList, ["a".toList]), ("x-y".toList, ["z".toList])]
      = Except.ok [("accept".toList, ["a".toList]), ("x-y".toList, ["z".toList])] := by
  have ht1 : ∀ e ∈ [("accept".toList, ["a".toList, "b".toList]), ("x-y".toList, ["z".toList])],
      translatable e := by
    intro e he
    simp only [List.mem_cons, List.mem_singleton, List.not_mem_nil, or_false] at he
    rcases he with rfl | rfl <;>
      exact ⟨by decide, by decide, by decide, by decide, by decide⟩
  have ht2 : ∀ e ∈ [("accept".toList, ["a".toList]), ("x-y".toList, ["z".toList])],
      translatable e := by
    intro e he
    simp only [List.mem_cons, List.mem_singleton, List.not_mem_nil, or_false] at he
    rcases he with rfl | rfl <;>
      exact ⟨by decide, by decide, by decide, by decide, by decide⟩
  constructor
  · exact (headers_round_trip_joined _ ht1 (by decide)).1
  · exact (headers_round_trip_joined _ ht2 (by decide)).2 (by
      intro e he
      simp only [List.mem_cons, List.mem_singleton, List.not_mem_nil, or_false] at he
      rcases he with rfl | rfl
      · exact ⟨"a".toList, rfl⟩
      · exact ⟨"z".toList, rfl⟩)

/-! ### Header translation: the size of the line buffer -/

theorem strcat_loop_length_le (vs : List (List Char)) :
    ∀ (i : Nat) (line : List Char), line.length ≤ (strcat_loop vs i line).length := by
  induction vs with
  | nil => intro i line; simp [strcat_loop]
  | cons v vs ih =>
    intro i line
    unfold strcat_loop
    refine le_trans ?_ (ih _ _)
    split_ifs <;> simp

/-- In a buffer that has room for the finished line and its NUL, every
`strcat` of the second loop writes inside the buffer, and the loop builds
the line it builds without the bound. -/
theorem strcat_loop_in_eq (size : Nat) (vs : List (List Char)) :
    ∀ (i : Nat) (line : List Char), (strcat_loop vs i line).length < size →
      strcat_loop_in size vs i line = some (strcat_loop vs i line) := by
  induction vs with
  | nil => intro i line _; simp [strcat_loop_in, strcat_loop]
  | cons v vs ih =>
    intro i line h
    unfold strcat_loop at h ⊢
    unfold strcat_loop_in
    have hle := strcat_loop_length_le vs (i + 1)
      ((if i ≠ 0 then line ++ ", ".toList else line) ++ v)
    by_cases hi : i = 0
    · subst hi
      simp only [ne_eq, not_true_eq_false, if_false] at h hle ⊢
      have h1 : line.length + v.length < size := by
        simp only [List.length_append] at hle
        omega
      simp only [strcat, h1, if_true]
      exact ih _ _ h
    · simp only [ne_eq, hi, not_false_eq_true, if_true] at h hle ⊢
      simp only [List.length_append] at hle
      have h1 : line.length + ", ".toList.length < size := by omega
      have h2 : (line ++ ", ".toList).length + v.length < size := by
        simp only [List.length_append]
        omega
      simp only [strcat, h1, h2, if_true]
      exact ih _ _ h

theorem line_len_loop_succ (vs : List (List Char)) :
    ∀ (i L : Nat), L + (vs.map (fun v => 2 + v.length)).sum < 2 ^ 31 →
      line_len_loop vs (i + 1) (L : Int)
        = ((L + (vs.map (fun v => 2 + v.length)).sum : Nat) : Int) := by
  induction vs with
  | nil => intro i L _; simp [line_len_loop]
  | cons v vs ih =>
    intro i L h
    simp only [List.map_cons, List.sum_cons] at h ⊢
    unfold line_len_loop
    have h1 : to_int ((L : Int) + 2) = ((L + 2 : Nat) : Int) := by
      rw [← to_int_of_lt (L + 2) (by omega)]
      push_cast
      rfl
    have h2 : to_int (((L + 2 : Nat) : Int) + (v.length : Int))
        = ((L + 2 + v.length : Nat) : Int) := by
      rw [← to_int_of_lt (L + 2 + v.length) (by omega)]
      push_cast
      rfl
    simp only [ne_eq, Nat.add_one_ne_zero, not_false_eq_true, if_true, h1, h2]
    have hnext : L + 2 + v.length + (vs.map (fun v => 2 + v.length)).sum < 2 ^ 31 := by omega
    have hih := ih (i + 1) (L + 2 + v.length) hnext
    rw [hih]
    have hsum : L + 2 + v.length + (vs.map (fun v => 2 + v.length)).sum
        = L + (2 + v.length + (vs.map (fun v => 2 + v.length)).sum) := by omega
    rw [hsum]

theorem sum_sep_length (vs : List (List Char)) :
    (vs.map (fun v => 2 + v.length)).sum = (vs.map List.length).sum + 2 * vs.length := by
  induction vs with
  | nil => rfl
  | cons v vs ih =>
    simp only [List.map_cons, List.sum_cons, List.length_cons, ih]
    omega

theorem length_flatten_sep (vs : List (List Char)) :
    ((vs.map (fun v => ", ".toList ++ v)).flatten).length
      = (vs.map (fun v => 2 + v.length)).sum := by
  induction vs with
  | nil => rfl
  | cons v vs ih =>
    simp only [List.map_cons, List.flatten_cons, List.length_append, List.sum_cons, ih]
    rfl

/-- The length of the values joined with `", "`. -/
theorem length_intercalate_sep (value : List (List Char)) :
    (List.intercalate ", ".toList value).length
      = (value.map List.length).sum + 2 * (value.length - 1) := by
  cases value with
  | nil => rfl
  | cons v vs =>
    rw [intercalate_cons_eq, List.length_append, length_flatten_sep, sum_sep_length]
    simp only [List.map_cons, List.sum_cons, List.length_cons, Nat.add_sub_cancel]
    omega

/-- The length of the header line. -/
theorem length_http_header_line (name : List Char) (value : List (List Char)) :
    (http_header_line name value).length
      = name.length + 2 + (value.map List.length).sum + 2 * (value.length - 1) := by
  unfold http_header_line
  rw [List.length_append, List.length_append, length_intercalate_sep]
  cases name with
  | nil => simp; omega
  | cons c cs => simp; omega

/-- The sum that the first loop stores in `line_len`, as long as it fits an
`int`. -/
theorem iterate_cb_line_len_eq (name : List Char) (value : List (List Char))
    (hfit : name.length + 3 + (value.map List.length).sum + 2 * (value.length - 1) < 2 ^ 31) :
    iterate_cb_line_len name value
      = ((name.length + 3 + (value.map List.length).sum + 2 * (value.length - 1) : Nat) : Int) := by
  unfold iterate_cb_line_len
  have h0 : to_int ((name.length : Int) + 3) = ((name.length + 3 : Nat) : Int) := by
    rw [← to_int_of_lt (name.length + 3) (by omega)]
    push_cast
    rfl
  rw [h0]
  cases value with
  | nil => simp [line_len_loop]
  | cons v vs =>
    simp only [List.map_cons, List.sum_cons, List.length_cons, Nat.add_sub_cancel] at hfit ⊢
    unfold line_len_loop
    have h1 : to_int (((name.length + 3 : Nat) : Int) + (v.length : Int))
        = ((name.length + 3 + v.length : Nat) : Int) := by
      rw [← to_int_of_lt (name.length + 3 + v.length) (by omega)]
      push_cast
      rfl
    simp only [ne_eq, not_true_eq_false, if_false, h1]
    have hs := sum_sep_length vs
    have hnext : name.length + 3 + v.length + (vs.map (fun v => 2 + v.length)).sum < 2 ^ 31 := by
      omega
    have hloop := line_len_loop_succ vs 0 (name.length + 3 + v.length) hnext
    rw [hloop, hs]
    have hsum : name.length + 3 + v.length + ((vs.map List.length).sum + 2 * vs.length)
        = name.length + 3 + (v.length + (vs.map List.length).sum) + 2 * vs.length := by omega
    rw [hsum]

/-- C21: for every header name and every list of values (the line with its
NUL fitting the `int` that `line_len` is), the `line_len` that `iterate_cb`
computes before it builds the line is the length of the finished line plus
one for the terminating NUL, that is
`strlen(name) + 2 + sum of the lengths of the values
+ 2 * max(num_values - 1, 0) + 1`; so, in the buffer of `line_len` bytes, no
statement from `line[0] = 0` to the last `strcat` writes outside the buffer,
and the line built there is the line `iterate_cb` appends to the outbound
headers. -/
theorem iterate_cb_line_len_exact (name : List Char) (value : List (List Char))
    (hfit : name.length + 2 + (value.map List.length).sum + 2 * (value.length - 1) + 1
      < 2 ^ 31) :
    iterate_cb_line_len name value = ((http_header_line name value).length : Int) + 1 ∧
    (http_header_line name value).length + 1
      = name.length + 2 + (value.map List.length).sum + 2 * (value.length - 1) + 1 ∧
    iterate_cb_line name value = some (http_header_line name value) ∧
    (∀ (env : Env) (proxy : Proxy), env.malloc_ok = true → env.slist_append_ok = true →
      iterate_cb env proxy name value =
        Except.ok
          ({ proxy with
              curl_headers := proxy.curl_headers ++ [http_header_line name value] }, 1)) := by
  have hlen := length_http_header_line name value
  have hll := iterate_cb_line_len_eq name value (by omega)
  have hll2 : iterate_cb_line_len name value
      = (((http_header_line name value).length + 1 : Nat) : Int) := by
    rw [hll, hlen]
    congr 1
    omega
  refine ⟨by rw [hll2]; push_cast; rfl, by rw [hlen], ?_,
    fun env proxy hmalloc happend => iterate_cb_eq env proxy name value hmalloc happend⟩
  unfold iterate_cb_line
  have hsize : to_size_t (iterate_cb_line_len name value)
      = (http_header_line name value).length + 1 := by
    rw [hll2]
    exact to_size_t_natCast _ (by omega)
  simp only [hsize]
  have hline : http_header_line name value
      = strcat_loop value 0 (toupper_first (([] ++ name) ++ ": ".toList)) := by
    unfold http_header_line
    rw [strcat_loop_zero]
    cases name with
    | nil =>
      have h : toupper ':' = ':' := by decide
      simp [toupper_first, h]
    | cons c cs => simp [toupper_first]
  have hup : ∀ l : List Char, (toupper_first l).length = l.length := by
    intro l
    cases l <;> rfl
  have hle := strcat_loop_length_le value 0 (toupper_first (([] ++ name) ++ ": ".toList))
  rw [← hline, hup] at hle
  simp only [List.nil_append, List.length_append] at hle
  have h2 : ": ".toList.length = 2 := rfl
  have hs1 : strcat ((http_header_line name value).length + 1) [] name = some name := by
    unfold strcat
    rw [if_pos (by simp only [List.length_nil]; omega)]
    rfl
  have hs2 : strcat ((http_header_line name value).length + 1) name ": ".toList
      = some (name ++ ": ".toList) := by
    unfold strcat
    rw [if_pos (by omega)]
  rw [if_neg (by omega), hs1]
  simp only [hs2]
  rw [strcat_loop_in_eq _ value 0 _ (by
    have := hline
    simp only [List.nil_append] at this
    rw [← this]
    omega)]
  simp only [List.nil_append] at hline
  rw [← hline]

/-- C21 at the header `accept` with the values `a` and `b`: `line_len` is
13, the line `Accept: a, b` has 12 characters, and it is built inside the
buffer of 13 bytes. -/
theorem iterate_cb_line_len_exact_witness :
    iterate_cb_line_len "accept".toList ["a".toList, "b".toList] = 13 ∧
    ("Accept: a, b".toList).length + 1 = 13 ∧
    iterate_cb_line "accept".toList ["a".toList, "b".toList] = some "Accept: a, b".toList := by
  have h := iterate_cb_line_len_exact "accept".toList ["a".toList, "b".toList] (by decide)
  have hl : http_header_line "accept".toList ["a".toList, "b".toList] = "Accept: a, b".toList := by
    decide
  rw [hl] at h
  exact ⟨h.1, by decide, h.2.2.1⟩

end Spdy2Http
